import Mathlib

/-!
# Fixed-capacity graph ADT (`main.c`, `grafo6.2.c`)

A shallow embedding of the two C programs of the repository and the properties
proved about them.

* C `int` values (keys, indices, `size`, `len`) are `Int`; no arithmetic on them
  can overflow in the code embedded here (`len` only grows up to `size`).
* Edge weights (`float`, returned as `double`) are only stored, copied and
  compared, never computed with; they are represented by the rational number a
  finite floating point value denotes.
* A failed `assert` is the result `none`.
* `malloc`/`calloc`/`List_New` are taken to succeed.
* Mutation through a pointer is explicit state passing: a function that mutates
  the graph returns the new graph next to its C return value.
-/

namespace GraphADT

/-! ## The neighbor list (`List.h`) -/

/-- Modelled from the spec: the element type `Data` of `List.h`, which is not among the
sources. The spec describes each entry as a pair `(neighbor_index, weight)`; the
sources read the fields `d.index` and `d.weight`. -/
structure Data where
  index : Int
  weight : ℚ
deriving DecidableEq

/-- Modelled from the spec: the container `List` of `List.h`, which is not among the
sources. The spec describes it as an ordered sequence of `(index, weight)` pairs
with a single movable cursor. `items` is the sequence, oldest entry first, and
`cursor` the position of the cursor in it (`cursor = items.length`, or more, is
past the end). -/
structure NeighborList where
  items : List Data
  cursor : Nat
deriving DecidableEq

/-- Modelled from the spec: `List_New` of `List.h` ("create empty"). -/
def List_New : NeighborList :=
  { items := [], cursor := 0 }

/-- Modelled from the spec: `List_Push_back` of `List.h` ("append an (index, weight)
pair at the back"). -/
def List_Push_back (list : NeighborList) (index : Int) (weight : ℚ) : NeighborList :=
  { list with items := list.items ++ [{ index := index, weight := weight }] }

/-- Modelled from the spec: `List_Find` of `List.h` ("linear membership test by
index"). -/
def List_Find (list : NeighborList) (index : Int) : Bool :=
  list.items.any (fun d => decide (d.index = index))

/-- Modelled from the spec: `List_Cursor_front` of `List.h` (cursor operation
"front"). -/
def List_Cursor_front (list : NeighborList) : NeighborList :=
  { list with cursor := 0 }

/-- Modelled from the spec: `List_Cursor_end` of `List.h` (cursor operation "at-end":
"true when cursor has advanced past the last neighbor (or the list is empty)"). -/
def List_Cursor_end (list : NeighborList) : Bool :=
  decide (list.items.length ≤ list.cursor)

/-- Modelled from the spec: `List_Cursor_next` of `List.h` (cursor operation "next":
"advances cursor one position"). -/
def List_Cursor_next (list : NeighborList) : NeighborList :=
  { list with cursor := list.cursor + 1 }

/-- Modelled from the spec: `List_Cursor_get` of `List.h` (cursor operation
"get-current"). Its precondition, "cursor at a valid position", is the argument
`h`. -/
def List_Cursor_get (list : NeighborList) (h : List_Cursor_end list = false) : Data :=
  list.items.get ⟨list.cursor, by simpa [List_Cursor_end] using h⟩

/-- Kind of graph (`eGraphType`). -/
inductive eGraphType where
  | eGraphType_UNDIRECTED
  | eGraphType_DIRECTED
deriving DecidableEq

/-! ## `main.c` -/

namespace MainC

/-- The vertex of `main.c`: `Item data; List* neighbors;` (`none` is `NULL`). -/
structure Vertex where
  data : Int
  neighbors : Option NeighborList
deriving DecidableEq

/-- A slot as `calloc` leaves it: all bytes zero. -/
instance : Inhabited Vertex := ⟨{ data := 0, neighbors := none }⟩

/-- The graph of `main.c`. `vertices` is the array allocated by `Graph_New`. -/
structure Graph where
  vertices : List Vertex
  size : Int
  len : Int
  type : eGraphType
deriving DecidableEq

/-- Read of `vertices[ i ]`. Every read in the code is at an index below `size`;
outside the array the model reads a zeroed slot. -/
def Graph.vertexAt (g : Graph) (i : Int) : Vertex :=
  g.vertices.getD i.toNat default

/-- Write of `vertices[ i ]`. -/
def Graph.setVertexAt (g : Graph) (i : Int) (v : Vertex) : Graph :=
  { g with vertices := g.vertices.set i.toNat v }

/-- The loop of `find`: `n` iterations remain, the loop variable is `i`. -/
def find_loop (vertices : List Vertex) (key : Int) : Nat → Nat → Int
  | 0, _ => -1
  | n + 1, i =>
    if (vertices.getD i default).data = key then (i : Int)
    else find_loop vertices key n (i + 1)

/-- Function `find`: index of the first of the `size` slots whose `data` is `key`, or -1. -/
def find (vertices : List Vertex) (size : Int) (key : Int) : Int :=
  find_loop vertices key size.toNat 0

/-- Function `find_neighbor`: is `index` already in the neighbor list of `v`. -/
def find_neighbor (v : Vertex) (index : Int) : Bool :=
  match v.neighbors with
  | some l => List_Find l index
  | none => false

/-- Function `insert`: create the neighbor list if there is none, then append
`(index, weigth)` unless `index` is already there. -/
def insert (vertex : Vertex) (index : Int) (weigth : ℚ) : Vertex :=
  let vertex : Vertex :=
    if vertex.neighbors.isNone then { vertex with neighbors := some List_New } else vertex
  match vertex.neighbors with
  | some l =>
    if !find_neighbor vertex index then
      { vertex with neighbors := some (List_Push_back l index weigth) }
    else vertex
  | none => vertex

/-- Function `Graph_New`: `none` when `assert( size > 0 )` fails. -/
def Graph_New (size : Int) (type : eGraphType) : Option Graph :=
  if size > 0 then
    some { vertices := List.replicate size.toNat default, size := size, len := 0, type := type }
  else none

/-- Function `Graph_AddVertex`: `none` when `assert( g->len < g->size )` fails. -/
def Graph_AddVertex (g : Graph) (data : Int) : Option Graph :=
  if g.len < g.size then
    let vertex := g.vertexAt g.len
    let vertex := { vertex with data := data }
    let vertex := { vertex with neighbors := none }
    let g := g.setVertexAt g.len vertex
    some { g with len := g.len + 1 }
  else none

/-- Function `Graph_GetSize`. -/
def Graph_GetSize (g : Graph) : Int := g.size

/-- Function `Graph_GetLen`. -/
def Graph_GetLen (g : Graph) : Int := g.len

/-- Function `Graph_AddEdge`: `none` when `assert( g->len > 0 )` fails, else the returned
boolean and the graph after the call. -/
def Graph_AddEdge (g : Graph) (start finish : Int) : Option (Bool × Graph) :=
  if g.len > 0 then
    let start_idx := find g.vertices g.size start
    let finish_idx := find g.vertices g.size finish
    if start_idx = -1 ∨ finish_idx = -1 then some (false, g)
    else
      let g := g.setVertexAt start_idx (insert (g.vertexAt start_idx) finish_idx 0)
      let g :=
        if g.type = eGraphType.eGraphType_UNDIRECTED then
          g.setVertexAt finish_idx (insert (g.vertexAt finish_idx) start_idx 0)
        else g
      some (true, g)
  else none

/-- Function `Graph_GetDataByIndex`: `none` when the assertion
`0 <= vertex_idx && vertex_idx < g->len` fails. -/
def Graph_GetDataByIndex (g : Graph) (vertex_idx : Int) : Option Int :=
  if 0 ≤ vertex_idx ∧ vertex_idx < g.len then some (g.vertexAt vertex_idx).data else none

/-- A call of the mutating interface of `main.c`. -/
inductive Op where
  | addVertex (data : Int)
  | addEdge (start finish : Int)
deriving DecidableEq

/-- One call; `none` when its assertion fails. -/
def Op.apply (g : Graph) : Op → Option Graph
  | Op.addVertex data => Graph_AddVertex g data
  | Op.addEdge start finish => (Graph_AddEdge g start finish).map Prod.snd

/-- A sequence of calls, first call first. -/
def runOps : Graph → List Op → Option Graph
  | g, [] => some g
  | g, op :: ops => (op.apply g).bind (fun g1 => runOps g1 ops)

/-- The graphs a client can build: `Graph_New`, then `Graph_AddVertex` and
`Graph_AddEdge` calls whose assertions hold. -/
def Reachable (g : Graph) : Prop :=
  ∃ (size : Int) (type : eGraphType) (ops : List Op),
    (Graph_New size type).bind (fun g0 => runOps g0 ops) = some g

/-- The neighbor indices stored at slot `i`, oldest first (empty when there is no
list). -/
def Graph.neighborIndices (g : Graph) (i : Int) : List Int :=
  match (g.vertexAt i).neighbors with
  | some l => l.items.map Data.index
  | none => []

end MainC

/-! ## `grafo6.2.c` -/

namespace Grafo62

/-- Colours for BFS (`eGraphColors`); `BLACK` is the value 0. -/
inductive eGraphColors where
  | BLACK
  | GRAY
  | WHITE
deriving DecidableEq

/-- The airport record; the `char` arrays are strings. -/
structure Airport where
  id : Int
  iata_code : String
  country : String
  city : String
  name : String
  utc_time : Int
deriving DecidableEq

/-- The vertex of `grafo6.2.c` (`none` is `NULL`). -/
structure Vertex where
  data : Int
  neighbors : Option NeighborList
  color : eGraphColors
  distance : Int
  predecessor : Int
  airport_info : Airport
deriving DecidableEq

/-- A slot as `calloc` leaves it: all bytes zero. -/
instance : Inhabited Vertex :=
  ⟨{ data := 0, neighbors := none, color := eGraphColors.BLACK, distance := 0,
     predecessor := 0,
     airport_info :=
       { id := 0, iata_code := "", country := "", city := "", name := "", utc_time := 0 } }⟩

/-- The graph of `grafo6.2.c`. `vertices` is the array allocated by `Graph_New`. -/
structure Graph where
  vertices : List Vertex
  size : Int
  len : Int
  type : eGraphType
deriving DecidableEq

/-- Read of `vertices[ i ]`. Every read in the code is at an index below `size`;
outside the array the model reads a zeroed slot. -/
def Graph.vertexAt (g : Graph) (i : Int) : Vertex :=
  g.vertices.getD i.toNat default

/-- Write of `vertices[ i ]`. -/
def Graph.setVertexAt (g : Graph) (i : Int) (v : Vertex) : Graph :=
  { g with vertices := g.vertices.set i.toNat v }

/-- The loop of `find`: `n` iterations remain, the loop variable is `i`. -/
def find_loop (vertices : List Vertex) (key : Int) : Nat → Nat → Int
  | 0, _ => -1
  | n + 1, i =>
    if (vertices.getD i default).data = key then (i : Int)
    else find_loop vertices key n (i + 1)

/-- Function `find`: index of the first of the `size` slots whose `data` is `key`, or -1. -/
def find (vertices : List Vertex) (size : Int) (key : Int) : Int :=
  find_loop vertices key size.toNat 0

/-- Function `find_neighbor`: is `index` already in the neighbor list of `v`. -/
def find_neighbor (v : Vertex) (index : Int) : Bool :=
  match v.neighbors with
  | some l => List_Find l index
  | none => false

/-- Function `insert`: create the neighbor list if there is none, then append
`(index, weigth)` unless `index` is already there. -/
def insert (vertex : Vertex) (index : Int) (weigth : ℚ) : Vertex :=
  let vertex : Vertex :=
    if vertex.neighbors.isNone then { vertex with neighbors := some List_New } else vertex
  match vertex.neighbors with
  | some l =>
    if !find_neighbor vertex index then
      { vertex with neighbors := some (List_Push_back l index weigth) }
    else vertex
  | none => vertex

/-- Function `Graph_New`: `none` when `assert( size > 0 )` fails. -/
def Graph_New (size : Int) (type : eGraphType) : Option Graph :=
  if size > 0 then
    some { vertices := List.replicate size.toNat default, size := size, len := 0, type := type }
  else none

/-- The cursor loop of `Graph_GetWeight`, entered after `List_Cursor_front`: at most
`n` entries remain from the cursor on. Returns the weight found, if any, and the
list with its cursor where the loop left it. -/
def GetWeight_loop (finish_idx : Int) : Nat → NeighborList → Option ℚ × NeighborList
  | 0, l => (none, l)
  | n + 1, l =>
    if h : List_Cursor_end l = true then (none, l)
    else
      let d := List_Cursor_get l (by simpa using h)
      if d.index = finish_idx then (some d.weight, l)
      else GetWeight_loop finish_idx n (List_Cursor_next l)

/-- Function `Graph_GetWeight`: `none` when `assert( g->len > 0 )` fails, else the returned
weight and the graph after the call (the cursor of the scanned list has moved). -/
def Graph_GetWeight (g : Graph) (start finish : Int) : Option (ℚ × Graph) :=
  if g.len > 0 then
    let start_idx := find g.vertices g.size start
    let finish_idx := find g.vertices g.size finish
    if start_idx = -1 ∨ finish_idx = -1 then some (-1, g)
    else
      let vertex := g.vertexAt start_idx
      match vertex.neighbors with
      | some l =>
        let r := GetWeight_loop finish_idx l.items.length (List_Cursor_front l)
        let g := g.setVertexAt start_idx { vertex with neighbors := some r.2 }
        match r.1 with
        | some w => some (w, g)
        | none => some (-1, g)
      | none => some (-1, g)
  else none

/-- Function `Graph_AddVertex`: `none` when `assert(g->len < g->size)` fails. The key
`data` of the new vertex is its index. -/
def Graph_AddVertex (g : Graph) (airport : Airport) : Option Graph :=
  if g.len < g.size then
    let vertex := g.vertexAt g.len
    let vertex := { vertex with data := g.len }
    let vertex := { vertex with neighbors := none }
    let vertex := { vertex with color := eGraphColors.BLACK }
    let vertex := { vertex with distance := 0 }
    let vertex := { vertex with predecessor := -1 }
    let vertex := { vertex with airport_info := airport }
    let g := g.setVertexAt g.len vertex
    some { g with len := g.len + 1 }
  else none

/-- Function `Graph_GetSize`. -/
def Graph_GetSize (g : Graph) : Int := g.size

/-- Function `Graph_GetLen`. -/
def Graph_GetLen (g : Graph) : Int := g.len

/-- Function `Graph_AddEdge`: `none` when `assert( g->len > 0 )` fails, else the returned
boolean and the graph after the call. -/
def Graph_AddEdge (g : Graph) (start finish : Int) : Option (Bool × Graph) :=
  if g.len > 0 then
    let start_idx := find g.vertices g.size start
    let finish_idx := find g.vertices g.size finish
    if start_idx = -1 ∨ finish_idx = -1 then some (false, g)
    else
      let g := g.setVertexAt start_idx (insert (g.vertexAt start_idx) finish_idx 0)
      let g :=
        if g.type = eGraphType.eGraphType_UNDIRECTED then
          g.setVertexAt finish_idx (insert (g.vertexAt finish_idx) start_idx 0)
        else g
      some (true, g)
  else none

/-- Function `Graph_AddWeightedEdge`: `none` when `assert( g->len > 0 )` fails, else the
returned boolean and the graph after the call. -/
def Graph_AddWeightedEdge (g : Graph) (start finish : Int) (weight : ℚ) :
    Option (Bool × Graph) :=
  if g.len > 0 then
    let start_idx := find g.vertices g.size start
    let finish_idx := find g.vertices g.size finish
    if start_idx = -1 ∨ finish_idx = -1 then some (false, g)
    else
      let g := g.setVertexAt start_idx (insert (g.vertexAt start_idx) finish_idx weight)
      let g :=
        if g.type = eGraphType.eGraphType_UNDIRECTED then
          g.setVertexAt finish_idx (insert (g.vertexAt finish_idx) start_idx weight)
        else g
      some (true, g)
  else none

/-- The cursor loop of `Graph_IsNeighborOf`, entered after `List_Cursor_front`: at
most `n` entries remain from the cursor on. Returns whether `dest_idx` was found
and the list with its cursor where the loop left it. -/
def IsNeighborOf_loop (dest_idx : Int) : Nat → NeighborList → Bool × NeighborList
  | 0, l => (false, l)
  | n + 1, l =>
    if h : List_Cursor_end l = true then (false, l)
    else
      let d := List_Cursor_get l (by simpa using h)
      if d.index = dest_idx then (true, l)
      else IsNeighborOf_loop dest_idx n (List_Cursor_next l)

/-- Function `Graph_IsNeighborOf`: `none` when `assert( g->len > 0 )` fails, else the
returned boolean and the graph after the call (the cursor of the scanned list has
moved). -/
def Graph_IsNeighborOf (g : Graph) (dest src : Int) : Option (Bool × Graph) :=
  if g.len > 0 then
    let src_idx := find g.vertices g.size src
    let dest_idx := find g.vertices g.size dest
    if src_idx = -1 ∨ dest_idx = -1 then some (false, g)
    else
      let src_vertex := g.vertexAt src_idx
      match src_vertex.neighbors with
      | some l =>
        let r := IsNeighborOf_loop dest_idx l.items.length (List_Cursor_front l)
        let g := g.setVertexAt src_idx { src_vertex with neighbors := some r.2 }
        some (r.1, g)
      | none => some (false, g)
  else none

/-- A call of the mutating interface of `grafo6.2.c`. -/
inductive Op where
  | addVertex (airport : Airport)
  | addEdge (start finish : Int)
  | addWeightedEdge (start finish : Int) (weight : ℚ)
deriving DecidableEq

/-- One call; `none` when its assertion fails. -/
def Op.apply (g : Graph) : Op → Option Graph
  | Op.addVertex airport => Graph_AddVertex g airport
  | Op.addEdge start finish => (Graph_AddEdge g start finish).map Prod.snd
  | Op.addWeightedEdge start finish weight =>
    (Graph_AddWeightedEdge g start finish weight).map Prod.snd

/-- A sequence of calls, first call first. -/
def runOps : Graph → List Op → Option Graph
  | g, [] => some g
  | g, op :: ops => (op.apply g).bind (fun g1 => runOps g1 ops)

/-- The graphs a client can build: `Graph_New`, then `Graph_AddVertex`,
`Graph_AddEdge` and `Graph_AddWeightedEdge` calls whose assertions hold. -/
def Reachable (g : Graph) : Prop :=
  ∃ (size : Int) (type : eGraphType) (ops : List Op),
    (Graph_New size type).bind (fun g0 => runOps g0 ops) = some g

/-- The entries stored at slot `i`, oldest first (empty when there is no list). -/
def Graph.neighborItems (g : Graph) (i : Int) : List Data :=
  match (g.vertexAt i).neighbors with
  | some l => l.items
  | none => []

end Grafo62

/-! ## Auxiliary definitions used in the statements and proofs -/

/-- The scan of `find` seen on the keys alone: `data i` is the key in slot `i`. -/
def findCore (data : Nat → Int) (key : Int) : Nat → Nat → Int
  | 0, _ => -1
  | n + 1, i => if data i = key then (i : Int) else findCore data key n (i + 1)

/-- What `insert` does to the field `neighbors`. -/
def insertCore (nb : Option NeighborList) (index : Int) (weigth : ℚ) : Option NeighborList :=
  match nb with
  | none => some (List_Push_back List_New index weigth)
  | some l => if List_Find l index then some l else some (List_Push_back l index weigth)

/-- The entries behind a field `neighbors`, oldest first; none when it is `NULL`. -/
def itemsOf (nb : Option NeighborList) : List Data :=
  match nb with
  | some l => l.items
  | none => []

/-- Does some entry of `items` have the index `k`. -/
def hasIndex (items : List Data) (k : Int) : Bool :=
  items.any (fun d => decide (d.index = k))

/-- The weight of the first entry of `items` whose index is `k`. -/
def firstWeight (items : List Data) (k : Int) : Option ℚ :=
  (items.find? (fun d => decide (d.index = k))).map Data.weight

/-- What a successful edge insertion between the slots `a` and `b` does to the field
`neighbors` of slot `i`: `insert` of `b` at slot `a`, then, in an undirected graph,
`insert` of `a` at slot `b`. -/
def edgeCore (type : eGraphType) (a b : Nat) (w : ℚ) (i : Nat)
    (nb : Option NeighborList) : Option NeighborList :=
  let n1 := if i = a then insertCore nb (b : Int) w else nb
  if type = eGraphType.eGraphType_UNDIRECTED ∧ i = b then insertCore n1 (a : Int) w else n1

/-- Well-formed graphs of `main.c`: the array has `size` slots, `len` is within
bounds, and no neighbor list holds an index twice. -/
structure MainC.WF (g : MainC.Graph) : Prop where
  size_pos : 0 < g.size
  length_eq : g.vertices.length = g.size.toNat
  len_nonneg : 0 ≤ g.len
  len_le : g.len ≤ g.size
  nodup : ∀ i : Nat, ((itemsOf (g.vertices.getD i default).neighbors).map Data.index).Nodup

/-- The graph of the demo of `main.c` after its five `Graph_AddVertex` calls:
capacity 5, undirected, vertices 100, 200, 300, 400, 500. -/
def MainC.demo_graph : MainC.Graph :=
  { vertices :=
      [{ data := 100, neighbors := none }, { data := 200, neighbors := none },
       { data := 300, neighbors := none }, { data := 400, neighbors := none },
       { data := 500, neighbors := none }],
    size := 5, len := 5, type := eGraphType.eGraphType_UNDIRECTED }

/-- Invariant of the reachable graphs of `grafo6.2.c`: the array has `size` slots,
`len` is within bounds, the key of an inserted vertex is its index, the slots not
yet inserted are zeroed (key 0, no neighbor list), every stored neighbor index is
the index of an inserted vertex, and in an undirected graph the first weight stored
for `j` at slot `i` is the first weight stored for `i` at slot `j`. -/
structure Grafo62.Inv (g : Grafo62.Graph) : Prop where
  size_pos : 0 < g.size
  length_eq : g.vertices.length = g.size.toNat
  len_nonneg : 0 ≤ g.len
  len_le : g.len ≤ g.size
  data_lt : ∀ i : Nat, (i : Int) < g.len → (g.vertices.getD i default).data = (i : Int)
  data_ge : ∀ i : Nat, g.len ≤ (i : Int) → (g.vertices.getD i default).data = 0
  none_ge : ∀ i : Nat, g.len ≤ (i : Int) → (g.vertices.getD i default).neighbors = none
  index_lt : ∀ i : Nat, ∀ d ∈ itemsOf (g.vertices.getD i default).neighbors,
    0 ≤ d.index ∧ d.index < g.len
  symm : g.type = eGraphType.eGraphType_UNDIRECTED → ∀ i j : Nat,
    firstWeight (itemsOf (g.vertices.getD i default).neighbors) (j : Int) =
      firstWeight (itemsOf (g.vertices.getD j default).neighbors) (i : Int)

/-- The graphs `g` and `g1` of `grafo6.2.c` differ at most in the cursors of their
neighbor lists (and in fields of a vertex other than its key and its entries). -/
def Grafo62.SameEdges (g g1 : Grafo62.Graph) : Prop :=
  g1.size = g.size ∧ g1.len = g.len ∧ g1.type = g.type ∧
  ∀ i : Nat, (g1.vertices.getD i default).data = (g.vertices.getD i default).data ∧
    itemsOf (g1.vertices.getD i default).neighbors =
      itemsOf (g.vertices.getD i default).neighbors

/-- The airports of the demo of `grafo6.2.c`. -/
def Grafo62.airport_MEX : Grafo62.Airport :=
  { id := 100, iata_code := "MEX", country := "MEXICO", city := "MEXICO CITY",
    name := "AEROPUERTO INTERNACIONAL BENITO JUÁREZ", utc_time := -6 }

/-- See `airport_MEX`. -/
def Grafo62.airport_LHR : Grafo62.Airport :=
  { id := 120, iata_code := "LHR", country := "UNITED KINGDOM", city := "LONDON",
    name := "LONDON HEATHROW", utc_time := 0 }

/-- See `airport_MEX`. -/
def Grafo62.airport_MAD : Grafo62.Airport :=
  { id := 130, iata_code := "MAD", country := "SPAIN", city := "MADRID",
    name := "MADRID-BARAJAS", utc_time := 1 }

/-- See `airport_MEX`. -/
def Grafo62.airport_FRA : Grafo62.Airport :=
  { id := 140, iata_code := "FRA", country := "GERMANY", city := "FRANKFURT",
    name := "FLUGHAFEN FRANKFURT AM MAIN", utc_time := 1 }

/-- See `airport_MEX`. -/
def Grafo62.airport_CDG : Grafo62.Airport :=
  { id := 150, iata_code := "CDG", country := "FRANCE", city := "PARIS",
    name := "CHARLES DE GAULLE", utc_time := 1 }

/-- The five `Graph_AddVertex` calls of the demo of `grafo6.2.c`, in its order. -/
def Grafo62.demo_vertices : List Grafo62.Op :=
  [Grafo62.Op.addVertex Grafo62.airport_MEX, Grafo62.Op.addVertex Grafo62.airport_LHR,
   Grafo62.Op.addVertex Grafo62.airport_MAD, Grafo62.Op.addVertex Grafo62.airport_FRA,
   Grafo62.Op.addVertex Grafo62.airport_CDG]

/-- The vertex `Graph_AddVertex` writes at index `i` for `airport`. -/
def Grafo62.fresh_vertex (i : Int) (airport : Grafo62.Airport) : Grafo62.Vertex :=
  { data := i, neighbors := none, color := Grafo62.eGraphColors.BLACK, distance := 0,
    predecessor := -1, airport_info := airport }

/-- The graph of the demo of `grafo6.2.c` after its five `Graph_AddVertex` calls:
capacity 5, directed. -/
def Grafo62.demo_graph : Grafo62.Graph :=
  { vertices :=
      [Grafo62.fresh_vertex 0 Grafo62.airport_MEX, Grafo62.fresh_vertex 1 Grafo62.airport_LHR,
       Grafo62.fresh_vertex 2 Grafo62.airport_MAD, Grafo62.fresh_vertex 3 Grafo62.airport_FRA,
       Grafo62.fresh_vertex 4 Grafo62.airport_CDG],
    size := 5, len := 5, type := eGraphType.eGraphType_DIRECTED }

/-- An undirected graph of capacity 2 holding the two airports MEX and LHR. -/
def Grafo62.pair_graph : Grafo62.Graph :=
  { vertices :=
      [Grafo62.fresh_vertex 0 Grafo62.airport_MEX, Grafo62.fresh_vertex 1 Grafo62.airport_LHR],
    size := 2, len := 2, type := eGraphType.eGraphType_UNDIRECTED }

/-- The graph `pair_graph` after `Graph_AddWeightedEdge(g, 0, 1, 1.0)`. -/
def Grafo62.pair_graph_edge : Grafo62.Graph :=
  { vertices :=
      [{ Grafo62.fresh_vertex 0 Grafo62.airport_MEX with
          neighbors := some { items := [{ index := 1, weight := 1 }], cursor := 0 } },
       { Grafo62.fresh_vertex 1 Grafo62.airport_LHR with
          neighbors := some { items := [{ index := 0, weight := 1 }], cursor := 0 } }],
    size := 2, len := 2, type := eGraphType.eGraphType_UNDIRECTED }

/-- Function `Vertex_Start` of `main.c`: `List_Cursor_front( v->neighbors )`; the
assertion `assert( v )` holds for every vertex value.
Modelled from the spec: what `List_Cursor_front` of the absent `List.h` does when
`v->neighbors` is `NULL`; the spec wants `Start` on an absent list to be no error,
so the vertex is left as it is. -/
def MainC.Vertex_Start (v : MainC.Vertex) : MainC.Vertex :=
  { v with neighbors := v.neighbors.map List_Cursor_front }

/-- Function `Vertex_Next` of `main.c`: `List_Cursor_next( v->neighbors )`. It is only
called with the cursor on an entry, so with a list; without one the vertex is left
as it is. -/
def MainC.Vertex_Next (v : MainC.Vertex) : MainC.Vertex :=
  { v with neighbors := v.neighbors.map List_Cursor_next }

/-- Function `Vertex_End` of `main.c`: `List_Cursor_end( v->neighbors )`.
Modelled from the spec: what `List_Cursor_end` of the absent `List.h` returns when
`v->neighbors` is `NULL`; the spec wants `End` to be true right away for an absent
list. -/
def MainC.Vertex_End (v : MainC.Vertex) : Bool :=
  match v.neighbors with
  | some l => List_Cursor_end l
  | none => true

/-- Function `Vertex_GetNeighborIndex` of `main.c`: `List_Cursor_get( v->neighbors )`.
Its precondition, the cursor is on an entry, is the argument `h`. -/
def MainC.Vertex_GetNeighborIndex (v : MainC.Vertex) (h : MainC.Vertex_End v = false) :
    Data :=
  match hn : v.neighbors with
  | some l => List_Cursor_get l (by simpa [MainC.Vertex_End, hn] using h)
  | none => absurd h (by simp [MainC.Vertex_End, hn])

/-- The loop `while (!Vertex_End(v)) { Vertex_GetNeighborIndex(v); Vertex_Next(v); }`
of `main` in `main.c`, run for at most `n` tests of `Vertex_End`: the entries read,
in the order read, and the vertex as the loop leaves it; `none` when the loop has not
ended by then. -/
def MainC.traverse_loop : Nat → MainC.Vertex → Option (List Data × MainC.Vertex)
  | 0, _ => none
  | n + 1, v =>
    if h : MainC.Vertex_End v = true then some ([], v)
    else
      let d := MainC.Vertex_GetNeighborIndex v (by simpa using h)
      match MainC.traverse_loop n (MainC.Vertex_Next v) with
      | some (ds, v1) => some (d :: ds, v1)
      | none => none

/-- The traversal of `main` in `main.c`: `Vertex_Start(v)`, then the loop. -/
def MainC.traverse (n : Nat) (v : MainC.Vertex) : Option (List Data × MainC.Vertex) :=
  MainC.traverse_loop n (MainC.Vertex_Start v)

/-- The demo graph of `main.c` after `Graph_AddEdge(g, 100, 200)` and
`Graph_AddEdge(g, 100, 400)`. -/
def MainC.demo_graph_two_edges : MainC.Graph :=
  { vertices :=
      [{ data := 100,
         neighbors := some { items := [{ index := 1, weight := 0 }, { index := 3, weight := 0 }],
                             cursor := 0 } },
       { data := 200, neighbors := some { items := [{ index := 0, weight := 0 }], cursor := 0 } },
       { data := 300, neighbors := none },
       { data := 400, neighbors := some { items := [{ index := 0, weight := 0 }], cursor := 0 } },
       { data := 500, neighbors := none }],
    size := 5, len := 5, type := eGraphType.eGraphType_UNDIRECTED }

/-- The graph of `main.c` built by `Graph_New(2, UNDIRECTED)` and
`Graph_AddVertex(g, 100)`: one inserted vertex, one slot still zeroed. -/
def MainC.half_full_graph : MainC.Graph :=
  { vertices := [{ data := 100, neighbors := none }, { data := 0, neighbors := none }],
    size := 2, len := 1, type := eGraphType.eGraphType_UNDIRECTED }

/-- The graph `half_full_graph` of `main.c` after `Graph_AddEdge(g, 0, 100)`. -/
def MainC.half_full_graph_edge : MainC.Graph :=
  { vertices :=
      [{ data := 100, neighbors := some { items := [{ index := 1, weight := 0 }], cursor := 0 } },
       { data := 0, neighbors := some { items := [{ index := 0, weight := 0 }], cursor := 0 } }],
    size := 2, len := 1, type := eGraphType.eGraphType_UNDIRECTED }

/-- The graph `Graph_New(2, DIRECTED)` of `grafo6.2.c` returns: no vertex yet. -/
def Grafo62.empty_graph : Grafo62.Graph :=
  { vertices := [default, default], size := 2, len := 0,
    type := eGraphType.eGraphType_DIRECTED }

/-- Function `Vertex_Start` of `grafo6.2.c`: `List_Cursor_front( v->neighbors )`; the
assertion `assert( v )` holds for every vertex value.
Modelled from the spec: what `List_Cursor_front` of the absent `List.h` does when
`v->neighbors` is `NULL`; the spec wants `Start` on an absent list to be no error,
so the vertex is left as it is. -/
def Grafo62.Vertex_Start (v : Grafo62.Vertex) : Grafo62.Vertex :=
  { v with neighbors := v.neighbors.map List_Cursor_front }

/-- Function `Vertex_Next` of `grafo6.2.c`: `List_Cursor_next( v->neighbors )`. It is
only called with the cursor on an entry, so with a list; without one the vertex is
left as it is. -/
def Grafo62.Vertex_Next (v : Grafo62.Vertex) : Grafo62.Vertex :=
  { v with neighbors := v.neighbors.map List_Cursor_next }

/-- Function `Vertex_End` of `grafo6.2.c`: `List_Cursor_end( v->neighbors )`.
Modelled from the spec: what `List_Cursor_end` of the absent `List.h` returns when
`v->neighbors` is `NULL`; the spec wants `End` to be true right away for an absent
list. -/
def Grafo62.Vertex_End (v : Grafo62.Vertex) : Bool :=
  match v.neighbors with
  | some l => List_Cursor_end l
  | none => true

/-- Function `Vertex_GetNeighborIndex` of `grafo6.2.c`:
`List_Cursor_get( v->neighbors )`. Its precondition, the cursor is on an entry, is
the argument `h`. -/
def Grafo62.Vertex_GetNeighborIndex (v : Grafo62.Vertex)
    (h : Grafo62.Vertex_End v = false) : Data :=
  match hn : v.neighbors with
  | some l => List_Cursor_get l (by simpa [Grafo62.Vertex_End, hn] using h)
  | none => absurd h (by simp [Grafo62.Vertex_End, hn])

/-- The loop `while (!Vertex_End(v)) { Vertex_GetNeighborIndex(v); Vertex_Next(v); }`
of `main` in `grafo6.2.c`, run for at most `n` tests of `Vertex_End`: the entries
read, in the order read, and the vertex as the loop leaves it; `none` when the loop
has not ended by then. The length of the list returned is the number of iterations
of the loop body. -/
def Grafo62.traverse_loop : Nat → Grafo62.Vertex → Option (List Data × Grafo62.Vertex)
  | 0, _ => none
  | n + 1, v =>
    if h : Grafo62.Vertex_End v = true then some ([], v)
    else
      let d := Grafo62.Vertex_GetNeighborIndex v (by simpa using h)
      match Grafo62.traverse_loop n (Grafo62.Vertex_Next v) with
      | some (ds, v1) => some (d :: ds, v1)
      | none => none

/-- The traversal of `main` in `grafo6.2.c`: `Vertex_Start(v)`, then the loop. -/
def Grafo62.traverse (n : Nat) (v : Grafo62.Vertex) :
    Option (List Data × Grafo62.Vertex) :=
  Grafo62.traverse_loop n (Grafo62.Vertex_Start v)

/-- Function `Vertex_SetColor` of `grafo6.2.c`. -/
def Grafo62.Vertex_SetColor (v : Grafo62.Vertex) (color : Grafo62.eGraphColors) :
    Grafo62.Vertex :=
  { v with color := color }

/-- Function `Vertex_GetColor` of `grafo6.2.c`. -/
def Grafo62.Vertex_GetColor (v : Grafo62.Vertex) : Grafo62.eGraphColors := v.color

/-- Function `Vertex_SetDistance` of `grafo6.2.c`. -/
def Grafo62.Vertex_SetDistance (v : Grafo62.Vertex) (distance : Int) : Grafo62.Vertex :=
  { v with distance := distance }

/-- Function `Vertex_GetDistance` of `grafo6.2.c`. -/
def Grafo62.Vertex_GetDistance (v : Grafo62.Vertex) : Int := v.distance

/-- Function `Vertex_SetPredecessor` of `grafo6.2.c`. -/
def Grafo62.Vertex_SetPredecessor (v : Grafo62.Vertex) (predecessor_idx : Int) :
    Grafo62.Vertex :=
  { v with predecessor := predecessor_idx }

/-- Function `Vertex_GetPredecessor` of `grafo6.2.c`. -/
def Grafo62.Vertex_GetPredecessor (v : Grafo62.Vertex) : Int := v.predecessor

/-- The weight a call of `grafo6.2.c` inserts, if it inserts an edge, is not
negative (`Graph_AddEdge` inserts the weight 0). -/
def Grafo62.Op.weight_nonneg : Grafo62.Op → Prop
  | Grafo62.Op.addWeightedEdge _ _ weight => 0 ≤ weight
  | _ => True

/-- The list the spec prescribes for one insertion (4.3, step 2): `(k, w)` is appended
at the end of `L` unless an entry of `L` already has the index `k`. -/
def spec_append_unless_present (L : List Data) (k : Int) (w : ℚ) : List Data :=
  if hasIndex L k then L else L ++ [{ index := k, weight := w }]

/-- The list the spec prescribes for slot `i` after a successful edge insertion
between the slots `a` (start) and `b` (finish) when `L` was its list before (4.3,
steps 2 and 3): the insertion of `b` at slot `a`, then, in an undirected graph, the
mirrored insertion of `a` at slot `b`; every other slot keeps its list. -/
def spec_list_after_edge (type : eGraphType) (a b : Nat) (w : ℚ) (i : Nat)
    (L : List Data) : List Data :=
  let L1 := if i = a then spec_append_unless_present L (b : Int) w else L
  if type = eGraphType.eGraphType_UNDIRECTED ∧ i = b then
    spec_append_unless_present L1 (a : Int) w
  else L1

/-- The demo graph of `main.c` after the first five `Graph_AddEdge` calls of `main`:
(100, 200), (100, 400), (200, 300), (200, 500), (300, 500). -/
def MainC.demo_graph_five_edges : MainC.Graph :=
  { vertices :=
      [{ data := 100,
         neighbors := some { items := [{ index := 1, weight := 0 }, { index := 3, weight := 0 }],
                             cursor := 0 } },
       { data := 200,
         neighbors := some { items := [{ index := 0, weight := 0 }, { index := 2, weight := 0 },
                                       { index := 4, weight := 0 }],
                             cursor := 0 } },
       { data := 300,
         neighbors := some { items := [{ index := 1, weight := 0 }, { index := 4, weight := 0 }],
                             cursor := 0 } },
       { data := 400, neighbors := some { items := [{ index := 0, weight := 0 }], cursor := 0 } },
       { data := 500,
         neighbors := some { items := [{ index := 1, weight := 0 }, { index := 2, weight := 0 }],
                             cursor := 0 } }],
    size := 5, len := 5, type := eGraphType.eGraphType_UNDIRECTED }

end GraphADT

namespace GraphADT

/-! ## Lists: reading and writing a slot -/

theorem getD_set_self {α : Type} (l : List α) (i : Nat) (v d : α) (h : i < l.length) :
    (l.set i v).getD i d = v := by
  simp [List.getD_eq_getElem?_getD, List.getElem?_set, h]

theorem getD_set_other {α : Type} (l : List α) (i j : Nat) (v d : α) (h : i ≠ j) :
    (l.set i v).getD j d = l.getD j d := by
  simp [List.getD_eq_getElem?_getD, List.getElem?_set, h]

theorem getD_beyond {α : Type} (l : List α) (i : Nat) (d : α) (h : l.length ≤ i) :
    l.getD i d = d := by
  simp [List.getD_eq_getElem?_getD, List.getElem?_eq_none h]

theorem getD_replicate_same {α : Type} (n i : Nat) (d : α) :
    (List.replicate n d).getD i d = d := by
  simp only [List.getD_eq_getElem?_getD, List.getElem?_replicate]
  split <;> rfl

/-! ## The key scan -/

theorem findCore_congr (d1 d2 : Nat → Int) (key : Int) (n i : Nat)
    (h : ∀ j, i ≤ j → j < i + n → d1 j = d2 j) :
    findCore d1 key n i = findCore d2 key n i := by
  induction n generalizing i with
  | zero => rfl
  | succ n ih =>
    simp only [findCore]
    rw [h i (Nat.le_refl i) (by omega)]
    rw [ih (i + 1) (fun j h1 h2 => h j (by omega) (by omega))]

/-- The scan returns -1 when no key matches, else the first matching position. -/
theorem findCore_spec (data : Nat → Int) (key : Int) (n i : Nat) :
    (findCore data key n i = -1 ∧ ∀ j, i ≤ j → j < i + n → data j ≠ key) ∨
    (∃ r : Nat, findCore data key n i = (r : Int) ∧ i ≤ r ∧ r < i + n ∧ data r = key ∧
      ∀ j, i ≤ j → j < r → data j ≠ key) := by
  induction n generalizing i with
  | zero =>
    left
    exact ⟨rfl, fun j h1 h2 => by omega⟩
  | succ n ih =>
    simp only [findCore]
    by_cases hk : data i = key
    · right
      refine ⟨i, by simp [hk], Nat.le_refl i, by omega, hk, fun j h1 h2 => by omega⟩
    · rw [if_neg hk]
      rcases ih (i + 1) with ⟨h1, h2⟩ | ⟨r, h1, h2, h3, h4, h5⟩
      · left
        refine ⟨h1, fun j hj1 hj2 => ?_⟩
        by_cases hji : j = i
        · subst hji; exact hk
        · exact h2 j (by omega) (by omega)
      · right
        refine ⟨r, h1, by omega, by omega, h4, fun j hj1 hj2 => ?_⟩
        by_cases hji : j = i
        · subst hji; exact hk
        · exact h5 j (by omega) hj2

theorem findCore_found (data : Nat → Int) (key : Int) (n : Nat)
    (h : findCore data key n 0 ≠ -1) :
    ∃ r : Nat, findCore data key n 0 = (r : Int) ∧ r < n ∧ data r = key ∧
      ∀ j, j < r → data j ≠ key := by
  rcases findCore_spec data key n 0 with ⟨h1, _⟩ | ⟨r, h1, _, h3, h4, h5⟩
  · exact absurd h1 h
  · exact ⟨r, h1, by omega, h4, fun j hj => h5 j (Nat.zero_le j) hj⟩

/-! ## The neighbor list -/

theorem hasIndex_append (xs ys : List Data) (k : Int) :
    hasIndex (xs ++ ys) k = (hasIndex xs k || hasIndex ys k) := by
  simp [hasIndex]

theorem itemsOf_insertCore (nb : Option NeighborList) (index : Int) (w : ℚ) :
    itemsOf (insertCore nb index w) =
      if hasIndex (itemsOf nb) index then itemsOf nb
      else itemsOf nb ++ [{ index := index, weight := w }] := by
  cases nb with
  | none => simp [insertCore, itemsOf, hasIndex, List_Push_back, List_New]
  | some l =>
    by_cases h : List_Find l index = true
    · have h2 : hasIndex l.items index = true := h
      simp [insertCore, itemsOf, h, h2]
    · have h2 : ¬ hasIndex l.items index = true := h
      simp [insertCore, itemsOf, h, h2, List_Push_back]

theorem insertCore_isSome (nb : Option NeighborList) (index : Int) (w : ℚ) :
    ∃ l, insertCore nb index w = some l := by
  cases nb with
  | none => exact ⟨_, rfl⟩
  | some l =>
    by_cases h : List_Find l index = true
    · exact ⟨l, by simp [insertCore, h]⟩
    · exact ⟨List_Push_back l index w, by simp [insertCore, h]⟩

theorem insertCore_of_hasIndex (nb : Option NeighborList) (index : Int) (w : ℚ)
    (h : hasIndex (itemsOf nb) index = true) : insertCore nb index w = nb := by
  cases nb with
  | none => simp [itemsOf, hasIndex] at h
  | some l =>
    have h2 : List_Find l index = true := h
    simp [insertCore, h2]

theorem hasIndex_insertCore_self (nb : Option NeighborList) (index : Int) (w : ℚ) :
    hasIndex (itemsOf (insertCore nb index w)) index = true := by
  rw [itemsOf_insertCore]
  by_cases h : hasIndex (itemsOf nb) index = true
  · simp [h]
  · rw [if_neg h, hasIndex_append]
    simp [hasIndex]

theorem hasIndex_iff_mem (items : List Data) (k : Int) :
    hasIndex items k = true ↔ k ∈ items.map Data.index := by
  simp [hasIndex]

theorem firstWeight_append (xs ys : List Data) (k : Int) :
    firstWeight (xs ++ ys) k = (firstWeight xs k).or (firstWeight ys k) := by
  simp only [firstWeight, List.find?_append]
  cases List.find? (fun d => decide (d.index = k)) xs <;> simp

theorem firstWeight_isSome (items : List Data) (k : Int) :
    (firstWeight items k).isSome = hasIndex items k := by
  induction items with
  | nil => rfl
  | cons d ds ih =>
    by_cases h : d.index = k
    · simp [firstWeight, hasIndex, h]
    · simpa [firstWeight, hasIndex, h] using ih

theorem firstWeight_eq_none (items : List Data) (k : Int) (h : hasIndex items k = false) :
    firstWeight items k = none := by
  have := firstWeight_isSome items k
  rw [h] at this
  cases hfw : firstWeight items k with
  | none => rfl
  | some w => rw [hfw] at this; simp at this

/-- The neighbor indices stay pairwise distinct under `insert`. -/
theorem nodup_insertCore (nb : Option NeighborList) (index : Int) (w : ℚ)
    (h : ((itemsOf nb).map Data.index).Nodup) :
    ((itemsOf (insertCore nb index w)).map Data.index).Nodup := by
  rw [itemsOf_insertCore]
  by_cases hk : hasIndex (itemsOf nb) index = true
  · simpa [hk] using h
  · have hnot : index ∉ (itemsOf nb).map Data.index := fun hm =>
      hk ((hasIndex_iff_mem _ _).2 hm)
    simp only [hk, Bool.false_eq_true, if_false, List.map_append, List.map_cons, List.map_nil]
    rw [List.nodup_append]
    refine ⟨h, List.nodup_singleton _, ?_⟩
    intro x hx hx2
    simp at hx2
    subst hx2
    exact hnot hx

theorem list_ext_getD {α : Type} (l1 l2 : List α) (d : α) (hl : l1.length = l2.length)
    (h : ∀ i, l1.getD i d = l2.getD i d) : l1 = l2 := by
  apply List.ext_getElem hl
  intro i h1 h2
  have := h i
  simpa [List.getD_eq_getElem?_getD, List.getElem?_eq_getElem h1,
    List.getElem?_eq_getElem h2] using this

theorem hasIndex_insertCore_mono (nb : Option NeighborList) (j k : Int) (w : ℚ)
    (h : hasIndex (itemsOf nb) k = true) :
    hasIndex (itemsOf (insertCore nb j w)) k = true := by
  rw [itemsOf_insertCore]
  by_cases hj : hasIndex (itemsOf nb) j = true
  · simpa [hj] using h
  · rw [if_neg hj, hasIndex_append, h]
    rfl

/-! ## The effect of an edge insertion on one slot -/

theorem edgeCore_idem (type : eGraphType) (a b : Nat) (w w2 : ℚ) (i : Nat)
    (nb : Option NeighborList) :
    edgeCore type a b w2 i (edgeCore type a b w i nb) = edgeCore type a b w i nb := by
  unfold edgeCore
  by_cases ha : i = a <;> by_cases hb : type = eGraphType.eGraphType_UNDIRECTED ∧ i = b
  · simp only [ha, if_true, hb, and_self]
    have hb2 : type = eGraphType.eGraphType_UNDIRECTED ∧ a = b := by rw [← ha]; exact hb
    simp only [hb2, and_self, if_true]
    have hab : a = b := hb2.2
    subst hab
    have h1 := hasIndex_insertCore_self (insertCore nb (a : Int) w) (a : Int) w
    rw [insertCore_of_hasIndex _ _ w2 h1, insertCore_of_hasIndex _ _ w2 h1]
  · simp only [ha, if_true]
    have hb2 : ¬ (type = eGraphType.eGraphType_UNDIRECTED ∧ a = b) := by rw [← ha]; exact hb
    simp only [hb2, if_false]
    exact insertCore_of_hasIndex _ _ w2 (hasIndex_insertCore_self nb (b : Int) w)
  · obtain ⟨ht, hib⟩ := hb
    subst hib
    simp only [ha, if_false, ht, and_self, if_true]
    exact insertCore_of_hasIndex _ _ w2 (hasIndex_insertCore_self nb (a : Int) w)
  · simp only [ha, if_false, hb]

theorem edgeCore_other (type : eGraphType) (a b : Nat) (w : ℚ) (i : Nat)
    (nb : Option NeighborList) (ha : i ≠ a) (hb : i ≠ b) :
    edgeCore type a b w i nb = nb := by
  simp [edgeCore, ha, hb]

theorem edgeCore_directed (a b : Nat) (w : ℚ) (i : Nat) (nb : Option NeighborList) :
    edgeCore eGraphType.eGraphType_DIRECTED a b w i nb =
      if i = a then insertCore nb (b : Int) w else nb := by
  simp [edgeCore]

theorem hasIndex_edgeCore_start (type : eGraphType) (a b : Nat) (w : ℚ)
    (nb : Option NeighborList) :
    hasIndex (itemsOf (edgeCore type a b w a nb)) (b : Int) = true := by
  unfold edgeCore
  simp only [if_true]
  split
  · exact hasIndex_insertCore_mono _ _ _ _ (hasIndex_insertCore_self nb (b : Int) w)
  · exact hasIndex_insertCore_self nb (b : Int) w

theorem hasIndex_edgeCore_finish (a b : Nat) (w : ℚ) (nb : Option NeighborList) :
    hasIndex (itemsOf (edgeCore eGraphType.eGraphType_UNDIRECTED a b w b nb)) (a : Int)
      = true := by
  unfold edgeCore
  simp only [true_and, if_true]
  exact hasIndex_insertCore_self _ (a : Int) w

theorem nodup_edgeCore (type : eGraphType) (a b : Nat) (w : ℚ) (i : Nat)
    (nb : Option NeighborList) (h : ((itemsOf nb).map Data.index).Nodup) :
    ((itemsOf (edgeCore type a b w i nb)).map Data.index).Nodup := by
  unfold edgeCore
  have h1 : ((itemsOf (if i = a then insertCore nb (b : Int) w else nb)).map
      Data.index).Nodup := by
    split
    · exact nodup_insertCore nb _ w h
    · exact h
  simp only
  split
  · exact nodup_insertCore _ _ w h1
  · exact h1

namespace MainC

/-! ## `main.c`: basic facts -/

theorem mainc_find_loop_eq (vs : List Vertex) (key : Int) (n i : Nat) :
    find_loop vs key n i = findCore (fun j => (vs.getD j default).data) key n i := by
  induction n generalizing i with
  | zero => rfl
  | succ n ih => simp only [find_loop, findCore, ih]

theorem mainc_find_eq (vs : List Vertex) (size key : Int) :
    find vs size key = findCore (fun j => (vs.getD j default).data) key size.toNat 0 :=
  mainc_find_loop_eq vs key size.toNat 0

theorem mainc_insert_eq (v : Vertex) (i : Int) (w : ℚ) :
    insert v i w = { v with neighbors := insertCore v.neighbors i w } := by
  cases v with
  | mk d nb =>
    cases nb with
    | none => simp [insert, insertCore, find_neighbor, List_Find, List_New]
    | some l =>
      by_cases h : List_Find l i = true <;> simp [insert, insertCore, find_neighbor, h]

theorem mainc_vertexAt_cast (g : Graph) (a : Nat) :
    g.vertexAt (a : Int) = g.vertices.getD a default := by
  simp [Graph.vertexAt]

/-- A successful `Graph_AddEdge`, slot by slot. -/
theorem mainc_addEdge_true (g g1 : Graph) (s f : Int)
    (hlen : g.vertices.length = g.size.toNat)
    (h : Graph_AddEdge g s f = some (true, g1)) :
    ∃ a b : Nat, find g.vertices g.size s = (a : Int) ∧ find g.vertices g.size f = (b : Int) ∧
      a < g.vertices.length ∧ b < g.vertices.length ∧ 0 < g.len ∧
      g1.size = g.size ∧ g1.len = g.len ∧ g1.type = g.type ∧
      g1.vertices.length = g.vertices.length ∧
      ∀ i : Nat, g1.vertices.getD i default =
        { g.vertices.getD i default with
          neighbors := edgeCore g.type a b 0 i (g.vertices.getD i default).neighbors } := by
  unfold Graph_AddEdge at h
  by_cases hl : g.len > 0
  · rw [if_pos hl] at h
    by_cases hs : find g.vertices g.size s = -1
    · simp [hs] at h
    · by_cases hf : find g.vertices g.size f = -1
      · simp [hf] at h
      · obtain ⟨a, ha1, ha2, -, -⟩ := findCore_found _ s g.size.toNat
          (by rw [← mainc_find_eq]; exact hs)
        obtain ⟨b, hb1, hb2, -, -⟩ := findCore_found _ f g.size.toNat
          (by rw [← mainc_find_eq]; exact hf)
        rw [← mainc_find_eq] at ha1 hb1
        have hane : ¬ ((a : Int) = -1) := by omega
        have hbne : ¬ ((b : Int) = -1) := by omega
        simp only [ha1, hb1, hane, hbne, or_self, if_false, Option.some.injEq,
          Prod.mk.injEq, true_and] at h
        refine ⟨a, b, ha1, hb1, by omega, by omega, hl, ?_⟩
        subst h
        have ha3 : a < g.vertices.length := by omega
        have hb3 : b < g.vertices.length := by omega
        by_cases ht : g.type = eGraphType.eGraphType_UNDIRECTED
        · simp only [Graph.setVertexAt, ht, if_true, Int.toNat_ofNat, List.length_set,
            mainc_vertexAt_cast, true_and]
          intro i
          by_cases hib : i = b
          · subst hib
            rw [getD_set_self _ _ _ _ (by simpa using hb3)]
            by_cases hia : i = a
            · subst hia
              rw [getD_set_self _ _ _ _ ha3]
              simp [mainc_insert_eq, edgeCore]
            · rw [getD_set_other _ _ _ _ _ (Ne.symm hia)]
              simp [mainc_insert_eq, edgeCore, hia]
          · rw [getD_set_other _ _ _ _ _ (Ne.symm hib)]
            by_cases hia : i = a
            · subst hia
              rw [getD_set_self _ _ _ _ ha3]
              simp [mainc_insert_eq, edgeCore, hib]
            · rw [getD_set_other _ _ _ _ _ (Ne.symm hia)]
              simp [edgeCore, hib, hia]
        · simp only [Graph.setVertexAt, ht, if_false, Int.toNat_ofNat, List.length_set,
            mainc_vertexAt_cast, true_and, false_and]
          intro i
          by_cases hia : i = a
          · subst hia
            rw [getD_set_self _ _ _ _ ha3]
            simp [mainc_insert_eq, edgeCore, ht]
          · rw [getD_set_other _ _ _ _ _ (Ne.symm hia)]
            simp [edgeCore, ht, hia]
  · rw [if_neg hl] at h
    exact absurd h (by simp)

theorem mainc_addEdge_false (g g1 : Graph) (s f : Int)
    (h : Graph_AddEdge g s f = some (false, g1)) :
    g1 = g ∧ (find g.vertices g.size s = -1 ∨ find g.vertices g.size f = -1) := by
  unfold Graph_AddEdge at h
  by_cases hl : g.len > 0
  · rw [if_pos hl] at h
    by_cases hsf : find g.vertices g.size s = -1 ∨ find g.vertices g.size f = -1
    · rw [if_pos hsf] at h
      simp only [Option.some.injEq, Prod.mk.injEq, true_and] at h
      exact ⟨h.symm, hsf⟩
    · rw [if_neg hsf] at h
      simp at h
  · rw [if_neg hl] at h
    exact absurd h (by simp)

/-- With a non-empty graph and both keys found, `Graph_AddEdge` returns true. -/
theorem mainc_addEdge_found (g : Graph) (s f : Int) (hl : 0 < g.len)
    (hs : find g.vertices g.size s ≠ -1) (hf : find g.vertices g.size f ≠ -1) :
    ∃ g1, Graph_AddEdge g s f = some (true, g1) := by
  unfold Graph_AddEdge
  rw [if_pos hl, if_neg (by simp [hs, hf])]
  exact ⟨_, rfl⟩

/-! ## `main.c`: well-formedness of the reachable graphs -/

theorem mainc_wf_new (size : Int) (type : eGraphType) (g : Graph)
    (h : Graph_New size type = some g) : WF g := by
  unfold Graph_New at h
  by_cases hs : size > 0
  · rw [if_pos hs] at h
    simp only [Option.some.injEq] at h
    subst h
    refine ⟨hs, by simp, Int.le_refl 0, by simp; omega, fun i => ?_⟩
    simp only [getD_replicate_same]
    exact List.nodup_nil
  · rw [if_neg hs] at h
    exact absurd h (by simp)

theorem mainc_addVertex_some (g g1 : Graph) (d : Int) (h : Graph_AddVertex g d = some g1) :
    g.len < g.size ∧
      g1 = { g with vertices := g.vertices.set g.len.toNat { data := d, neighbors := none },
                    len := g.len + 1 } := by
  unfold Graph_AddVertex at h
  by_cases hl : g.len < g.size
  · rw [if_pos hl] at h
    simp only [Option.some.injEq] at h
    exact ⟨hl, by rw [← h]; rfl⟩
  · rw [if_neg hl] at h
    exact absurd h (by simp)

theorem mainc_wf_addVertex (g g1 : Graph) (d : Int) (hw : WF g)
    (h : Graph_AddVertex g d = some g1) : WF g1 := by
  obtain ⟨hl, rfl⟩ := mainc_addVertex_some g g1 d h
  refine ⟨hw.size_pos, by simpa using hw.length_eq, ?_, ?_, fun i => ?_⟩
  · have := hw.len_nonneg
    show 0 ≤ g.len + 1
    omega
  · show g.len + 1 ≤ g.size
    omega
  · show ((itemsOf ((g.vertices.set g.len.toNat _).getD i default).neighbors).map
      Data.index).Nodup
    by_cases hi : g.len.toNat = i
    · subst hi
      rw [getD_set_self _ _ _ _ (by have := hw.length_eq; have := hw.len_nonneg; omega)]
      exact List.nodup_nil
    · rw [getD_set_other _ _ _ _ _ hi]
      exact hw.nodup i

theorem mainc_wf_addEdge (g g1 : Graph) (s f : Int) (b : Bool) (hw : WF g)
    (h : Graph_AddEdge g s f = some (b, g1)) : WF g1 := by
  cases b with
  | false =>
    obtain ⟨rfl, -⟩ := mainc_addEdge_false g g1 s f h
    exact hw
  | true =>
    obtain ⟨a, c, -, -, -, -, -, h1, h2, -, h4, h5⟩ :=
      mainc_addEdge_true g g1 s f hw.length_eq h
    refine ⟨by rw [h1]; exact hw.size_pos, by rw [h4, h1]; exact hw.length_eq,
      by rw [h2]; exact hw.len_nonneg, by rw [h1, h2]; exact hw.len_le, fun i => ?_⟩
    rw [h5 i]
    exact nodup_edgeCore _ _ _ _ _ _ (hw.nodup i)

theorem mainc_wf_runOps (ops : List Op) (g g1 : Graph) (hw : WF g)
    (h : runOps g ops = some g1) : WF g1 := by
  induction ops generalizing g with
  | nil =>
    simp only [runOps, Option.some.injEq] at h
    subst h
    exact hw
  | cons op ops ih =>
    simp only [runOps] at h
    cases hop : op.apply g with
    | none => rw [hop] at h; simp at h
    | some g2 =>
      rw [hop] at h
      simp only [Option.some_bind] at h
      refine ih g2 ?_ h
      cases op with
      | addVertex d => exact mainc_wf_addVertex g g2 d hw hop
      | addEdge s f =>
        simp only [Op.apply] at hop
        cases hr : Graph_AddEdge g s f with
        | none => rw [hr] at hop; simp at hop
        | some r =>
          rw [hr] at hop
          simp only [Option.map_some', Option.some.injEq] at hop
          subst hop
          exact mainc_wf_addEdge g r.2 s f r.1 hw hr

theorem mainc_wf_of_reachable (g : Graph) (h : Reachable g) : WF g := by
  obtain ⟨size, type, ops, h⟩ := h
  cases h0 : Graph_New size type with
  | none => rw [h0] at h; simp at h
  | some g0 =>
    rw [h0] at h
    simp only [Option.some_bind] at h
    exact mainc_wf_runOps ops g0 g (mainc_wf_new size type g0 h0) h

/-! ## `main.c`: filling the graph -/

theorem mainc_addVertices (datas : List Int) (g : Graph)
    (h : g.len + (datas.length : Int) ≤ g.size) :
    ∃ g1, runOps g (datas.map Op.addVertex) = some g1 ∧
      g1.len = g.len + (datas.length : Int) ∧ g1.size = g.size := by
  induction datas generalizing g with
  | nil => exact ⟨g, rfl, by simp, rfl⟩
  | cons d ds ih =>
    simp only [List.length_cons, Nat.cast_add, Nat.cast_one] at h
    have hl : g.len < g.size := by omega
    obtain ⟨g2, hg2⟩ : ∃ g2, Graph_AddVertex g d = some g2 := by
      unfold Graph_AddVertex
      rw [if_pos hl]
      exact ⟨_, rfl⟩
    obtain ⟨-, hg2eq⟩ := mainc_addVertex_some g g2 d hg2
    have h2len : g2.len = g.len + 1 := by rw [hg2eq]
    have h2size : g2.size = g.size := by rw [hg2eq]
    obtain ⟨g1, hr, hlen, hsize⟩ := ih g2 (by rw [h2len, h2size]; omega)
    refine ⟨g1, ?_, ?_, ?_⟩
    · simp only [List.map_cons, runOps, Op.apply, hg2, Option.some_bind]
      exact hr
    · rw [hlen, h2len]
      simp only [List.length_cons, Nat.cast_add, Nat.cast_one]
      omega
    · rw [hsize, h2size]

/-! ## `main.c`: the properties -/

theorem mainc_neighborIndices_cast (g : Graph) (a : Nat) :
    g.neighborIndices (a : Int) =
      (itemsOf (g.vertices.getD a default).neighbors).map Data.index := by
  unfold Graph.neighborIndices
  rw [mainc_vertexAt_cast]
  cases (g.vertices.getD a default).neighbors <;> rfl

/-- C1: for every capacity `n > 0` and either kind, `Graph_New(n, kind)` succeeds, and
`n` successive `Graph_AddVertex` calls all pass their assertion `len < size`: after
the first `k` of them (`k ≤ n`) `Graph_GetLen` is `k` and `Graph_GetSize` is `n`, so
after all of them `Graph_GetLen` is `n`; on that graph one more `Graph_AddVertex`
fails its assertion, whatever the payload. -/
theorem C1_fill_to_capacity (n : Int) (kind : eGraphType) (datas : List Int)
    (hn : 0 < n) (hlen : (datas.length : Int) = n) :
    ∃ g0, Graph_New n kind = some g0 ∧
      (∀ k : Nat, k ≤ datas.length →
        ∃ gk, runOps g0 ((datas.take k).map Op.addVertex) = some gk ∧
          Graph_GetLen gk = (k : Int) ∧ Graph_GetSize gk = n) ∧
      ∃ g, runOps g0 (datas.map Op.addVertex) = some g ∧
        Graph_GetLen g = n ∧ Graph_GetSize g = n ∧
        ∀ d : Int, Graph_AddVertex g d = none := by
  have h0 : Graph_New n kind = some
      { vertices := List.replicate n.toNat default, size := n, len := 0, type := kind } := by
    unfold Graph_New
    rw [if_pos hn]
  refine ⟨_, h0, fun k hk => ?_, ?_⟩
  · obtain ⟨gk, h1, h2, h3⟩ := mainc_addVertices (datas.take k)
      { vertices := List.replicate n.toNat default, size := n, len := 0, type := kind }
      (by simp only [List.length_take]; omega)
    refine ⟨gk, h1, ?_, h3⟩
    simp only [List.length_take] at h2
    show gk.len = (k : Int)
    omega
  · obtain ⟨g, h1, h2, h3⟩ := mainc_addVertices datas
      { vertices := List.replicate n.toNat default, size := n, len := 0, type := kind }
      (by simp only; omega)
    simp only at h2 h3
    refine ⟨g, h1, by show g.len = n; omega, h3, fun d => ?_⟩
    unfold Graph_AddVertex
    rw [if_neg (by omega)]

/-- Witness of C1 for capacity 2 and the payloads 100, 200. -/
theorem C1_fill_to_capacity_witness :
    (0 : Int) < 2 ∧ (([100, 200] : List Int).length : Int) = 2 ∧
    ∃ g0, Graph_New 2 eGraphType.eGraphType_UNDIRECTED = some g0 ∧
      (∀ k : Nat, k ≤ ([100, 200] : List Int).length →
        ∃ gk, runOps g0 ((([100, 200] : List Int).take k).map Op.addVertex) = some gk ∧
          Graph_GetLen gk = (k : Int) ∧ Graph_GetSize gk = 2) ∧
      ∃ g, runOps g0 (([100, 200] : List Int).map Op.addVertex) = some g ∧
        Graph_GetLen g = 2 ∧ Graph_GetSize g = 2 ∧
        ∀ d : Int, Graph_AddVertex g d = none :=
  ⟨by decide, by decide,
    C1_fill_to_capacity 2 eGraphType.eGraphType_UNDIRECTED [100, 200] (by decide) (by decide)⟩

/-- C2 (failing input): in the graph built by `Graph_New(2, UNDIRECTED)` and
`Graph_AddVertex(g, 100)` the only inserted vertex has the data 100, so the key 0 is
the data of no inserted vertex; yet `Graph_AddEdge(g, 0, 100)` returns true, because
`find` scans all `size` slots and matches the zeroed slot 1, and it creates a
neighbor list in slot 1 and appends an entry to vertex 0. -/
theorem C2_addEdge_key_zero_resolves :
    ∃ g g1, (Graph_New 2 eGraphType.eGraphType_UNDIRECTED).bind
        (fun g0 => runOps g0 [Op.addVertex 100]) = some g ∧
      Graph_GetLen g = 1 ∧ Graph_GetDataByIndex g 0 = some 100 ∧
      find g.vertices g.size 0 = 1 ∧
      Graph_AddEdge g 0 100 = some (true, g1) ∧ g1 ≠ g ∧
      g.neighborIndices 0 = [] ∧ g.neighborIndices 1 = [] ∧
      (g.vertexAt 1).neighbors = none ∧
      g1.neighborIndices 0 = [1] ∧ g1.neighborIndices 1 = [0] := by
  refine ⟨{ vertices := [{ data := 100, neighbors := none }, default], size := 2, len := 1,
            type := eGraphType.eGraphType_UNDIRECTED }, _, by decide, by decide, by decide,
          by decide, rfl, by decide, by decide, by decide, by decide, by decide, by decide⟩

/-- C4: on every reachable graph, directed or not, when `Graph_AddEdge(g, start,
finish)` returns true, a second `Graph_AddEdge(g, start, finish)` returns true and
leaves the whole graph, so every neighbor list, as the first call left it; the
finish index is then exactly once in the list of the start vertex and, in an
undirected graph, the start index exactly once in the list of the finish vertex. -/
theorem C4_addEdge_idempotent (g g1 : Graph) (start finish : Int)
    (hg : Reachable g) (h : Graph_AddEdge g start finish = some (true, g1)) :
    Graph_AddEdge g1 start finish = some (true, g1) ∧
    (g1.neighborIndices (find g.vertices g.size start)).count
        (find g.vertices g.size finish) = 1 ∧
    (g.type = eGraphType.eGraphType_UNDIRECTED →
      (g1.neighborIndices (find g.vertices g.size finish)).count
        (find g.vertices g.size start) = 1) := by
  have hw := mainc_wf_of_reachable g hg
  have hw1 := mainc_wf_addEdge g g1 start finish true hw h
  obtain ⟨a, b, ha, hb, ha2, hb2, hl, h1, h2, h3, h4, h5⟩ :=
    mainc_addEdge_true g g1 start finish hw.length_eq h
  have hdata : ∀ i : Nat, (g1.vertices.getD i default).data = (g.vertices.getD i default).data :=
    fun i => by rw [h5 i]
  have hfind : ∀ key, find g1.vertices g1.size key = find g.vertices g.size key := by
    intro key
    rw [mainc_find_eq, mainc_find_eq, h1]
    exact findCore_congr _ _ key _ 0 (fun j _ _ => hdata j)
  refine ⟨?_, ?_, ?_⟩
  · obtain ⟨g2, hg2⟩ := mainc_addEdge_found g1 start finish (by rw [h2]; exact hl)
      (by rw [hfind, ha]; omega) (by rw [hfind, hb]; omega)
    obtain ⟨a', b', ha', hb', -, -, -, k1, k2, k3, k4, k5⟩ :=
      mainc_addEdge_true g1 g2 start finish hw1.length_eq hg2
    rw [hfind, ha] at ha'
    rw [hfind, hb] at hb'
    have haa : a' = a := by omega
    have hbb : b' = b := by omega
    subst haa hbb
    have hv : g2.vertices = g1.vertices := by
      apply list_ext_getD _ _ default k4
      intro i
      rw [k5 i, h5 i, h3]
      simp only [edgeCore_idem]
    have : g2 = g1 := by
      cases g2; cases g1
      simp only at k1 k2 k3 hv
      simp [k1, k2, k3, hv]
    rw [hg2, this]
  · rw [ha, hb]
    apply List.count_eq_one_of_mem
    · rw [mainc_neighborIndices_cast]
      exact hw1.nodup a
    · have := hasIndex_edgeCore_start g.type a b 0 (g.vertices.getD a default).neighbors
      rw [hasIndex_iff_mem] at this
      rw [mainc_neighborIndices_cast, h5 a]
      exact this
  · intro ht
    rw [ha, hb]
    apply List.count_eq_one_of_mem
    · rw [mainc_neighborIndices_cast]
      exact hw1.nodup b
    · have := hasIndex_edgeCore_finish a b 0 (g.vertices.getD b default).neighbors
      rw [hasIndex_iff_mem] at this
      rw [mainc_neighborIndices_cast, h5 b, ht]
      exact this

/-- Witness of C4, the scenario of the claim: capacity 5, undirected, vertices 100 to
500, `Graph_AddEdge(100, 200)` twice gives the list `[1]` for vertex 0 and `[0]` for
vertex 1. -/
theorem C4_addEdge_idempotent_witness :
    ∃ g1 : Graph, Reachable demo_graph ∧
      Graph_AddEdge demo_graph 100 200 = some (true, g1) ∧
      (Graph_AddEdge g1 100 200 = some (true, g1) ∧
        (g1.neighborIndices (find demo_graph.vertices demo_graph.size 100)).count
          (find demo_graph.vertices demo_graph.size 200) = 1 ∧
        (demo_graph.type = eGraphType.eGraphType_UNDIRECTED →
          (g1.neighborIndices (find demo_graph.vertices demo_graph.size 200)).count
            (find demo_graph.vertices demo_graph.size 100) = 1)) ∧
      g1.neighborIndices 0 = [1] ∧ g1.neighborIndices 1 = [0] :=
  ⟨_, ⟨5, eGraphType.eGraphType_UNDIRECTED,
      [Op.addVertex 100, Op.addVertex 200, Op.addVertex 300, Op.addVertex 400,
        Op.addVertex 500], by decide⟩,
    rfl,
    C4_addEdge_idempotent demo_graph _ 100 200
      ⟨5, eGraphType.eGraphType_UNDIRECTED,
        [Op.addVertex 100, Op.addVertex 200, Op.addVertex 300, Op.addVertex 400,
          Op.addVertex 500], by decide⟩ rfl,
    by decide, by decide⟩

end MainC

/-! ## First stored weight after an insertion -/

theorem firstWeight_single (k j : Int) (w : ℚ) :
    firstWeight [{ index := k, weight := w }] j = if j = k then some w else none := by
  by_cases h : k = j
  · subst h; simp [firstWeight]
  · have h2 : ¬ j = k := fun e => h e.symm
    simp [firstWeight, h, h2]

theorem firstWeight_insertCore (nb : Option NeighborList) (k j : Int) (w : ℚ) :
    firstWeight (itemsOf (insertCore nb k w)) j =
      if j = k ∧ firstWeight (itemsOf nb) k = none then some w
      else firstWeight (itemsOf nb) j := by
  rw [itemsOf_insertCore]
  by_cases hk : hasIndex (itemsOf nb) k = true
  · have hne : ¬ (firstWeight (itemsOf nb) k = none) := by
      intro hn
      have := firstWeight_isSome (itemsOf nb) k
      rw [hn, hk] at this
      simp at this
    simp [hk, hne]
  · have hnone : firstWeight (itemsOf nb) k = none :=
      firstWeight_eq_none _ _ (by simpa using hk)
    rw [if_neg hk, firstWeight_append, firstWeight_single]
    by_cases hj : j = k
    · subst hj
      simp [hnone]
    · simp [hj]

theorem edgeCore_undirected (a b : Nat) (w : ℚ) (i : Nat) (nb : Option NeighborList) :
    edgeCore eGraphType.eGraphType_UNDIRECTED a b w i nb =
      if i = a then insertCore nb (b : Int) w
      else if i = b then insertCore nb (a : Int) w else nb := by
  unfold edgeCore
  by_cases ha : i = a
  · subst ha
    by_cases hb : i = b
    · subst hb
      simp only [if_true, true_and]
      exact insertCore_of_hasIndex _ _ w (hasIndex_insertCore_self nb (i : Int) w)
    · simp [hb]
  · simp [ha]

/-- The first weight stored for `j` at slot `i` after an edge insertion between the
slots `a` and `b` of an undirected graph whose stored first weights are symmetric
for that pair: the new weight for the pair itself if it had none, else the old
one. -/
theorem firstWeight_edgeCore_undirected (nb : Nat → Option NeighborList) (a b : Nat)
    (w : ℚ) (i j : Nat)
    (hab : firstWeight (itemsOf (nb a)) (b : Int) = firstWeight (itemsOf (nb b)) (a : Int)) :
    firstWeight (itemsOf (edgeCore eGraphType.eGraphType_UNDIRECTED a b w i (nb i))) (j : Int) =
      if firstWeight (itemsOf (nb a)) (b : Int) = none ∧
          ((i = a ∧ j = b) ∨ (i = b ∧ j = a)) then some w
      else firstWeight (itemsOf (nb i)) (j : Int) := by
  rw [edgeCore_undirected]
  by_cases ha : i = a
  · subst ha
    rw [if_pos rfl, firstWeight_insertCore]
    by_cases hj : j = b
    · subst hj
      simp
    · have hj2 : ¬ ((j : Int) = (b : Int)) := by omega
      have hj3 : ¬ (i = b ∧ j = i) := fun h => hj (h.2.trans h.1)
      simp [hj, hj2, hj3]
  · rw [if_neg ha]
    by_cases hb : i = b
    · subst hb
      rw [if_pos rfl, firstWeight_insertCore, ← hab]
      by_cases hj : j = a
      · subst hj
        simp [ha]
      · have hj2 : ¬ ((j : Int) = (a : Int)) := by omega
        simp [hj, hj2, ha]
    · simp [ha, hb]

theorem firstWeight_edgeCore_directed (nb : Option NeighborList) (a b : Nat)
    (w : ℚ) (i : Nat) (j : Int) :
    firstWeight (itemsOf (edgeCore eGraphType.eGraphType_DIRECTED a b w i nb)) j =
      if i = a ∧ j = (b : Int) ∧ firstWeight (itemsOf nb) (b : Int) = none then some w
      else firstWeight (itemsOf nb) j := by
  rw [edgeCore_directed]
  by_cases ha : i = a
  · rw [if_pos ha, firstWeight_insertCore]
    simp [ha]
  · simp [ha]

/-- The entries at a slot after an edge insertion are the old ones, possibly followed
by new ones whose index is `a` or `b`. -/
theorem mem_itemsOf_edgeCore (type : eGraphType) (a b : Nat) (w : ℚ) (i : Nat)
    (nb : Option NeighborList) (d : Data) (hd : d ∈ itemsOf (edgeCore type a b w i nb)) :
    d ∈ itemsOf nb ∨ d.index = (a : Int) ∨ d.index = (b : Int) := by
  have key : ∀ (n : Option NeighborList) (k : Int), d ∈ itemsOf (insertCore n k w) →
      d ∈ itemsOf n ∨ d.index = k := by
    intro n k h
    rw [itemsOf_insertCore] at h
    split at h
    · exact Or.inl h
    · rcases List.mem_append.1 h with h | h
      · exact Or.inl h
      · right
        simp at h
        rw [h]
  unfold edgeCore at hd
  simp only at hd
  split at hd
  · rcases key _ _ hd with h | h
    · split at h
      · rcases key _ _ h with h | h
        · exact Or.inl h
        · exact Or.inr (Or.inr h)
      · exact Or.inl h
    · exact Or.inr (Or.inl h)
  · split at hd
    · rcases key _ _ hd with h | h
      · exact Or.inl h
      · exact Or.inr (Or.inr h)
    · exact Or.inl hd

theorem edgeCore_ne_none_iff (type : eGraphType) (a b : Nat) (w : ℚ) (i : Nat)
    (nb : Option NeighborList) (h : edgeCore type a b w i nb ≠ none) :
    nb ≠ none ∨ i = a ∨ i = b := by
  by_cases ha : i = a
  · exact Or.inr (Or.inl ha)
  · by_cases hb : i = b
    · exact Or.inr (Or.inr hb)
    · rw [edgeCore_other type a b w i nb ha hb] at h
      exact Or.inl h

namespace Grafo62

/-! ## `grafo6.2.c`: basic facts -/

theorem grafo_find_loop_eq (vs : List Vertex) (key : Int) (n i : Nat) :
    find_loop vs key n i = findCore (fun j => (vs.getD j default).data) key n i := by
  induction n generalizing i with
  | zero => rfl
  | succ n ih => simp only [find_loop, findCore, ih]

theorem grafo_find_eq (vs : List Vertex) (size key : Int) :
    find vs size key = findCore (fun j => (vs.getD j default).data) key size.toNat 0 :=
  grafo_find_loop_eq vs key size.toNat 0

theorem grafo_insert_eq (v : Vertex) (i : Int) (w : ℚ) :
    insert v i w = { v with neighbors := insertCore v.neighbors i w } := by
  cases v with
  | mk d nb c ds p ai =>
    cases nb with
    | none => simp [insert, insertCore, find_neighbor, List_Find, List_New]
    | some l =>
      by_cases h : List_Find l i = true <;> simp [insert, insertCore, find_neighbor, h]

theorem grafo_vertexAt_cast (g : Graph) (a : Nat) :
    g.vertexAt (a : Int) = g.vertices.getD a default := by
  simp [Graph.vertexAt]

theorem grafo_neighborItems_cast (g : Graph) (a : Nat) :
    g.neighborItems (a : Int) = itemsOf (g.vertices.getD a default).neighbors := by
  unfold Graph.neighborItems
  rw [grafo_vertexAt_cast]
  cases (g.vertices.getD a default).neighbors <;> rfl

/-- Function `Graph_AddEdge` is `Graph_AddWeightedEdge` with the weight 0. -/
theorem grafo_addEdge_eq (g : Graph) (s f : Int) :
    Graph_AddEdge g s f = Graph_AddWeightedEdge g s f 0 := rfl

/-- A successful `Graph_AddWeightedEdge`, slot by slot. -/
theorem grafo_addWeightedEdge_true (g g1 : Graph) (s f : Int) (w : ℚ)
    (hlen : g.vertices.length = g.size.toNat)
    (h : Graph_AddWeightedEdge g s f w = some (true, g1)) :
    ∃ a b : Nat, find g.vertices g.size s = (a : Int) ∧ find g.vertices g.size f = (b : Int) ∧
      a < g.vertices.length ∧ b < g.vertices.length ∧ 0 < g.len ∧
      g1.size = g.size ∧ g1.len = g.len ∧ g1.type = g.type ∧
      g1.vertices.length = g.vertices.length ∧
      ∀ i : Nat, g1.vertices.getD i default =
        { g.vertices.getD i default with
          neighbors := edgeCore g.type a b w i (g.vertices.getD i default).neighbors } := by
  unfold Graph_AddWeightedEdge at h
  by_cases hl : g.len > 0
  · rw [if_pos hl] at h
    by_cases hs : find g.vertices g.size s = -1
    · simp [hs] at h
    · by_cases hf : find g.vertices g.size f = -1
      · simp [hf] at h
      · obtain ⟨a, ha1, ha2, -, -⟩ := findCore_found _ s g.size.toNat
          (by rw [← grafo_find_eq]; exact hs)
        obtain ⟨b, hb1, hb2, -, -⟩ := findCore_found _ f g.size.toNat
          (by rw [← grafo_find_eq]; exact hf)
        rw [← grafo_find_eq] at ha1 hb1
        have hane : ¬ ((a : Int) = -1) := by omega
        have hbne : ¬ ((b : Int) = -1) := by omega
        simp only [ha1, hb1, hane, hbne, or_self, if_false, Option.some.injEq,
          Prod.mk.injEq, true_and] at h
        refine ⟨a, b, ha1, hb1, by omega, by omega, hl, ?_⟩
        subst h
        have ha3 : a < g.vertices.length := by omega
        have hb3 : b < g.vertices.length := by omega
        by_cases ht : g.type = eGraphType.eGraphType_UNDIRECTED
        · simp only [Graph.setVertexAt, ht, if_true, Int.toNat_ofNat, List.length_set,
            grafo_vertexAt_cast, true_and]
          intro i
          by_cases hib : i = b
          · subst hib
            rw [getD_set_self _ _ _ _ (by simpa using hb3)]
            by_cases hia : i = a
            · subst hia
              rw [getD_set_self _ _ _ _ ha3]
              simp [grafo_insert_eq, edgeCore]
            · rw [getD_set_other _ _ _ _ _ (Ne.symm hia)]
              simp [grafo_insert_eq, edgeCore, hia]
          · rw [getD_set_other _ _ _ _ _ (Ne.symm hib)]
            by_cases hia : i = a
            · subst hia
              rw [getD_set_self _ _ _ _ ha3]
              simp [grafo_insert_eq, edgeCore, hib]
            · rw [getD_set_other _ _ _ _ _ (Ne.symm hia)]
              simp [edgeCore, hib, hia]
        · simp only [Graph.setVertexAt, ht, if_false, Int.toNat_ofNat, List.length_set,
            grafo_vertexAt_cast, true_and, false_and]
          intro i
          by_cases hia : i = a
          · subst hia
            rw [getD_set_self _ _ _ _ ha3]
            simp [grafo_insert_eq, edgeCore, ht]
          · rw [getD_set_other _ _ _ _ _ (Ne.symm hia)]
            simp [edgeCore, ht, hia]
  · rw [if_neg hl] at h
    exact absurd h (by simp)

theorem grafo_addWeightedEdge_false (g g1 : Graph) (s f : Int) (w : ℚ)
    (h : Graph_AddWeightedEdge g s f w = some (false, g1)) :
    g1 = g ∧ (find g.vertices g.size s = -1 ∨ find g.vertices g.size f = -1) := by
  unfold Graph_AddWeightedEdge at h
  by_cases hl : g.len > 0
  · rw [if_pos hl] at h
    by_cases hsf : find g.vertices g.size s = -1 ∨ find g.vertices g.size f = -1
    · rw [if_pos hsf] at h
      simp only [Option.some.injEq, Prod.mk.injEq, true_and] at h
      exact ⟨h.symm, hsf⟩
    · rw [if_neg hsf] at h
      simp at h
  · rw [if_neg hl] at h
    exact absurd h (by simp)

/-- With a non-empty graph and both keys found, `Graph_AddWeightedEdge` returns
true. -/
theorem grafo_addWeightedEdge_found (g : Graph) (s f : Int) (w : ℚ) (hl : 0 < g.len)
    (hs : find g.vertices g.size s ≠ -1) (hf : find g.vertices g.size f ≠ -1) :
    ∃ g1, Graph_AddWeightedEdge g s f w = some (true, g1) := by
  unfold Graph_AddWeightedEdge
  rw [if_pos hl, if_neg (by simp [hs, hf])]
  exact ⟨_, rfl⟩

theorem grafo_addVertex_some (g g1 : Graph) (ap : Airport)
    (h : Graph_AddVertex g ap = some g1) :
    g.len < g.size ∧
      g1 = { g with
        vertices := g.vertices.set g.len.toNat
          { data := g.len, neighbors := none, color := eGraphColors.BLACK, distance := 0,
            predecessor := -1, airport_info := ap },
        len := g.len + 1 } := by
  unfold Graph_AddVertex at h
  by_cases hl : g.len < g.size
  · rw [if_pos hl] at h
    simp only [Option.some.injEq] at h
    exact ⟨hl, by rw [← h]; rfl⟩
  · rw [if_neg hl] at h
    exact absurd h (by simp)

/-! ## `grafo6.2.c`: the key of a vertex is its index -/

/-- On a graph that satisfies the invariant and is not empty, `find` returns the key
itself when it is the index of an inserted vertex, and -1 otherwise. -/
theorem grafo_find_inv (g : Graph) (hi : Inv g) (hl : 0 < g.len) (key : Int) :
    find g.vertices g.size key = if 0 ≤ key ∧ key < g.len then key else -1 := by
  rw [grafo_find_eq]
  have hsz := hi.len_le
  rcases findCore_spec (fun j => (g.vertices.getD j default).data) key g.size.toNat 0 with
    ⟨h1, h2⟩ | ⟨r, h1, -, h3, h4, h5⟩
  · rw [h1]
    by_cases hk : 0 ≤ key ∧ key < g.len
    · exfalso
      have := h2 key.toNat (Nat.zero_le _) (by omega)
      apply this
      show (g.vertices.getD key.toNat default).data = key
      rw [hi.data_lt key.toNat (by omega)]
      omega
    · rw [if_neg hk]
  · rw [h1]
    have h4 : (g.vertices.getD r default).data = key := h4
    have h5 : ∀ j, 0 ≤ j → j < r → (g.vertices.getD j default).data ≠ key := h5
    by_cases hr : (r : Int) < g.len
    · rw [hi.data_lt r hr] at h4
      rw [if_pos (by omega)]
      exact h4
    · exfalso
      rw [hi.data_ge r (by omega)] at h4
      have h0 := h5 0 (Nat.le_refl 0) (by omega)
      apply h0
      rw [hi.data_lt 0 (by simpa using hl)]
      simpa using h4

/-! ## `grafo6.2.c`: the invariant of the reachable graphs -/

theorem grafo_inv_new (size : Int) (type : eGraphType) (g : Graph)
    (h : Graph_New size type = some g) : Inv g := by
  unfold Graph_New at h
  by_cases hs : size > 0
  · rw [if_pos hs] at h
    simp only [Option.some.injEq] at h
    subst h
    refine ⟨hs, by simp, Int.le_refl 0, by simp; omega, ?_, ?_, ?_, ?_, ?_⟩
    · intro i hi
      simp only at hi
      omega
    · intro i _
      simp only [getD_replicate_same]
      rfl
    · intro i _
      simp only [getD_replicate_same]
      rfl
    · intro i d hd
      simp only [getD_replicate_same] at hd
      exact absurd hd (List.not_mem_nil d)
    · intro _ i j
      simp only [getD_replicate_same]
      rfl
  · rw [if_neg hs] at h
    exact absurd h (by simp)

/-- Function `Graph_AddVertex` leaves the entries of every slot as they were: the slot it
fills had no neighbor list. -/
theorem grafo_addVertex_items (g g1 : Graph) (ap : Airport) (hi : Inv g)
    (h : Graph_AddVertex g ap = some g1) (i : Nat) :
    itemsOf (g1.vertices.getD i default).neighbors =
      itemsOf (g.vertices.getD i default).neighbors := by
  obtain ⟨hl, rfl⟩ := grafo_addVertex_some g g1 ap h
  have h0 := hi.len_nonneg
  have hlen := hi.length_eq
  show itemsOf ((g.vertices.set g.len.toNat _).getD i default).neighbors = _
  by_cases hk : g.len.toNat = i
  · subst hk
    rw [getD_set_self _ _ _ _ (by omega), hi.none_ge g.len.toNat (by omega)]
  · rw [getD_set_other _ _ _ _ _ hk]

theorem grafo_inv_addVertex (g g1 : Graph) (ap : Airport) (hi : Inv g)
    (h : Graph_AddVertex g ap = some g1) : Inv g1 := by
  have hitems := grafo_addVertex_items g g1 ap hi h
  obtain ⟨hl, hg1⟩ := grafo_addVertex_some g g1 ap h
  have h0 := hi.len_nonneg
  have hlen := hi.length_eq
  have hlen1 : g1.len = g.len + 1 := by rw [hg1]
  have hsize1 : g1.size = g.size := by rw [hg1]
  have htype1 : g1.type = g.type := by rw [hg1]
  have hvs : g1.vertices = g.vertices.set g.len.toNat
      { data := g.len, neighbors := none, color := eGraphColors.BLACK, distance := 0,
        predecessor := -1, airport_info := ap } := by rw [hg1]
  refine ⟨by rw [hsize1]; exact hi.size_pos, by rw [hvs, hsize1]; simpa using hlen,
    by omega, by omega, ?_, ?_, ?_, ?_, ?_⟩
  · intro i hlt
    rw [hvs]
    by_cases hk : g.len.toNat = i
    · subst hk
      rw [getD_set_self _ _ _ _ (by omega)]
      show g.len = ((g.len.toNat : Nat) : Int)
      omega
    · rw [getD_set_other _ _ _ _ _ hk]
      exact hi.data_lt i (by omega)
  · intro i hge
    rw [hvs, getD_set_other _ _ _ _ _ (by omega)]
    exact hi.data_ge i (by omega)
  · intro i hge
    rw [hvs, getD_set_other _ _ _ _ _ (by omega)]
    exact hi.none_ge i (by omega)
  · intro i d hd
    rw [hitems i] at hd
    have := hi.index_lt i d hd
    omega
  · intro ht i j
    rw [hitems i, hitems j]
    exact hi.symm (by rw [← htype1]; exact ht) i j

/-- On a graph that satisfies the invariant, the two slots of a successful edge
insertion are slots of inserted vertices. -/
theorem grafo_addWeightedEdge_lt (g : Graph) (hi : Inv g) (hl : 0 < g.len) (key : Int)
    (a : Nat) (h : find g.vertices g.size key = (a : Int)) : (a : Int) < g.len ∧ key = a := by
  rw [grafo_find_inv g hi hl key] at h
  by_cases hk : 0 ≤ key ∧ key < g.len
  · rw [if_pos hk] at h
    omega
  · rw [if_neg hk] at h
    omega

theorem grafo_inv_addWeightedEdge (g g1 : Graph) (s f : Int) (w : ℚ) (b : Bool)
    (hi : Inv g) (h : Graph_AddWeightedEdge g s f w = some (b, g1)) : Inv g1 := by
  cases b with
  | false =>
    obtain ⟨rfl, -⟩ := grafo_addWeightedEdge_false g g1 s f w h
    exact hi
  | true =>
    obtain ⟨a, c, ha, hc, -, -, hl, h1, h2, h3, h4, h5⟩ :=
      grafo_addWeightedEdge_true g g1 s f w hi.length_eq h
    obtain ⟨ha2, -⟩ := grafo_addWeightedEdge_lt g hi hl s a ha
    obtain ⟨hc2, -⟩ := grafo_addWeightedEdge_lt g hi hl f c hc
    refine ⟨by rw [h1]; exact hi.size_pos, by rw [h4, h1]; exact hi.length_eq,
      by rw [h2]; exact hi.len_nonneg, by rw [h1, h2]; exact hi.len_le, ?_, ?_, ?_, ?_, ?_⟩
    · intro i hlt
      rw [h5 i]
      exact hi.data_lt i (by omega)
    · intro i hge
      rw [h5 i]
      exact hi.data_ge i (by omega)
    · intro i hge
      rw [h5 i]
      show edgeCore g.type a c w i (g.vertices.getD i default).neighbors = none
      rw [edgeCore_other _ _ _ _ _ _ (by omega) (by omega)]
      exact hi.none_ge i (by omega)
    · intro i d hd
      rw [h5 i] at hd
      rcases mem_itemsOf_edgeCore _ _ _ _ _ _ d hd with hd | hd | hd
      · have := hi.index_lt i d hd
        omega
      · omega
      · omega
    · intro ht i j
      rw [h3] at ht
      rw [h5 i, h5 j]
      simp only [ht]
      rw [firstWeight_edgeCore_undirected (fun k => (g.vertices.getD k default).neighbors)
          a c w i j (hi.symm ht a c),
        firstWeight_edgeCore_undirected (fun k => (g.vertices.getD k default).neighbors)
          a c w j i (hi.symm ht a c), hi.symm ht i j]
      have hcond : ((i = a ∧ j = c) ∨ (i = c ∧ j = a)) ↔ ((j = a ∧ i = c) ∨ (j = c ∧ i = a)) := by
        constructor <;> rintro (⟨p, q⟩ | ⟨p, q⟩)
        · exact Or.inr ⟨q, p⟩
        · exact Or.inl ⟨q, p⟩
        · exact Or.inr ⟨q, p⟩
        · exact Or.inl ⟨q, p⟩
      simp only [hcond]

theorem grafo_inv_runOps (ops : List Op) (g g1 : Graph) (hi : Inv g)
    (h : runOps g ops = some g1) : Inv g1 := by
  induction ops generalizing g with
  | nil =>
    simp only [runOps, Option.some.injEq] at h
    subst h
    exact hi
  | cons op ops ih =>
    simp only [runOps] at h
    cases hop : op.apply g with
    | none => rw [hop] at h; simp at h
    | some g2 =>
      rw [hop] at h
      simp only [Option.some_bind] at h
      refine ih g2 ?_ h
      cases op with
      | addVertex ap => exact grafo_inv_addVertex g g2 ap hi hop
      | addEdge s f =>
        simp only [Op.apply, grafo_addEdge_eq] at hop
        cases hr : Graph_AddWeightedEdge g s f 0 with
        | none => rw [hr] at hop; simp at hop
        | some r =>
          rw [hr] at hop
          simp only [Option.map_some', Option.some.injEq] at hop
          subst hop
          exact grafo_inv_addWeightedEdge g r.2 s f 0 r.1 hi hr
      | addWeightedEdge s f w =>
        simp only [Op.apply] at hop
        cases hr : Graph_AddWeightedEdge g s f w with
        | none => rw [hr] at hop; simp at hop
        | some r =>
          rw [hr] at hop
          simp only [Option.map_some', Option.some.injEq] at hop
          subst hop
          exact grafo_inv_addWeightedEdge g r.2 s f w r.1 hi hr

theorem grafo_inv_of_reachable (g : Graph) (h : Reachable g) : Inv g := by
  obtain ⟨size, type, ops, h⟩ := h
  cases h0 : Graph_New size type with
  | none => rw [h0] at h; simp at h
  | some g0 =>
    rw [h0] at h
    simp only [Option.some_bind] at h
    exact grafo_inv_runOps ops g0 g (grafo_inv_new size type g0 h0) h

/-! ## `grafo6.2.c`: the cursor loops -/

theorem firstWeight_cons (d : Data) (ds : List Data) (k : Int) :
    firstWeight (d :: ds) k = if d.index = k then some d.weight else firstWeight ds k := by
  by_cases h : d.index = k <;> simp [firstWeight, h]

theorem hasIndex_cons (d : Data) (ds : List Data) (k : Int) :
    hasIndex (d :: ds) k = if d.index = k then true else hasIndex ds k := by
  by_cases h : d.index = k <;> simp [hasIndex, h]

theorem cursor_get_eq (l : NeighborList) (h : List_Cursor_end l = false)
    (hlt : l.cursor < l.items.length) :
    l.items.drop l.cursor = List_Cursor_get l h :: l.items.drop (l.cursor + 1) := by
  rw [List.drop_eq_getElem_cons hlt]
  rfl

theorem getWeight_loop_items (fi : Int) (n : Nat) (l : NeighborList) :
    (GetWeight_loop fi n l).2.items = l.items := by
  induction n generalizing l with
  | zero => rfl
  | succ n ih =>
    unfold GetWeight_loop
    split
    · rfl
    · simp only
      split
      · rfl
      · rw [ih]
        rfl

/-- The loop of `Graph_GetWeight` finds the weight of the first entry, from the
cursor on, whose index is `fi`; the number of entries left is enough fuel. -/
theorem getWeight_loop_value (fi : Int) (n : Nat) (l : NeighborList)
    (hn : n = l.items.length - l.cursor) :
    (GetWeight_loop fi n l).1 = firstWeight (l.items.drop l.cursor) fi := by
  induction n generalizing l with
  | zero =>
    rw [List.drop_eq_nil_of_le (by omega)]
    rfl
  | succ n ih =>
    have hlt : l.cursor < l.items.length := by omega
    have hend : List_Cursor_end l = false := by simp [List_Cursor_end, hlt]
    unfold GetWeight_loop
    rw [dif_neg (by simp [hend])]
    simp only
    rw [cursor_get_eq l hend hlt, firstWeight_cons]
    split
    · rfl
    · rw [ih (List_Cursor_next l) (by simp only [List_Cursor_next]; omega)]
      rfl

theorem isNeighborOf_loop_items (di : Int) (n : Nat) (l : NeighborList) :
    (IsNeighborOf_loop di n l).2.items = l.items := by
  induction n generalizing l with
  | zero => rfl
  | succ n ih =>
    unfold IsNeighborOf_loop
    split
    · rfl
    · simp only
      split
      · rfl
      · rw [ih]
        rfl

/-- The loop of `Graph_IsNeighborOf` tells whether some entry, from the cursor on,
has the index `di`; the number of entries left is enough fuel. -/
theorem isNeighborOf_loop_value (di : Int) (n : Nat) (l : NeighborList)
    (hn : n = l.items.length - l.cursor) :
    (IsNeighborOf_loop di n l).1 = hasIndex (l.items.drop l.cursor) di := by
  induction n generalizing l with
  | zero =>
    rw [List.drop_eq_nil_of_le (by omega)]
    rfl
  | succ n ih =>
    have hlt : l.cursor < l.items.length := by omega
    have hend : List_Cursor_end l = false := by simp [List_Cursor_end, hlt]
    unfold IsNeighborOf_loop
    rw [dif_neg (by simp [hend])]
    simp only
    rw [cursor_get_eq l hend hlt, hasIndex_cons]
    split
    · rfl
    · rw [ih (List_Cursor_next l) (by simp only [List_Cursor_next]; omega)]
      rfl

/-! ## `grafo6.2.c`: the queries -/

/-- The value `Graph_GetWeight` returns on a non-empty graph. -/
theorem grafo_getWeight_value (g : Graph) (s f : Int) (hl : 0 < g.len) :
    (Graph_GetWeight g s f).map Prod.fst = some
      (if find g.vertices g.size s = -1 ∨ find g.vertices g.size f = -1 then -1
       else (firstWeight (itemsOf (g.vertexAt (find g.vertices g.size s)).neighbors)
              (find g.vertices g.size f)).getD (-1)) := by
  unfold Graph_GetWeight
  rw [if_pos hl]
  simp only
  split
  · rfl
  · cases hnb : (g.vertexAt (find g.vertices g.size s)).neighbors with
    | none => rfl
    | some l =>
      simp only
      rw [getWeight_loop_value _ _ (List_Cursor_front l) (by simp [List_Cursor_front])]
      simp only [List_Cursor_front, List.drop_zero, itemsOf]
      cases firstWeight l.items (find g.vertices g.size f) <;> rfl

/-- The value `Graph_IsNeighborOf` returns on a non-empty graph. -/
theorem grafo_isNeighborOf_value (g : Graph) (dest src : Int) (hl : 0 < g.len) :
    (Graph_IsNeighborOf g dest src).map Prod.fst = some
      (if find g.vertices g.size src = -1 ∨ find g.vertices g.size dest = -1 then false
       else hasIndex (itemsOf (g.vertexAt (find g.vertices g.size src)).neighbors)
              (find g.vertices g.size dest)) := by
  unfold Graph_IsNeighborOf
  rw [if_pos hl]
  simp only
  split
  · rfl
  · cases hnb : (g.vertexAt (find g.vertices g.size src)).neighbors with
    | none => rfl
    | some l =>
      simp only
      rw [isNeighborOf_loop_value _ _ (List_Cursor_front l) (by simp [List_Cursor_front])]
      simp only [List_Cursor_front, List.drop_zero, itemsOf, Option.map_some']

end Grafo62

theorem option_map_fst {α β : Type} (o : Option (α × β)) (x : α)
    (h : o.map Prod.fst = some x) : ∃ y, o = some (x, y) := by
  cases o with
  | none => simp at h
  | some p =>
    simp only [Option.map_some', Option.some.injEq] at h
    exact ⟨p.2, by rw [← h]⟩

namespace Grafo62

theorem sameEdges_refl (g : Graph) : SameEdges g g :=
  ⟨rfl, rfl, rfl, fun _ => ⟨rfl, rfl⟩⟩

/-- Writing back a vertex with the same key and the same entries changes neither
keys nor entries. -/
theorem grafo_setVertexAt_sameEdges (g : Graph) (i : Int) (v : Vertex)
    (hd : v.data = (g.vertexAt i).data)
    (hn : itemsOf v.neighbors = itemsOf (g.vertexAt i).neighbors) :
    SameEdges g (g.setVertexAt i v) := by
  refine ⟨rfl, rfl, rfl, fun k => ?_⟩
  show ((g.vertices.set i.toNat v).getD k default).data = _ ∧
    itemsOf ((g.vertices.set i.toNat v).getD k default).neighbors = _
  by_cases hk : i.toNat = k
  · subst hk
    by_cases hlt : i.toNat < g.vertices.length
    · rw [getD_set_self _ _ _ _ hlt]
      exact ⟨hd, hn⟩
    · rw [getD_beyond _ _ _ (by simpa using hlt), getD_beyond _ _ _ (by omega)]
      exact ⟨rfl, rfl⟩
  · rw [getD_set_other _ _ _ _ _ hk]
    exact ⟨rfl, rfl⟩

/-- Function `Graph_GetWeight` changes at most cursors. -/
theorem grafo_getWeight_sameEdges (g g1 : Graph) (s f : Int) (w : ℚ)
    (h : Graph_GetWeight g s f = some (w, g1)) : SameEdges g g1 := by
  unfold Graph_GetWeight at h
  by_cases hl : g.len > 0
  · rw [if_pos hl] at h
    simp only at h
    split at h
    · simp only [Option.some.injEq, Prod.mk.injEq] at h
      rw [← h.2]
      exact sameEdges_refl g
    · cases hnb : (g.vertexAt (find g.vertices g.size s)).neighbors with
      | none =>
        rw [hnb] at h
        simp only [Option.some.injEq, Prod.mk.injEq] at h
        rw [← h.2]
        exact sameEdges_refl g
      | some l =>
        rw [hnb] at h
        simp only at h
        have key : SameEdges g (g.setVertexAt (find g.vertices g.size s)
            { g.vertexAt (find g.vertices g.size s) with
              neighbors := some (GetWeight_loop (find g.vertices g.size f) l.items.length
                (List_Cursor_front l)).2 }) := by
          apply grafo_setVertexAt_sameEdges
          · rfl
          · rw [hnb]
            simp only [itemsOf, getWeight_loop_items]
            rfl
        split at h
        · simp only [Option.some.injEq, Prod.mk.injEq] at h
          rw [← h.2]
          exact key
        · simp only [Option.some.injEq, Prod.mk.injEq] at h
          rw [← h.2]
          exact key
  · rw [if_neg hl] at h
    exact absurd h (by simp)

/-- Function `Graph_IsNeighborOf` changes at most cursors. -/
theorem grafo_isNeighborOf_sameEdges (g g1 : Graph) (dest src : Int) (r : Bool)
    (h : Graph_IsNeighborOf g dest src = some (r, g1)) : SameEdges g g1 := by
  unfold Graph_IsNeighborOf at h
  by_cases hl : g.len > 0
  · rw [if_pos hl] at h
    simp only at h
    split at h
    · simp only [Option.some.injEq, Prod.mk.injEq] at h
      rw [← h.2]
      exact sameEdges_refl g
    · cases hnb : (g.vertexAt (find g.vertices g.size src)).neighbors with
      | none =>
        rw [hnb] at h
        simp only [Option.some.injEq, Prod.mk.injEq] at h
        rw [← h.2]
        exact sameEdges_refl g
      | some l =>
        rw [hnb] at h
        simp only [Option.some.injEq, Prod.mk.injEq] at h
        rw [← h.2]
        apply grafo_setVertexAt_sameEdges
        · rfl
        · rw [hnb]
          simp only [itemsOf, isNeighborOf_loop_items]
          rfl
  · rw [if_neg hl] at h
    exact absurd h (by simp)

theorem grafo_find_sameEdges (g g1 : Graph) (h : SameEdges g g1) (key : Int) :
    find g1.vertices g1.size key = find g.vertices g.size key := by
  rw [grafo_find_eq, grafo_find_eq, h.1]
  exact findCore_congr _ _ key _ 0 (fun j _ _ => (h.2.2.2 j).1)

theorem grafo_items_sameEdges (g g1 : Graph) (h : SameEdges g g1) (i : Int) :
    itemsOf (g1.vertexAt i).neighbors = itemsOf (g.vertexAt i).neighbors :=
  (h.2.2.2 i.toNat).2

/-- The value of `Graph_GetWeight` does not depend on the cursors. -/
theorem grafo_getWeight_congr (g g1 : Graph) (h : SameEdges g g1) (s f : Int) :
    (Graph_GetWeight g1 s f).map Prod.fst = (Graph_GetWeight g s f).map Prod.fst := by
  by_cases hl : 0 < g.len
  · rw [grafo_getWeight_value g1 s f (by rw [h.2.1]; exact hl), grafo_getWeight_value g s f hl]
    simp only [grafo_find_sameEdges g g1 h, grafo_items_sameEdges g g1 h]
  · have h1 : ¬ g1.len > 0 := by rw [h.2.1]; exact hl
    unfold Graph_GetWeight
    rw [if_neg hl, if_neg h1]

/-- The value of `Graph_IsNeighborOf` does not depend on the cursors. -/
theorem grafo_isNeighborOf_congr (g g1 : Graph) (h : SameEdges g g1) (dest src : Int) :
    (Graph_IsNeighborOf g1 dest src).map Prod.fst =
      (Graph_IsNeighborOf g dest src).map Prod.fst := by
  by_cases hl : 0 < g.len
  · rw [grafo_isNeighborOf_value g1 dest src (by rw [h.2.1]; exact hl),
      grafo_isNeighborOf_value g dest src hl]
    simp only [grafo_find_sameEdges g g1 h, grafo_items_sameEdges g g1 h]
  · have h1 : ¬ g1.len > 0 := by rw [h.2.1]; exact hl
    unfold Graph_IsNeighborOf
    rw [if_neg hl, if_neg h1]

theorem grafo_find_neighbor_eq (v : Vertex) (k : Int) :
    find_neighbor v k = hasIndex (itemsOf v.neighbors) k := by
  unfold find_neighbor
  cases v.neighbors <;> rfl

/-- The state after a successful `Graph_AddWeightedEdge` on a graph that satisfies
the invariant: the keys are the indices `a` and `b` of two inserted vertices, `find`
answers as before, and the entries of slot `i` are those `edgeCore` describes. -/
theorem grafo_after_edge (g g1 : Graph) (s f : Int) (w : ℚ) (hi : Inv g)
    (h : Graph_AddWeightedEdge g s f w = some (true, g1)) :
    ∃ a b : Nat, find g.vertices g.size s = (a : Int) ∧ find g.vertices g.size f = (b : Int) ∧
      0 < g.len ∧ g1.len = g.len ∧ g1.type = g.type ∧
      (∀ key, find g1.vertices g1.size key = find g.vertices g.size key) ∧
      (∀ i : Nat, g1.vertices.getD i default =
        { g.vertices.getD i default with
          neighbors := edgeCore g.type a b w i (g.vertices.getD i default).neighbors }) := by
  obtain ⟨a, b, ha, hb, -, -, hl, h1, h2, h3, h4, h5⟩ :=
    grafo_addWeightedEdge_true g g1 s f w hi.length_eq h
  refine ⟨a, b, ha, hb, hl, h2, h3, fun key => ?_, h5⟩
  rw [grafo_find_eq, grafo_find_eq, h1]
  exact findCore_congr _ _ key _ 0 (fun j _ _ => by rw [h5 j])

/-! ## `grafo6.2.c`: the properties -/

theorem demo_graph_reachable : Reachable demo_graph :=
  ⟨5, eGraphType.eGraphType_DIRECTED, demo_vertices, by decide⟩

theorem pair_graph_reachable : Reachable pair_graph :=
  ⟨2, eGraphType.eGraphType_UNDIRECTED,
    [Op.addVertex airport_MEX, Op.addVertex airport_LHR], by decide⟩

theorem pair_graph_edge_reachable : Reachable pair_graph_edge :=
  ⟨2, eGraphType.eGraphType_UNDIRECTED,
    [Op.addVertex airport_MEX, Op.addVertex airport_LHR, Op.addWeightedEdge 0 1 1],
    by decide⟩

/-- C3 (failing input): the demo of `grafo6.2.c`. After `Graph_New(5, DIRECTED)` and
the five `Graph_AddVertex` calls the keys of the vertices are 0 to 4, not the
airport ids, so `find` does not resolve 100, `Graph_AddWeightedEdge(g, 100, 120,
9.0)` and `Graph_AddWeightedEdge(g, 100, 130, 2.5)` return false and leave the graph
as it was, and then `Graph_GetWeight` is -1.0 for (100, 120), (100, 130) and
(120, 100), and `Graph_IsNeighborOf` is false for (120, 100) and (100, 120). -/
theorem C3_airport_scenario_adds_no_edge :
    (Graph_New 5 eGraphType.eGraphType_DIRECTED).bind (fun g0 => runOps g0 demo_vertices)
      = some demo_graph ∧
    find demo_graph.vertices demo_graph.size 100 = -1 ∧
    Graph_AddWeightedEdge demo_graph 100 120 9 = some (false, demo_graph) ∧
    Graph_AddWeightedEdge demo_graph 100 130 (5 / 2) = some (false, demo_graph) ∧
    Graph_GetWeight demo_graph 100 120 = some (-1, demo_graph) ∧
    Graph_GetWeight demo_graph 100 130 = some (-1, demo_graph) ∧
    Graph_GetWeight demo_graph 120 100 = some (-1, demo_graph) ∧
    Graph_IsNeighborOf demo_graph 120 100 = some (false, demo_graph) ∧
    Graph_IsNeighborOf demo_graph 100 120 = some (false, demo_graph) := by
  refine ⟨by decide, by decide, rfl, rfl, rfl, rfl, rfl, rfl, rfl⟩

/-- C5: on every reachable undirected graph, when `Graph_AddWeightedEdge(g, a, b, w)`
returns true, the calls `Graph_IsNeighborOf(g, b, a)` and then
`Graph_IsNeighborOf(g, a, b)` on the resulting graph both return true. -/
theorem C5_undirected_edge_adjacent_both_ways (g g1 : Graph) (a b : Int) (w : ℚ)
    (hg : Reachable g) (ht : g.type = eGraphType.eGraphType_UNDIRECTED)
    (h : Graph_AddWeightedEdge g a b w = some (true, g1)) :
    ∃ g2 g3, Graph_IsNeighborOf g1 b a = some (true, g2) ∧
      Graph_IsNeighborOf g2 a b = some (true, g3) := by
  have hi := grafo_inv_of_reachable g hg
  obtain ⟨x, y, hx, hy, hl, h2, h3, hfind, h5⟩ := grafo_after_edge g g1 a b w hi h
  have hl1 : 0 < g1.len := by rw [h2]; exact hl
  have hx1 : ¬ ((x : Int) = -1) := by omega
  have hy1 : ¬ ((y : Int) = -1) := by omega
  have v1 : (Graph_IsNeighborOf g1 b a).map Prod.fst = some true := by
    rw [grafo_isNeighborOf_value g1 b a hl1, hfind, hfind, hx, hy,
      if_neg (by simp [hx1, hy1]), grafo_vertexAt_cast, h5 x]
    exact congrArg some (hasIndex_edgeCore_start g.type x y w _)
  obtain ⟨g2, hg2⟩ := option_map_fst _ _ v1
  have hs := grafo_isNeighborOf_sameEdges g1 g2 b a true hg2
  have v2 : (Graph_IsNeighborOf g2 a b).map Prod.fst = some true := by
    rw [grafo_isNeighborOf_congr g1 g2 hs, grafo_isNeighborOf_value g1 a b hl1, hfind, hfind,
      hx, hy, if_neg (by simp [hx1, hy1]), grafo_vertexAt_cast, h5 y, ht]
    exact congrArg some (hasIndex_edgeCore_finish x y w _)
  obtain ⟨g3, hg3⟩ := option_map_fst _ _ v2
  exact ⟨g2, g3, hg2, hg3⟩

/-- Witness of C5: the undirected graph of MEX and LHR, edge (0, 1) of weight 9. -/
theorem C5_undirected_edge_adjacent_both_ways_witness :
    ∃ g1, Reachable pair_graph ∧ pair_graph.type = eGraphType.eGraphType_UNDIRECTED ∧
      Graph_AddWeightedEdge pair_graph 0 1 9 = some (true, g1) ∧
      ∃ g2 g3, Graph_IsNeighborOf g1 1 0 = some (true, g2) ∧
        Graph_IsNeighborOf g2 0 1 = some (true, g3) :=
  ⟨_, pair_graph_reachable, rfl, rfl,
    C5_undirected_edge_adjacent_both_ways pair_graph _ 0 1 9 pair_graph_reachable rfl rfl⟩

/-- C7: on every reachable directed graph, when the keys `a` and `b` resolve to
different vertices and `Graph_AddEdge(g, a, b)` returns true, `Graph_IsNeighborOf(g,
b, a)` is true afterwards, every vertex other than the one of `a`, so the vertex of
`b` and its neighbor list, is unchanged, and `Graph_IsNeighborOf(g, a, b)` returns
after the call what it returned before it. -/
theorem C7_directed_edge_one_way (g g1 : Graph) (a b : Int)
    (hg : Reachable g) (ht : g.type = eGraphType.eGraphType_DIRECTED)
    (hne : find g.vertices g.size a ≠ find g.vertices g.size b)
    (h : Graph_AddEdge g a b = some (true, g1)) :
    (Graph_IsNeighborOf g1 b a).map Prod.fst = some true ∧
    (∀ i : Nat, (i : Int) ≠ find g.vertices g.size a →
      g1.vertices.getD i default = g.vertices.getD i default) ∧
    g1.vertexAt (find g.vertices g.size b) = g.vertexAt (find g.vertices g.size b) ∧
    (Graph_IsNeighborOf g1 a b).map Prod.fst = (Graph_IsNeighborOf g a b).map Prod.fst := by
  have hi := grafo_inv_of_reachable g hg
  rw [grafo_addEdge_eq] at h
  obtain ⟨x, y, hx, hy, hl, h2, h3, hfind, h5⟩ := grafo_after_edge g g1 a b 0 hi h
  have hl1 : 0 < g1.len := by rw [h2]; exact hl
  have hx1 : ¬ ((x : Int) = -1) := by omega
  have hy1 : ¬ ((y : Int) = -1) := by omega
  have hxy : y ≠ x := by
    intro e
    apply hne
    rw [hx, hy, e]
  have hframe : ∀ i : Nat, i ≠ x →
      g1.vertices.getD i default = g.vertices.getD i default := by
    intro i hix
    rw [h5 i, ht, edgeCore_directed, if_neg hix]
  refine ⟨?_, ?_, ?_, ?_⟩
  · rw [grafo_isNeighborOf_value g1 b a hl1, hfind, hfind, hx, hy,
      if_neg (by simp [hx1, hy1]), grafo_vertexAt_cast, h5 x]
    exact congrArg some (hasIndex_edgeCore_start g.type x y 0 _)
  · intro i hix
    rw [hx] at hix
    exact hframe i (by omega)
  · rw [hy, grafo_vertexAt_cast, grafo_vertexAt_cast]
    exact hframe y hxy
  · rw [grafo_isNeighborOf_value g1 a b hl1, grafo_isNeighborOf_value g a b hl, hfind, hfind,
      hx, hy, grafo_vertexAt_cast, grafo_vertexAt_cast, hframe y hxy]

/-- Witness of C7: the directed demo graph, edge from key 0 to key 1. -/
theorem C7_directed_edge_one_way_witness :
    ∃ g1, Reachable demo_graph ∧ demo_graph.type = eGraphType.eGraphType_DIRECTED ∧
      find demo_graph.vertices demo_graph.size 0 ≠ find demo_graph.vertices demo_graph.size 1 ∧
      Graph_AddEdge demo_graph 0 1 = some (true, g1) ∧
      ((Graph_IsNeighborOf g1 1 0).map Prod.fst = some true ∧
      (∀ i : Nat, (i : Int) ≠ find demo_graph.vertices demo_graph.size 0 →
        g1.vertices.getD i default = demo_graph.vertices.getD i default) ∧
      g1.vertexAt (find demo_graph.vertices demo_graph.size 1) =
        demo_graph.vertexAt (find demo_graph.vertices demo_graph.size 1) ∧
      (Graph_IsNeighborOf g1 0 1).map Prod.fst =
        (Graph_IsNeighborOf demo_graph 0 1).map Prod.fst) :=
  ⟨_, demo_graph_reachable, rfl, by decide, rfl,
    C7_directed_edge_one_way demo_graph _ 0 1 demo_graph_reachable rfl (by decide) rfl⟩

/-- C8: on every graph with `len > 0` and for every pair of keys, `Graph_AddEdge(g,
start, finish)` returns a value, and it is the boolean and the graph that
`Graph_AddWeightedEdge(g, start, finish, 0.0)` returns. -/
theorem C8_addEdge_is_weight_zero (g : Graph) (start finish : Int) (hl : 0 < g.len) :
    (∃ r : Bool × Graph, Graph_AddEdge g start finish = some r) ∧
    Graph_AddEdge g start finish = Graph_AddWeightedEdge g start finish 0 := by
  refine ⟨?_, ?_⟩
  · unfold Graph_AddEdge
    rw [if_pos hl]
    simp only
    split
    · exact ⟨_, rfl⟩
    · exact ⟨_, rfl⟩
  · unfold Graph_AddEdge Graph_AddWeightedEdge
    rfl

/-- Witness of C8: the directed demo graph, keys 0 and 1. -/
theorem C8_addEdge_is_weight_zero_witness :
    0 < demo_graph.len ∧
    (∃ r : Bool × Graph, Graph_AddEdge demo_graph 0 1 = some r) ∧
    Graph_AddEdge demo_graph 0 1 = Graph_AddWeightedEdge demo_graph 0 1 0 :=
  ⟨by decide, C8_addEdge_is_weight_zero demo_graph 0 1 (by decide)⟩

/-- C6 (counterexample): the undirected graph of MEX and LHR with the edge (0, 1) of
weight 1.0 is reachable; on it `Graph_AddWeightedEdge(g, 0, 1, 2.0)` returns true
and changes nothing, and `Graph_GetWeight(g, 0, 1)` is then 1.0, not 2.0. -/
theorem C6_second_weight_is_dropped :
    Reachable pair_graph_edge ∧
    pair_graph_edge.type = eGraphType.eGraphType_UNDIRECTED ∧
    Graph_AddWeightedEdge pair_graph_edge 0 1 2 = some (true, pair_graph_edge) ∧
    Graph_GetWeight pair_graph_edge 0 1 = some (1, pair_graph_edge) ∧
    ¬ ∃ g2, Graph_GetWeight pair_graph_edge 0 1 = some (2, g2) := by
  refine ⟨pair_graph_edge_reachable, rfl, by decide, by decide, ?_⟩
  rintro ⟨g2, h2⟩
  have h1 : Graph_GetWeight pair_graph_edge 0 1 = some (1, pair_graph_edge) := by decide
  rw [h1] at h2
  simp only [Option.some.injEq, Prod.mk.injEq] at h2
  exact absurd h2.1 (by decide)

/-- C6 (amended): on every reachable undirected graph, when `Graph_AddWeightedEdge(g,
a, b, w)` returns true, `Graph_GetWeight(g, a, b)` and then `Graph_GetWeight(g, b,
a)` on the resulting graph return one and the same weight; it is `w` when the vertex
of `a` had no entry for the index of `b` before the call, and otherwise it is what
`Graph_GetWeight(g, a, b)` returned before the call. -/
theorem C6_undirected_weight_both_ways (g g1 : Graph) (a b : Int) (w : ℚ)
    (hg : Reachable g) (ht : g.type = eGraphType.eGraphType_UNDIRECTED)
    (h : Graph_AddWeightedEdge g a b w = some (true, g1)) :
    ∃ w1 g2 g3, Graph_GetWeight g1 a b = some (w1, g2) ∧
      Graph_GetWeight g2 b a = some (w1, g3) ∧
      (find_neighbor (g.vertexAt (find g.vertices g.size a)) (find g.vertices g.size b)
          = false → w1 = w) ∧
      (find_neighbor (g.vertexAt (find g.vertices g.size a)) (find g.vertices g.size b)
          = true → (Graph_GetWeight g a b).map Prod.fst = some w1) := by
  have hi := grafo_inv_of_reachable g hg
  obtain ⟨x, y, hx, hy, hl, h2, h3, hfind, h5⟩ := grafo_after_edge g g1 a b w hi h
  have hl1 : 0 < g1.len := by rw [h2]; exact hl
  have hx1 : ¬ ((x : Int) = -1) := by omega
  have hy1 : ¬ ((y : Int) = -1) := by omega
  have hsym := hi.symm ht x y
  have hF := firstWeight_edgeCore_undirected
    (fun k => (g.vertices.getD k default).neighbors) x y w
  have hxy : firstWeight (itemsOf (g1.vertices.getD x default).neighbors) (y : Int) =
      if firstWeight (itemsOf (g.vertices.getD x default).neighbors) (y : Int) = none
      then some w
      else firstWeight (itemsOf (g.vertices.getD x default).neighbors) (y : Int) := by
    rw [h5 x]
    simp only [ht]
    rw [hF x y hsym]
    simp
  have hyx : firstWeight (itemsOf (g1.vertices.getD y default).neighbors) (x : Int) =
      if firstWeight (itemsOf (g.vertices.getD x default).neighbors) (y : Int) = none
      then some w
      else firstWeight (itemsOf (g.vertices.getD x default).neighbors) (y : Int) := by
    rw [h5 y]
    simp only [ht]
    rw [hF y x hsym, ← hsym]
    simp
  have v1 : (Graph_GetWeight g1 a b).map Prod.fst = some
      ((if firstWeight (itemsOf (g.vertices.getD x default).neighbors) (y : Int) = none
        then some w
        else firstWeight (itemsOf (g.vertices.getD x default).neighbors) (y : Int)).getD
          (-1)) := by
    rw [grafo_getWeight_value g1 a b hl1, hfind, hfind, hx, hy,
      if_neg (by simp [hx1, hy1]), grafo_vertexAt_cast, hxy]
  obtain ⟨g2, hg2⟩ := option_map_fst _ _ v1
  have hs := grafo_getWeight_sameEdges g1 g2 a b _ hg2
  have v2 : (Graph_GetWeight g2 b a).map Prod.fst = some
      ((if firstWeight (itemsOf (g.vertices.getD x default).neighbors) (y : Int) = none
        then some w
        else firstWeight (itemsOf (g.vertices.getD x default).neighbors) (y : Int)).getD
          (-1)) := by
    rw [grafo_getWeight_congr g1 g2 hs, grafo_getWeight_value g1 b a hl1, hfind, hfind,
      hx, hy, if_neg (by simp [hx1, hy1]), grafo_vertexAt_cast, hyx]
  obtain ⟨g3, hg3⟩ := option_map_fst _ _ v2
  refine ⟨_, g2, g3, hg2, hg3, ?_, ?_⟩
  · intro hfn
    rw [hx, hy, grafo_vertexAt_cast, grafo_find_neighbor_eq] at hfn
    rw [firstWeight_eq_none _ _ hfn]
    rfl
  · intro hfn
    rw [hx, hy, grafo_vertexAt_cast, grafo_find_neighbor_eq] at hfn
    have hsome := firstWeight_isSome (itemsOf (g.vertices.getD x default).neighbors) (y : Int)
    rw [hfn] at hsome
    have hne : ¬ (firstWeight (itemsOf (g.vertices.getD x default).neighbors) (y : Int)
        = none) := by
      intro e
      rw [e] at hsome
      simp at hsome
    rw [grafo_getWeight_value g a b hl, hx, hy, if_neg (by simp [hx1, hy1]),
      grafo_vertexAt_cast, if_neg hne]

/-- Witness of the amended C6: the undirected graph of MEX and LHR, edge (0, 1) of
weight 9. -/
theorem C6_undirected_weight_both_ways_witness :
    ∃ g1, Reachable pair_graph ∧ pair_graph.type = eGraphType.eGraphType_UNDIRECTED ∧
      Graph_AddWeightedEdge pair_graph 0 1 9 = some (true, g1) ∧
      (Graph_GetWeight g1 0 1).map Prod.fst = some 9 ∧
      ∃ w1 g2 g3, Graph_GetWeight g1 0 1 = some (w1, g2) ∧
        Graph_GetWeight g2 1 0 = some (w1, g3) ∧
        (find_neighbor (pair_graph.vertexAt (find pair_graph.vertices pair_graph.size 0))
            (find pair_graph.vertices pair_graph.size 1) = false → w1 = 9) ∧
        (find_neighbor (pair_graph.vertexAt (find pair_graph.vertices pair_graph.size 0))
            (find pair_graph.vertices pair_graph.size 1) = true →
          (Graph_GetWeight pair_graph 0 1).map Prod.fst = some w1) :=
  ⟨_, pair_graph_reachable, rfl, rfl, by decide,
    C6_undirected_weight_both_ways pair_graph _ 0 1 9 pair_graph_reachable rfl rfl⟩

/-- C9: on every graph with `len > 0` and for every pair of keys, `Graph_GetWeight(g,
start, finish)` returns a value; it is -1.0 when `find` fails for `start` or for
`finish`, when the start vertex has no neighbor list, and when no entry of that list
has the finish index; otherwise it is the weight of the first entry of the list of
the start vertex whose index is the finish index. -/
theorem C9_getWeight_first_match (g : Graph) (start finish : Int) (hl : 0 < g.len) :
    ∃ w g1, Graph_GetWeight g start finish = some (w, g1) ∧
      (find g.vertices g.size start = -1 ∨ find g.vertices g.size finish = -1 → w = -1) ∧
      (find g.vertices g.size start ≠ -1 → find g.vertices g.size finish ≠ -1 →
        match (g.vertexAt (find g.vertices g.size start)).neighbors with
        | none => w = -1
        | some l =>
          match l.items.find? (fun d => decide (d.index = find g.vertices g.size finish)) with
          | none => w = -1
          | some d => w = d.weight) := by
  obtain ⟨g1, hg1⟩ := option_map_fst _ _ (grafo_getWeight_value g start finish hl)
  refine ⟨_, g1, hg1, ?_, ?_⟩
  · intro hsf
    rw [if_pos hsf]
  · intro hs hf
    rw [if_neg (by simp [hs, hf])]
    cases hnb : (g.vertexAt (find g.vertices g.size start)).neighbors with
    | none => rfl
    | some l =>
      simp only [itemsOf, firstWeight]
      cases hfd : l.items.find? (fun d => decide (d.index = find g.vertices g.size finish)) with
      | none => rfl
      | some d => rfl

/-- Witness of C9: the undirected graph of MEX and LHR with the edge (0, 1) of weight
1.0, keys 0 and 1. -/
theorem C9_getWeight_first_match_witness :
    0 < pair_graph_edge.len ∧
    (Graph_GetWeight pair_graph_edge 0 1).map Prod.fst = some 1 ∧
    ∃ w g1, Graph_GetWeight pair_graph_edge 0 1 = some (w, g1) ∧
      (find pair_graph_edge.vertices pair_graph_edge.size 0 = -1 ∨
        find pair_graph_edge.vertices pair_graph_edge.size 1 = -1 → w = -1) ∧
      (find pair_graph_edge.vertices pair_graph_edge.size 0 ≠ -1 →
        find pair_graph_edge.vertices pair_graph_edge.size 1 ≠ -1 →
        match (pair_graph_edge.vertexAt
          (find pair_graph_edge.vertices pair_graph_edge.size 0)).neighbors with
        | none => w = -1
        | some l =>
          match l.items.find? (fun d =>
            decide (d.index = find pair_graph_edge.vertices pair_graph_edge.size 1)) with
          | none => w = -1
          | some d => w = d.weight) :=
  ⟨by decide, by decide, C9_getWeight_first_match pair_graph_edge 0 1 (by decide)⟩

/-- C10: on every graph with `len > 0` and for every pair of keys,
`Graph_IsNeighborOf(g, dest, src)` returns a value; it is false when `find` fails
for `src` or for `dest`, and otherwise it is true exactly when the index found for
`dest` is the index of an entry of the neighbor list of the vertex found for `src`,
an absent list having no entries. -/
theorem C10_isNeighborOf_membership (g : Graph) (dest src : Int) (hl : 0 < g.len) :
    ∃ r g1, Graph_IsNeighborOf g dest src = some (r, g1) ∧
      (find g.vertices g.size src = -1 ∨ find g.vertices g.size dest = -1 → r = false) ∧
      (find g.vertices g.size src ≠ -1 → find g.vertices g.size dest ≠ -1 →
        (r = true ↔ find g.vertices g.size dest ∈
          (g.neighborItems (find g.vertices g.size src)).map Data.index)) := by
  obtain ⟨g1, hg1⟩ := option_map_fst _ _ (grafo_isNeighborOf_value g dest src hl)
  refine ⟨_, g1, hg1, ?_, ?_⟩
  · intro hsf
    rw [if_pos hsf]
  · intro hs hf
    rw [if_neg (by simp [hs, hf]), hasIndex_iff_mem]
    unfold Graph.neighborItems
    cases (g.vertexAt (find g.vertices g.size src)).neighbors <;> rfl

/-- Witness of C10: the undirected graph of MEX and LHR with the edge (0, 1), keys 1
and 0. -/
theorem C10_isNeighborOf_membership_witness :
    0 < pair_graph_edge.len ∧
    (Graph_IsNeighborOf pair_graph_edge 1 0).map Prod.fst = some true ∧
    ∃ r g1, Graph_IsNeighborOf pair_graph_edge 1 0 = some (r, g1) ∧
      (find pair_graph_edge.vertices pair_graph_edge.size 0 = -1 ∨
        find pair_graph_edge.vertices pair_graph_edge.size 1 = -1 → r = false) ∧
      (find pair_graph_edge.vertices pair_graph_edge.size 0 ≠ -1 →
        find pair_graph_edge.vertices pair_graph_edge.size 1 ≠ -1 →
        (r = true ↔ find pair_graph_edge.vertices pair_graph_edge.size 1 ∈
          (pair_graph_edge.neighborItems
            (find pair_graph_edge.vertices pair_graph_edge.size 0)).map Data.index)) :=
  ⟨by decide, by decide, C10_isNeighborOf_membership pair_graph_edge 1 0 (by decide)⟩

end Grafo62

/-- The slot of the start vertex after a successful edge insertion: `insert` of `b`,
the mirrored `insert` changing it no more. -/
theorem edgeCore_start_eq (type : eGraphType) (a b : Nat) (w : ℚ)
    (nb : Option NeighborList) :
    edgeCore type a b w a nb = insertCore nb (b : Int) w := by
  unfold edgeCore
  simp only [if_true]
  split
  · rename_i h
    rw [← h.2]
    exact insertCore_of_hasIndex _ _ w (hasIndex_insertCore_self nb (a : Int) w)
  · rfl

theorem itemsOf_insertCore_new (nb : Option NeighborList) (k : Int) (w : ℚ)
    (h : hasIndex (itemsOf nb) k = false) :
    itemsOf (insertCore nb k w) = itemsOf nb ++ [{ index := k, weight := w }] := by
  rw [itemsOf_insertCore, h]
  rfl

namespace MainC

/-! ## `main.c`: the traversal of a neighbor list -/

theorem mainc_find_neighbor_eq (v : Vertex) (k : Int) :
    find_neighbor v k = hasIndex (itemsOf v.neighbors) k := by
  unfold find_neighbor
  cases v.neighbors <;> rfl

theorem mainc_traverse_loop_none (m : Nat) (d : Int) :
    (traverse_loop (m + 1) { data := d, neighbors := none }).map Prod.fst = some [] := by
  unfold traverse_loop
  have hv : Vertex_End { data := d, neighbors := none } = true := rfl
  rw [dif_pos hv]
  rfl

theorem mainc_getNeighborIndex_some (d : Int) (l : NeighborList)
    (h : Vertex_End { data := d, neighbors := some l } = false)
    (h2 : List_Cursor_end l = false) :
    Vertex_GetNeighborIndex { data := d, neighbors := some l } h = List_Cursor_get l h2 := by
  rfl

/-- The loop reads the entries from the cursor to the end of the list, in the order
of the list, and ends as soon as it has had one test of `Vertex_End` more than
there are such entries. -/
theorem mainc_traverse_loop_some (m : Nat) (d : Int) (l : NeighborList)
    (hm : l.items.length - l.cursor < m) :
    (traverse_loop m { data := d, neighbors := some l }).map Prod.fst =
      some (l.items.drop l.cursor) := by
  induction m generalizing l with
  | zero => omega
  | succ m ih =>
    unfold traverse_loop
    by_cases hend : List_Cursor_end l = true
    · have hv : Vertex_End { data := d, neighbors := some l } = true := hend
      rw [dif_pos hv]
      have hle : l.items.length ≤ l.cursor := by simpa [List_Cursor_end] using hend
      rw [List.drop_eq_nil_of_le hle]
      rfl
    · have hend2 : List_Cursor_end l = false := by simpa using hend
      have hv : ¬ (Vertex_End { data := d, neighbors := some l } = true) := hend
      have hlt : l.cursor < l.items.length := by
        simpa [List_Cursor_end] using hend2
      rw [dif_neg hv]
      simp only
      have hnext : Vertex_Next { data := d, neighbors := some l } =
          { data := d, neighbors := some (List_Cursor_next l) } := rfl
      have ih2 := ih (List_Cursor_next l) (by simp only [List_Cursor_next]; omega)
      rw [hnext]
      cases hr : traverse_loop m { data := d, neighbors := some (List_Cursor_next l) } with
      | none => rw [hr] at ih2; simp at ih2
      | some r =>
        rw [hr] at ih2
        simp only [Option.map_some', Option.some.injEq] at ih2
        simp only [Option.map_some', Option.some.injEq]
        rw [ih2, mainc_getNeighborIndex_some d l _ hend2,
          Grafo62.cursor_get_eq l hend2 hlt]
        rfl

/-- The traversal of a vertex ends and reads the entries of its neighbor list, oldest
first. -/
theorem mainc_traverse_value (v : Vertex) (m : Nat)
    (hm : (itemsOf v.neighbors).length < m) :
    (traverse m v).map Prod.fst = some (itemsOf v.neighbors) := by
  cases v with
  | mk d nb =>
    cases nb with
    | none =>
      cases m with
      | zero => omega
      | succ m => exact mainc_traverse_loop_none m d
    | some l =>
      have := mainc_traverse_loop_some m d (List_Cursor_front l)
        (by simpa [List_Cursor_front, itemsOf] using hm)
      simpa [traverse, Vertex_Start, List_Cursor_front, itemsOf] using this

/-! ### Every insertion appends -/

theorem itemsOf_edgeCore_spec (type : eGraphType) (a b : Nat) (w : ℚ) (i : Nat)
    (nb : Option NeighborList) :
    itemsOf (edgeCore type a b w i nb) = spec_list_after_edge type a b w i (itemsOf nb) := by
  have key : ∀ (n : Option NeighborList) (k : Int),
      itemsOf (insertCore n k w) = spec_append_unless_present (itemsOf n) k w := by
    intro n k
    rw [itemsOf_insertCore]
    rfl
  have h1 : itemsOf (if i = a then insertCore nb (b : Int) w else nb) =
      (if i = a then spec_append_unless_present (itemsOf nb) (b : Int) w else itemsOf nb) := by
    split
    · exact key nb _
    · rfl
  unfold edgeCore spec_list_after_edge
  simp only
  split
  · rw [key, h1]
  · exact h1

/-- An insertion that appends unless present adds, at the end, only an entry whose
index the list did not hold. -/
theorem spec_append_unless_present_added (L : List Data) (k : Int) (w : ℚ) :
    ∃ added : List Data, spec_append_unless_present L k w = L ++ added ∧
      ∀ d ∈ added, hasIndex L d.index = false := by
  unfold spec_append_unless_present
  by_cases h : hasIndex L k = true
  · rw [if_pos h]
    exact ⟨[], by simp, fun d hd => absurd hd (List.not_mem_nil d)⟩
  · rw [if_neg h]
    refine ⟨[{ index := k, weight := w }], rfl, fun d hd => ?_⟩
    simp only [List.mem_singleton] at hd
    rw [hd]
    simpa using h

theorem append_added_trans (L a1 a2 : List Data)
    (h1 : ∀ d ∈ a1, hasIndex L d.index = false)
    (h2 : ∀ d ∈ a2, hasIndex (L ++ a1) d.index = false) :
    ∀ d ∈ a1 ++ a2, hasIndex L d.index = false := by
  intro d hd
  rcases List.mem_append.1 hd with hd | hd
  · exact h1 d hd
  · have := h2 d hd
    rw [hasIndex_append] at this
    simp only [Bool.or_eq_false_iff] at this
    exact this.1

theorem spec_list_after_edge_added (type : eGraphType) (a b : Nat) (w : ℚ) (i : Nat)
    (L : List Data) :
    ∃ added : List Data, spec_list_after_edge type a b w i L = L ++ added ∧
      ∀ d ∈ added, hasIndex L d.index = false := by
  unfold spec_list_after_edge
  have h1 : ∃ a1 : List Data,
      (if i = a then spec_append_unless_present L (b : Int) w else L) = L ++ a1 ∧
      ∀ d ∈ a1, hasIndex L d.index = false := by
    split
    · exact spec_append_unless_present_added L _ w
    · exact ⟨[], by simp, fun d hd => absurd hd (List.not_mem_nil d)⟩
  obtain ⟨a1, e1, n1⟩ := h1
  simp only
  rw [e1]
  split
  · obtain ⟨a2, e2, n2⟩ := spec_append_unless_present_added (L ++ a1) (a : Int) w
    exact ⟨a1 ++ a2, by rw [e2, List.append_assoc], append_added_trans L a1 a2 n1 n2⟩
  · exact ⟨a1, rfl, n1⟩

/-- A sequence of calls only appends to the list of a vertex already inserted: the
list afterwards is the list before followed by entries for indices it did not
hold. -/
theorem mainc_runOps_appends (ops : List Op) (g g2 : Graph) (hw : WF g)
    (h : runOps g ops = some g2) (i : Nat) (hi : (i : Int) < g.len) :
    ∃ added : List Data,
      itemsOf (g2.vertices.getD i default).neighbors =
        itemsOf (g.vertices.getD i default).neighbors ++ added ∧
      ∀ d ∈ added, hasIndex (itemsOf (g.vertices.getD i default).neighbors) d.index = false := by
  induction ops generalizing g with
  | nil =>
    simp only [runOps, Option.some.injEq] at h
    subst h
    exact ⟨[], by simp, fun d hd => absurd hd (List.not_mem_nil d)⟩
  | cons op ops ih =>
    simp only [runOps] at h
    cases hop : op.apply g with
    | none => rw [hop] at h; simp at h
    | some g1 =>
      rw [hop] at h
      simp only [Option.some_bind] at h
      have hw1 : WF g1 := mainc_wf_runOps [op] g g1 hw (by simp [runOps, hop])
      have step : g.len ≤ g1.len ∧ ∃ a1 : List Data,
          itemsOf (g1.vertices.getD i default).neighbors =
            itemsOf (g.vertices.getD i default).neighbors ++ a1 ∧
          ∀ d ∈ a1,
            hasIndex (itemsOf (g.vertices.getD i default).neighbors) d.index = false := by
        cases op with
        | addVertex d =>
          obtain ⟨-, rfl⟩ := mainc_addVertex_some g g1 d hop
          refine ⟨by show g.len ≤ g.len + 1; omega, [], ?_,
            fun d hd => absurd hd (List.not_mem_nil d)⟩
          show itemsOf ((g.vertices.set g.len.toNat _).getD i default).neighbors = _
          rw [getD_set_other _ _ _ _ _ (by omega)]
          simp
        | addEdge s f =>
          simp only [Op.apply] at hop
          cases hr : Graph_AddEdge g s f with
          | none => rw [hr] at hop; simp at hop
          | some r =>
            rw [hr] at hop
            simp only [Option.map_some', Option.some.injEq] at hop
            obtain ⟨b, gr⟩ := r
            simp only at hop
            subst hop
            cases b with
            | false =>
              obtain ⟨e, -⟩ := mainc_addEdge_false g gr s f hr
              rw [e]
              exact ⟨Int.le_refl _, [], by simp, fun d hd => absurd hd (List.not_mem_nil d)⟩
            | true =>
              obtain ⟨x, y, -, -, -, -, -, -, h2, -, -, h5⟩ :=
                mainc_addEdge_true g gr s f hw.length_eq hr
              refine ⟨by rw [h2], ?_⟩
              rw [h5 i]
              show ∃ a1, itemsOf (edgeCore g.type x y 0 i
                (g.vertices.getD i default).neighbors) = _ ++ a1 ∧ _
              rw [itemsOf_edgeCore_spec]
              exact spec_list_after_edge_added _ _ _ _ _ _
      obtain ⟨hlen, a1, e1, n1⟩ := step
      obtain ⟨a2, e2, n2⟩ := ih g1 hw1 h (by omega)
      rw [e1] at e2 n2
      exact ⟨a1 ++ a2, by rw [e2, List.append_assoc], append_added_trans _ a1 a2 n1 n2⟩

/-- C11: in `main.c`, (1) the traversal `Vertex_Start; while not Vertex_End {
Vertex_GetNeighborIndex; Vertex_Next }` of any vertex ends, after one test of
`Vertex_End` more than the list has entries, and yields the (index, weight) entries
of its neighbor list in the order of the list; (2) `insert` of an index that is not
in the list turns the list `L` into `L` followed by the new entry, and (3) `insert`
of an index that is in it changes nothing; (4) on a reachable graph a successful
`Graph_AddEdge(g, start, finish)` gives every vertex, the finish vertex of the
mirrored insertion included, the list the spec prescribes: its old list, followed by
the finish index if it is the start vertex and the index is new, followed in an
undirected graph by the start index if it is the finish vertex and the index is new,
and the traversal of every vertex yields that list; in particular, when the finish
index is new for the start vertex, its list `L` becomes `L` followed by the single
new entry; (5) whatever `Graph_AddVertex` and `Graph_AddEdge` calls follow on a
reachable graph, the list of every vertex inserted so far is afterwards its list
before, followed by entries for indices it did not hold, and the traversal yields
them in that order: entries come in the order of their first insertion. -/
theorem C11_neighbors_in_append_order (g : Graph) (hg : Reachable g) :
    (∀ (v : Vertex) (m : Nat), (itemsOf v.neighbors).length < m →
      (traverse m v).map Prod.fst = some (itemsOf v.neighbors)) ∧
    (∀ (v : Vertex) (index : Int) (w : ℚ), find_neighbor v index = false →
      itemsOf (insert v index w).neighbors =
        itemsOf v.neighbors ++ [{ index := index, weight := w }]) ∧
    (∀ (v : Vertex) (index : Int) (w : ℚ), find_neighbor v index = true →
      insert v index w = v) ∧
    (∀ (start finish : Int) (g1 : Graph), Graph_AddEdge g start finish = some (true, g1) →
      ∃ a b : Nat, find g.vertices g.size start = (a : Int) ∧
        find g.vertices g.size finish = (b : Int) ∧
        (∀ i : Nat,
          itemsOf (g1.vertices.getD i default).neighbors =
            spec_list_after_edge g.type a b 0 i
              (itemsOf (g.vertices.getD i default).neighbors) ∧
          ∀ m : Nat,
            (spec_list_after_edge g.type a b 0 i
              (itemsOf (g.vertices.getD i default).neighbors)).length < m →
            (traverse m (g1.vertices.getD i default)).map Prod.fst =
              some (spec_list_after_edge g.type a b 0 i
                (itemsOf (g.vertices.getD i default).neighbors))) ∧
        (find_neighbor (g.vertexAt (find g.vertices g.size start))
            (find g.vertices g.size finish) = false →
          itemsOf (g1.vertexAt (find g.vertices g.size start)).neighbors =
            itemsOf (g.vertexAt (find g.vertices g.size start)).neighbors ++
              [{ index := find g.vertices g.size finish, weight := 0 }])) ∧
    (∀ (ops : List Op) (g2 : Graph), runOps g ops = some g2 →
      ∀ i : Nat, (i : Int) < g.len →
        ∃ added : List Data,
          itemsOf (g2.vertices.getD i default).neighbors =
            itemsOf (g.vertices.getD i default).neighbors ++ added ∧
          (∀ d ∈ added,
            hasIndex (itemsOf (g.vertices.getD i default).neighbors) d.index = false) ∧
          ∀ m : Nat,
            (itemsOf (g.vertices.getD i default).neighbors ++ added).length < m →
            (traverse m (g2.vertices.getD i default)).map Prod.fst =
              some (itemsOf (g.vertices.getD i default).neighbors ++ added)) := by
  have hw := mainc_wf_of_reachable g hg
  refine ⟨mainc_traverse_value, ?_, ?_, ?_, ?_⟩
  · intro v index w hv
    rw [mainc_find_neighbor_eq] at hv
    rw [mainc_insert_eq]
    exact itemsOf_insertCore_new _ _ _ hv
  · intro v index w hv
    rw [mainc_find_neighbor_eq] at hv
    rw [mainc_insert_eq, insertCore_of_hasIndex _ _ _ hv]
  · intro start finish g1 h
    obtain ⟨a, b, ha, hb, -, -, -, -, -, -, -, h5⟩ :=
      mainc_addEdge_true g g1 start finish hw.length_eq h
    have hitems : ∀ i : Nat, itemsOf (g1.vertices.getD i default).neighbors =
        spec_list_after_edge g.type a b 0 i
          (itemsOf (g.vertices.getD i default).neighbors) := by
      intro i
      rw [h5 i]
      exact itemsOf_edgeCore_spec g.type a b 0 i _
    refine ⟨a, b, ha, hb, fun i => ⟨hitems i, fun m hm => ?_⟩, fun hnew => ?_⟩
    · rw [← hitems i]
      apply mainc_traverse_value
      rw [hitems i]
      exact hm
    · rw [ha, hb, mainc_vertexAt_cast, mainc_find_neighbor_eq] at hnew
      rw [ha, hb, mainc_vertexAt_cast, mainc_vertexAt_cast, h5 a]
      show itemsOf (edgeCore g.type a b 0 a (g.vertices.getD a default).neighbors) = _
      rw [edgeCore_start_eq, itemsOf_insertCore_new _ _ _ hnew]
  · intro ops g2 h i hi
    obtain ⟨added, e, n⟩ := mainc_runOps_appends ops g g2 hw h i hi
    refine ⟨added, e, n, fun m hm => ?_⟩
    rw [← e]
    apply mainc_traverse_value
    rw [e]
    exact hm

/-- Witness of C11. On the demo graph with the edges (100, 200) and (100, 400), the
third edge (100, 300) gives vertex 0 the entries 1, 3, 2, and the traversal yields
them in this order of insertion. On the demo graph with the first five edges of
`main`, the sixth edge (400, 500) gives vertex 500, through the mirrored insertion,
the entries 1, 2, 3, in the order in which its edges were inserted. -/
theorem C11_neighbors_in_append_order_witness :
    Reachable demo_graph_two_edges ∧ Reachable demo_graph_five_edges ∧
    (∃ g1, Graph_AddEdge demo_graph_two_edges 100 300 = some (true, g1) ∧
      (traverse 4 (g1.vertexAt 0)).map Prod.fst =
        some [{ index := 1, weight := 0 }, { index := 3, weight := 0 },
              { index := 2, weight := 0 }]) ∧
    (∃ g1, Graph_AddEdge demo_graph_five_edges 400 500 = some (true, g1) ∧
      (traverse 4 (g1.vertexAt 4)).map Prod.fst =
        some [{ index := 1, weight := 0 }, { index := 2, weight := 0 },
              { index := 3, weight := 0 }] ∧
      (traverse 3 (g1.vertexAt 3)).map Prod.fst =
        some [{ index := 0, weight := 0 }, { index := 4, weight := 0 }] ∧
      ∃ a b : Nat, find demo_graph_five_edges.vertices demo_graph_five_edges.size 400 = (a : Int) ∧
        find demo_graph_five_edges.vertices demo_graph_five_edges.size 500 = (b : Int) ∧
        (∀ i : Nat,
          itemsOf (g1.vertices.getD i default).neighbors =
            spec_list_after_edge demo_graph_five_edges.type a b 0 i
              (itemsOf (demo_graph_five_edges.vertices.getD i default).neighbors) ∧
          ∀ m : Nat,
            (spec_list_after_edge demo_graph_five_edges.type a b 0 i
              (itemsOf (demo_graph_five_edges.vertices.getD i default).neighbors)).length < m →
            (traverse m (g1.vertices.getD i default)).map Prod.fst =
              some (spec_list_after_edge demo_graph_five_edges.type a b 0 i
                (itemsOf (demo_graph_five_edges.vertices.getD i default).neighbors))) ∧
        (find_neighbor (demo_graph_five_edges.vertexAt
            (find demo_graph_five_edges.vertices demo_graph_five_edges.size 400))
            (find demo_graph_five_edges.vertices demo_graph_five_edges.size 500) = false →
          itemsOf (g1.vertexAt
              (find demo_graph_five_edges.vertices demo_graph_five_edges.size 400)).neighbors =
            itemsOf (demo_graph_five_edges.vertexAt
              (find demo_graph_five_edges.vertices demo_graph_five_edges.size 400)).neighbors ++
              [{ index := find demo_graph_five_edges.vertices demo_graph_five_edges.size 500,
                 weight := 0 }])) :=
  ⟨⟨5, eGraphType.eGraphType_UNDIRECTED,
      [Op.addVertex 100, Op.addVertex 200, Op.addVertex 300, Op.addVertex 400,
        Op.addVertex 500, Op.addEdge 100 200, Op.addEdge 100 400], by decide⟩,
    ⟨5, eGraphType.eGraphType_UNDIRECTED,
      [Op.addVertex 100, Op.addVertex 200, Op.addVertex 300, Op.addVertex 400,
        Op.addVertex 500, Op.addEdge 100 200, Op.addEdge 100 400, Op.addEdge 200 300,
        Op.addEdge 200 500, Op.addEdge 300 500], by decide⟩,
    ⟨_, rfl, by decide⟩,
    ⟨_, rfl, by decide, by decide,
      (C11_neighbors_in_append_order demo_graph_five_edges
        ⟨5, eGraphType.eGraphType_UNDIRECTED,
          [Op.addVertex 100, Op.addVertex 200, Op.addVertex 300, Op.addVertex 400,
            Op.addVertex 500, Op.addEdge 100 200, Op.addEdge 100 400, Op.addEdge 200 300,
            Op.addEdge 200 500, Op.addEdge 300 500], by decide⟩).2.2.2.1 400 500 _ rfl⟩⟩

/-- C13: on a graph of `main.c` with `len = n`, `0 ≤ n < size` and an array of `size`
slots, `Graph_AddVertex(g, d)` passes its assertion and yields a graph with
`len = n + 1` in which `Graph_GetDataByIndex(g, n)` is `d` and vertex `n` has no
neighbor list, while `size`, `type` and every slot other than `n` are as before. -/
theorem C13_addVertex_frame (g : Graph) (d : Int) (h0 : 0 ≤ g.len) (hlt : g.len < g.size)
    (hlen : g.vertices.length = g.size.toNat) :
    ∃ g1, Graph_AddVertex g d = some g1 ∧
      Graph_GetLen g1 = g.len + 1 ∧
      Graph_GetDataByIndex g1 g.len = some d ∧
      (g1.vertexAt g.len).neighbors = none ∧
      Graph_GetSize g1 = g.size ∧ g1.type = g.type ∧
      ∀ i : Nat, (i : Int) ≠ g.len →
        g1.vertices.getD i default = g.vertices.getD i default := by
  have hsome : Graph_AddVertex g d = some
      { g with vertices := g.vertices.set g.len.toNat { data := d, neighbors := none },
               len := g.len + 1 } := by
    unfold Graph_AddVertex
    rw [if_pos hlt]
    rfl
  have hidx : g.len.toNat < g.vertices.length := by omega
  refine ⟨_, hsome, rfl, ?_, ?_, rfl, rfl, ?_⟩
  · unfold Graph_GetDataByIndex
    rw [if_pos ⟨h0, by show g.len < g.len + 1; omega⟩]
    show some ((g.vertices.set g.len.toNat _).getD g.len.toNat default).data = some d
    rw [getD_set_self _ _ _ _ hidx]
  · show ((g.vertices.set g.len.toNat _).getD g.len.toNat default).neighbors = none
    rw [getD_set_self _ _ _ _ hidx]
  · intro i hi
    show (g.vertices.set g.len.toNat _).getD i default = _
    rw [getD_set_other _ _ _ _ _ (by omega)]

/-- Witness of C13: the graph with one inserted vertex and one free slot, payload
200. -/
theorem C13_addVertex_frame_witness :
    0 ≤ half_full_graph.len ∧ half_full_graph.len < half_full_graph.size ∧
    half_full_graph.vertices.length = half_full_graph.size.toNat ∧
    ∃ g1, Graph_AddVertex half_full_graph 200 = some g1 ∧
      Graph_GetLen g1 = half_full_graph.len + 1 ∧
      Graph_GetDataByIndex g1 half_full_graph.len = some 200 ∧
      (g1.vertexAt half_full_graph.len).neighbors = none ∧
      Graph_GetSize g1 = half_full_graph.size ∧ g1.type = half_full_graph.type ∧
      ∀ i : Nat, (i : Int) ≠ half_full_graph.len →
        g1.vertices.getD i default = half_full_graph.vertices.getD i default :=
  ⟨by decide, by decide, by decide,
    C13_addVertex_frame half_full_graph 200 (by decide) (by decide) (by decide)⟩

end MainC

/-- The scan over `size` slots returns -1 exactly when no slot below `size` holds the
key, and otherwise the first slot that does. -/
theorem findCore_first (data : Nat → Int) (key size : Int) :
    (findCore data key size.toNat 0 = -1 ↔ ∀ i : Nat, (i : Int) < size → data i ≠ key) ∧
    (findCore data key size.toNat 0 ≠ -1 →
      ∃ r : Nat, findCore data key size.toNat 0 = (r : Int) ∧ (r : Int) < size ∧
        data r = key ∧ ∀ j : Nat, j < r → data j ≠ key) ∧
    (∀ i : Nat, (i : Int) < size → data i = key →
      ∃ r : Nat, findCore data key size.toNat 0 = (r : Int) ∧ r ≤ i) := by
  rcases findCore_spec data key size.toNat 0 with ⟨h1, h2⟩ | ⟨r, h1, -, h3, h4, h5⟩
  · refine ⟨⟨fun _ i hi => h2 i (Nat.zero_le i) (by omega), fun _ => h1⟩,
      fun hne => absurd h1 hne, fun i hi hd => ?_⟩
    exact absurd hd (h2 i (Nat.zero_le i) (by omega))
  · have hr : (r : Int) < size := by omega
    refine ⟨⟨fun h => ?_, fun h => absurd h4 (h r hr)⟩,
      fun _ => ⟨r, h1, hr, h4, fun j hj => h5 j (Nat.zero_le j) hj⟩, fun i hi hd => ?_⟩
    · rw [h1] at h
      omega
    · refine ⟨r, h1, ?_⟩
      by_cases hle : r ≤ i
      · exact hle
      · exact absurd hd (h5 i (Nat.zero_le i) (by omega))

namespace MainC

/-! ## `main.c`: payloads and indices -/

theorem mainc_setVertexAt_data (g : Graph) (i : Int) (v : Vertex)
    (hd : v.data = (g.vertexAt i).data) (k : Nat) :
    ((g.setVertexAt i v).vertices.getD k default).data = (g.vertices.getD k default).data := by
  show ((g.vertices.set i.toNat v).getD k default).data = _
  by_cases hk : i.toNat = k
  · subst hk
    by_cases hlt : i.toNat < g.vertices.length
    · rw [getD_set_self _ _ _ _ hlt]
      exact hd
    · rw [getD_beyond _ _ _ (by simpa using hlt), getD_beyond _ _ _ (by omega)]
  · rw [getD_set_other _ _ _ _ _ hk]

/-- Function `Graph_AddEdge` changes neither `len` nor the data of any slot. -/
theorem mainc_addEdge_data (g g1 : Graph) (s f : Int) (b : Bool)
    (h : Graph_AddEdge g s f = some (b, g1)) :
    g1.len = g.len ∧
      ∀ k : Nat, (g1.vertices.getD k default).data = (g.vertices.getD k default).data := by
  unfold Graph_AddEdge at h
  by_cases hl : g.len > 0
  · rw [if_pos hl] at h
    simp only at h
    split at h
    · simp only [Option.some.injEq, Prod.mk.injEq] at h
      rw [← h.2]
      exact ⟨rfl, fun _ => rfl⟩
    · simp only [Option.some.injEq, Prod.mk.injEq] at h
      rw [← h.2]
      have h1 : ∀ k : Nat,
          ((g.setVertexAt (find g.vertices g.size s)
            (insert (g.vertexAt (find g.vertices g.size s))
              (find g.vertices g.size f) 0)).vertices.getD k default).data =
          (g.vertices.getD k default).data :=
        fun k => mainc_setVertexAt_data g _ _ (by rw [mainc_insert_eq]) k
      split
      · refine ⟨rfl, fun k => ?_⟩
        rw [mainc_setVertexAt_data _ _ _ (by rw [mainc_insert_eq]) k]
        exact h1 k
      · exact ⟨rfl, h1⟩
  · rw [if_neg hl] at h
    exact absurd h (by simp)

/-- A sequence of calls does not lower `len` and leaves the data of the vertices
already inserted as it is. -/
theorem mainc_runOps_data (ops : List Op) (g g1 : Graph) (h : runOps g ops = some g1) :
    g.len ≤ g1.len ∧ ∀ k : Nat, (k : Int) < g.len →
      (g1.vertices.getD k default).data = (g.vertices.getD k default).data := by
  induction ops generalizing g with
  | nil =>
    simp only [runOps, Option.some.injEq] at h
    subst h
    exact ⟨Int.le_refl _, fun _ _ => rfl⟩
  | cons op ops ih =>
    simp only [runOps] at h
    cases hop : op.apply g with
    | none => rw [hop] at h; simp at h
    | some g2 =>
      rw [hop] at h
      simp only [Option.some_bind] at h
      obtain ⟨ih1, ih2⟩ := ih g2 h
      have step : g.len ≤ g2.len ∧ ∀ k : Nat, (k : Int) < g.len →
          (g2.vertices.getD k default).data = (g.vertices.getD k default).data := by
        cases op with
        | addVertex d =>
          obtain ⟨-, rfl⟩ := mainc_addVertex_some g g2 d hop
          refine ⟨by show g.len ≤ g.len + 1; omega, fun k hk => ?_⟩
          show ((g.vertices.set g.len.toNat _).getD k default).data = _
          rw [getD_set_other _ _ _ _ _ (by omega)]
        | addEdge s f =>
          simp only [Op.apply] at hop
          cases hr : Graph_AddEdge g s f with
          | none => rw [hr] at hop; simp at hop
          | some r =>
            rw [hr] at hop
            simp only [Option.map_some', Option.some.injEq] at hop
            subst hop
            obtain ⟨e1, e2⟩ := mainc_addEdge_data g r.2 s f r.1 hr
            exact ⟨by rw [e1], fun k _ => e2 k⟩
      refine ⟨Int.le_trans step.1 ih1, fun k hk => ?_⟩
      rw [ih2 k (by omega), step.2 k hk]

/-- C16 (failing input): the graph built by `Graph_New(2, UNDIRECTED)` and
`Graph_AddVertex(g, 100)` is reachable; on it the scan of `find` over `size` slots
resolves the key 0 to the zeroed slot 1, while the scan over `len` slots returns -1;
so `Graph_AddEdge(g, 0, 100)` returns true where the scan bounded by `len` would make
it return false. -/
theorem C16_scan_bound_changes_find :
    Reachable half_full_graph ∧
    find half_full_graph.vertices half_full_graph.size 0 = 1 ∧
    find half_full_graph.vertices half_full_graph.len 0 = -1 ∧
    find half_full_graph.vertices half_full_graph.size 0 ≠
      find half_full_graph.vertices half_full_graph.len 0 ∧
    (Graph_AddEdge half_full_graph 0 100).map Prod.fst = some true := by
  refine ⟨⟨2, eGraphType.eGraphType_UNDIRECTED, [Op.addVertex 100], by decide⟩,
    by decide, by decide, by decide, by decide⟩

/-- C17 (failing input): the graph built by `Graph_New(2, UNDIRECTED)`,
`Graph_AddVertex(g, 100)` and `Graph_AddEdge(g, 0, 100)` is reachable and has
`len = 1`; slot 1, which is not below `len`, owns a neighbor list, the list of
vertex 0 holds the index 1, the traversal of vertex 0 yields it, and
`Graph_GetDataByIndex(g, 1)` fails its assertion. -/
theorem C17_edge_to_slot_beyond_len :
    Reachable half_full_graph_edge ∧
    Graph_GetLen half_full_graph_edge = 1 ∧
    (half_full_graph_edge.vertexAt 1).neighbors ≠ none ∧
    half_full_graph_edge.neighborIndices 0 = [1] ∧
    (traverse 2 (half_full_graph_edge.vertexAt 0)).map Prod.fst =
      some [{ index := 1, weight := 0 }] ∧
    Graph_GetDataByIndex half_full_graph_edge 1 = none := by
  refine ⟨⟨2, eGraphType.eGraphType_UNDIRECTED, [Op.addVertex 100, Op.addEdge 0 100],
    by decide⟩, by decide, by decide, by decide, by decide, by decide⟩

/-- C20: for every graph of `main.c` and every sequence of later `Graph_AddVertex`
and `Graph_AddEdge` calls whose assertions hold, `Graph_GetDataByIndex(g, i)` for an
index `i < len` returns after the calls what it returned before them, the data of
slot `i`. -/
theorem C20_data_is_stable (g g1 : Graph) (ops : List Op) (i : Int)
    (h : runOps g ops = some g1) (hi0 : 0 ≤ i) (hi : i < g.len) :
    Graph_GetDataByIndex g i = some (g.vertexAt i).data ∧
    Graph_GetDataByIndex g1 i = Graph_GetDataByIndex g i := by
  obtain ⟨h1, h2⟩ := mainc_runOps_data ops g g1 h
  have e0 : Graph_GetDataByIndex g i = some (g.vertexAt i).data := by
    unfold Graph_GetDataByIndex
    rw [if_pos ⟨hi0, hi⟩]
  refine ⟨e0, ?_⟩
  rw [e0]
  unfold Graph_GetDataByIndex
  rw [if_pos ⟨hi0, by omega⟩]
  have := h2 i.toNat (by omega)
  show some (g1.vertices.getD i.toNat default).data = some (g.vertices.getD i.toNat default).data
  rw [this]

/-- Witness of C20: vertex 0 of the graph with one vertex keeps its data 100 through
`Graph_AddVertex(g, 200)`, `Graph_AddEdge(g, 100, 200)` and `Graph_AddEdge(g, 0,
100)`. -/
theorem C20_data_is_stable_witness :
    ∃ g1, runOps half_full_graph [Op.addVertex 200, Op.addEdge 100 200, Op.addEdge 0 100]
        = some g1 ∧
      (0 : Int) ≤ 0 ∧ (0 : Int) < half_full_graph.len ∧
      Graph_GetDataByIndex g1 0 = some 100 ∧
      Graph_GetDataByIndex half_full_graph 0 = some (half_full_graph.vertexAt 0).data ∧
      Graph_GetDataByIndex g1 0 = Graph_GetDataByIndex half_full_graph 0 :=
  ⟨_, rfl, by decide, by decide, by decide,
    C20_data_is_stable half_full_graph _
      [Op.addVertex 200, Op.addEdge 100 200, Op.addEdge 0 100] 0 rfl (by decide) (by decide)⟩

end MainC

namespace Grafo62

/-! ## `grafo6.2.c`: first write wins, preconditions, symmetry, no duplicates -/

/-- C12: on every reachable graph in which the start vertex has no entry for the
finish index, after a successful `Graph_AddWeightedEdge(g, a, b, w1)` a second call
`Graph_AddWeightedEdge(g, a, b, w2)` returns true and leaves the whole graph, so
every neighbor list, as it is, and `Graph_GetWeight(g, a, b)` is `w1`. -/
theorem C12_first_write_wins (g g1 : Graph) (a b : Int) (w1 w2 : ℚ)
    (hg : Reachable g)
    (hnew : find_neighbor (g.vertexAt (find g.vertices g.size a))
      (find g.vertices g.size b) = false)
    (h : Graph_AddWeightedEdge g a b w1 = some (true, g1)) :
    Graph_AddWeightedEdge g1 a b w2 = some (true, g1) ∧
    (Graph_GetWeight g1 a b).map Prod.fst = some w1 := by
  have hi := grafo_inv_of_reachable g hg
  have hi1 := grafo_inv_addWeightedEdge g g1 a b w1 true hi h
  obtain ⟨x, y, hx, hy, -, -, hl, h1, h2, h3, h4, h5⟩ :=
    grafo_addWeightedEdge_true g g1 a b w1 hi.length_eq h
  obtain ⟨-, -, -, -, -, -, -, hfind, -⟩ := grafo_after_edge g g1 a b w1 hi h
  have hl1 : 0 < g1.len := by rw [h2]; exact hl
  have hx1 : ¬ ((x : Int) = -1) := by omega
  have hy1 : ¬ ((y : Int) = -1) := by omega
  refine ⟨?_, ?_⟩
  · obtain ⟨g2, hg2⟩ := grafo_addWeightedEdge_found g1 a b w2 hl1
      (by rw [hfind, hx]; omega) (by rw [hfind, hy]; omega)
    obtain ⟨x', y', hx', hy', -, -, -, k1, k2, k3, k4, k5⟩ :=
      grafo_addWeightedEdge_true g1 g2 a b w2 hi1.length_eq hg2
    rw [hfind, hx] at hx'
    rw [hfind, hy] at hy'
    have hxx : x' = x := by omega
    have hyy : y' = y := by omega
    subst hxx hyy
    have hv : g2.vertices = g1.vertices := by
      apply list_ext_getD _ _ default k4
      intro i
      rw [k5 i, h5 i, h3]
      simp only [edgeCore_idem]
    have : g2 = g1 := by
      cases g2; cases g1
      simp only at k1 k2 k3 hv
      simp [k1, k2, k3, hv]
    rw [hg2, this]
  · rw [hx, hy, grafo_vertexAt_cast, grafo_find_neighbor_eq] at hnew
    rw [grafo_getWeight_value g1 a b hl1, hfind, hfind, hx, hy,
      if_neg (by simp [hx1, hy1]), grafo_vertexAt_cast, h5 x]
    show some ((firstWeight (itemsOf (edgeCore g.type x y w1 x
      (g.vertices.getD x default).neighbors)) (y : Int)).getD (-1)) = some w1
    rw [edgeCore_start_eq, firstWeight_insertCore, firstWeight_eq_none _ _ hnew]
    simp

/-- Witness of C12: the undirected graph of MEX and LHR, edge (0, 1) first with
weight 9, then with weight 3. -/
theorem C12_first_write_wins_witness :
    ∃ g1, Reachable pair_graph ∧
      find_neighbor (pair_graph.vertexAt (find pair_graph.vertices pair_graph.size 0))
        (find pair_graph.vertices pair_graph.size 1) = false ∧
      Graph_AddWeightedEdge pair_graph 0 1 9 = some (true, g1) ∧
      Graph_AddWeightedEdge g1 0 1 3 = some (true, g1) ∧
      (Graph_GetWeight g1 0 1).map Prod.fst = some 9 :=
  ⟨_, pair_graph_reachable, by decide, rfl,
    C12_first_write_wins pair_graph _ 0 1 9 3 pair_graph_reachable (by decide) rfl⟩

/-- C14: on every graph of `grafo6.2.c` with `len ≥ 0` and for every choice of keys
and weight, each of `Graph_AddEdge`, `Graph_AddWeightedEdge`, `Graph_GetWeight` and
`Graph_IsNeighborOf` fails its assertion exactly when `len = 0`, and with `len > 0`
each of them returns a value. -/
theorem C14_edge_operations_need_a_vertex (g : Graph) (s f : Int) (w : ℚ)
    (h0 : 0 ≤ g.len) :
    ((Graph_AddEdge g s f = none ↔ g.len = 0) ∧
     (Graph_AddWeightedEdge g s f w = none ↔ g.len = 0) ∧
     (Graph_GetWeight g s f = none ↔ g.len = 0) ∧
     (Graph_IsNeighborOf g s f = none ↔ g.len = 0)) ∧
    (0 < g.len →
      (∃ r, Graph_AddEdge g s f = some r) ∧
      (∃ r, Graph_AddWeightedEdge g s f w = some r) ∧
      (∃ r, Graph_GetWeight g s f = some r) ∧
      (∃ r, Graph_IsNeighborOf g s f = some r)) := by
  have hpos : 0 < g.len →
      (∃ r, Graph_AddEdge g s f = some r) ∧
      (∃ r, Graph_AddWeightedEdge g s f w = some r) ∧
      (∃ r, Graph_GetWeight g s f = some r) ∧
      (∃ r, Graph_IsNeighborOf g s f = some r) := by
    intro hl
    refine ⟨?_, ?_, ?_, ?_⟩
    · rw [grafo_addEdge_eq]
      unfold Graph_AddWeightedEdge
      rw [if_pos hl]
      simp only
      split
      · exact ⟨_, rfl⟩
      · exact ⟨_, rfl⟩
    · unfold Graph_AddWeightedEdge
      rw [if_pos hl]
      simp only
      split
      · exact ⟨_, rfl⟩
      · exact ⟨_, rfl⟩
    · obtain ⟨g1, hg1⟩ := option_map_fst _ _ (grafo_getWeight_value g s f hl)
      exact ⟨_, hg1⟩
    · obtain ⟨g1, hg1⟩ := option_map_fst _ _ (grafo_isNeighborOf_value g s f hl)
      exact ⟨_, hg1⟩
  have hzero : g.len = 0 →
      Graph_AddEdge g s f = none ∧ Graph_AddWeightedEdge g s f w = none ∧
      Graph_GetWeight g s f = none ∧ Graph_IsNeighborOf g s f = none := by
    intro hl
    have hn : ¬ g.len > 0 := by omega
    refine ⟨?_, ?_, ?_, ?_⟩
    · unfold Graph_AddEdge
      rw [if_neg hn]
    · unfold Graph_AddWeightedEdge
      rw [if_neg hn]
    · unfold Graph_GetWeight
      rw [if_neg hn]
    · unfold Graph_IsNeighborOf
      rw [if_neg hn]
  refine ⟨⟨⟨fun hn => ?_, fun hl => (hzero hl).1⟩, ⟨fun hn => ?_, fun hl => (hzero hl).2.1⟩,
    ⟨fun hn => ?_, fun hl => (hzero hl).2.2.1⟩, ⟨fun hn => ?_, fun hl => (hzero hl).2.2.2⟩⟩,
    hpos⟩
  · by_cases hl : 0 < g.len
    · obtain ⟨r, hr⟩ := (hpos hl).1
      rw [hr] at hn
      simp at hn
    · omega
  · by_cases hl : 0 < g.len
    · obtain ⟨r, hr⟩ := (hpos hl).2.1
      rw [hr] at hn
      simp at hn
    · omega
  · by_cases hl : 0 < g.len
    · obtain ⟨r, hr⟩ := (hpos hl).2.2.1
      rw [hr] at hn
      simp at hn
    · omega
  · by_cases hl : 0 < g.len
    · obtain ⟨r, hr⟩ := (hpos hl).2.2.2
      rw [hr] at hn
      simp at hn
    · omega

/-- Witness of C14: the directed demo graph (`len = 5`), keys 0 and 1, weight 9; and
the four assertion failures on the empty graph `Graph_New(2, DIRECTED)` returns. -/
theorem C14_edge_operations_need_a_vertex_witness :
    (0 : Int) ≤ demo_graph.len ∧ 0 < demo_graph.len ∧
    ((∃ r, Graph_AddEdge demo_graph 0 1 = some r) ∧
      (∃ r, Graph_AddWeightedEdge demo_graph 0 1 9 = some r) ∧
      (∃ r, Graph_GetWeight demo_graph 0 1 = some r) ∧
      (∃ r, Graph_IsNeighborOf demo_graph 0 1 = some r)) ∧
    Graph_New 2 eGraphType.eGraphType_DIRECTED = some empty_graph ∧
    empty_graph.len = 0 ∧
    Graph_AddEdge empty_graph 0 1 = none ∧ Graph_AddWeightedEdge empty_graph 0 1 9 = none ∧
    Graph_GetWeight empty_graph 0 1 = none ∧ Graph_IsNeighborOf empty_graph 0 1 = none :=
  ⟨by decide, by decide,
    (C14_edge_operations_need_a_vertex demo_graph 0 1 9 (by decide)).2 (by decide),
    by decide, rfl, rfl, rfl, rfl, rfl⟩

/-- C18: on every reachable undirected graph with `len > 0` and for all keys `a`, `b`,
`Graph_IsNeighborOf(g, a, b)` and `Graph_IsNeighborOf(g, b, a)` return the same
boolean, and `Graph_GetWeight(g, a, b)` and `Graph_GetWeight(g, b, a)` the same
weight. -/
theorem C18_undirected_adjacency_symmetric (g : Graph) (a b : Int)
    (hg : Reachable g) (ht : g.type = eGraphType.eGraphType_UNDIRECTED) (hl : 0 < g.len) :
    ∃ (r : Bool) (w : ℚ),
      (Graph_IsNeighborOf g a b).map Prod.fst = some r ∧
      (Graph_IsNeighborOf g b a).map Prod.fst = some r ∧
      (Graph_GetWeight g a b).map Prod.fst = some w ∧
      (Graph_GetWeight g b a).map Prod.fst = some w := by
  have hi := grafo_inv_of_reachable g hg
  refine ⟨_, _, grafo_isNeighborOf_value g a b hl, ?_, grafo_getWeight_value g a b hl, ?_⟩
  · rw [grafo_isNeighborOf_value g b a hl, grafo_find_inv g hi hl a, grafo_find_inv g hi hl b]
    by_cases ha : 0 ≤ a ∧ a < g.len
    · by_cases hb : 0 ≤ b ∧ b < g.len
      · rw [if_pos ha, if_pos hb]
        have ha1 : ¬ (a = -1) := by omega
        have hb1 : ¬ (b = -1) := by omega
        rw [if_neg (by simp [ha1, hb1]), if_neg (by simp [ha1, hb1])]
        have hs := hi.symm ht a.toNat b.toNat
        have ea : ((a.toNat : Nat) : Int) = a := by omega
        have eb : ((b.toNat : Nat) : Int) = b := by omega
        rw [ea, eb] at hs
        have h1 := firstWeight_isSome (itemsOf (g.vertexAt a).neighbors) b
        have h2 := firstWeight_isSome (itemsOf (g.vertexAt b).neighbors) a
        show some (hasIndex (itemsOf (g.vertexAt a).neighbors) b) =
          some (hasIndex (itemsOf (g.vertexAt b).neighbors) a)
        rw [← h1, ← h2]
        show some (firstWeight (itemsOf (g.vertices.getD a.toNat default).neighbors) b).isSome =
          some (firstWeight (itemsOf (g.vertices.getD b.toNat default).neighbors) a).isSome
        rw [hs]
      · rw [if_neg hb]
        simp
    · rw [if_neg ha]
      simp
  · rw [grafo_getWeight_value g b a hl, grafo_find_inv g hi hl a, grafo_find_inv g hi hl b]
    by_cases ha : 0 ≤ a ∧ a < g.len
    · by_cases hb : 0 ≤ b ∧ b < g.len
      · rw [if_pos ha, if_pos hb]
        have ha1 : ¬ (a = -1) := by omega
        have hb1 : ¬ (b = -1) := by omega
        rw [if_neg (by simp [ha1, hb1]), if_neg (by simp [ha1, hb1])]
        have hs := hi.symm ht a.toNat b.toNat
        have ea : ((a.toNat : Nat) : Int) = a := by omega
        have eb : ((b.toNat : Nat) : Int) = b := by omega
        rw [ea, eb] at hs
        show some ((firstWeight (itemsOf (g.vertices.getD b.toNat default).neighbors) a).getD
            (-1)) =
          some ((firstWeight (itemsOf (g.vertices.getD a.toNat default).neighbors) b).getD (-1))
        rw [hs]
      · rw [if_neg hb]
        simp
    · rw [if_neg ha]
      simp

/-- Witness of C18: the undirected graph of MEX and LHR with the edge (0, 1) of weight
1.0, keys 0 and 1: adjacent both ways, weight 1.0 both ways. -/
theorem C18_undirected_adjacency_symmetric_witness :
    Reachable pair_graph_edge ∧
    pair_graph_edge.type = eGraphType.eGraphType_UNDIRECTED ∧ 0 < pair_graph_edge.len ∧
    (Graph_IsNeighborOf pair_graph_edge 0 1).map Prod.fst = some true ∧
    (Graph_GetWeight pair_graph_edge 1 0).map Prod.fst = some 1 ∧
    ∃ (r : Bool) (w : ℚ),
      (Graph_IsNeighborOf pair_graph_edge 0 1).map Prod.fst = some r ∧
      (Graph_IsNeighborOf pair_graph_edge 1 0).map Prod.fst = some r ∧
      (Graph_GetWeight pair_graph_edge 0 1).map Prod.fst = some w ∧
      (Graph_GetWeight pair_graph_edge 1 0).map Prod.fst = some w :=
  ⟨pair_graph_edge_reachable, rfl, by decide, by decide, by decide,
    C18_undirected_adjacency_symmetric pair_graph_edge 0 1 pair_graph_edge_reachable rfl
      (by decide)⟩

/-! ### No duplicates -/

theorem grafo_nodup_addWeightedEdge (g g1 : Graph) (s f : Int) (w : ℚ) (b : Bool)
    (hi : Inv g)
    (hn : ∀ i : Nat, ((itemsOf (g.vertices.getD i default).neighbors).map Data.index).Nodup)
    (h : Graph_AddWeightedEdge g s f w = some (b, g1)) :
    ∀ i : Nat, ((itemsOf (g1.vertices.getD i default).neighbors).map Data.index).Nodup := by
  cases b with
  | false =>
    obtain ⟨rfl, -⟩ := grafo_addWeightedEdge_false g g1 s f w h
    exact hn
  | true =>
    obtain ⟨x, y, -, -, -, -, -, -, -, -, -, h5⟩ :=
      grafo_addWeightedEdge_true g g1 s f w hi.length_eq h
    intro i
    rw [h5 i]
    exact nodup_edgeCore _ _ _ _ _ _ (hn i)

theorem grafo_nodup_runOps (ops : List Op) (g g1 : Graph) (hi : Inv g)
    (hn : ∀ i : Nat, ((itemsOf (g.vertices.getD i default).neighbors).map Data.index).Nodup)
    (h : runOps g ops = some g1) :
    ∀ i : Nat, ((itemsOf (g1.vertices.getD i default).neighbors).map Data.index).Nodup := by
  induction ops generalizing g with
  | nil =>
    simp only [runOps, Option.some.injEq] at h
    subst h
    exact hn
  | cons op ops ih =>
    simp only [runOps] at h
    cases hop : op.apply g with
    | none => rw [hop] at h; simp at h
    | some g2 =>
      rw [hop] at h
      simp only [Option.some_bind] at h
      have hi2 : Inv g2 := grafo_inv_runOps [op] g g2 hi (by simp [runOps, hop])
      refine ih g2 hi2 ?_ h
      cases op with
      | addVertex ap =>
        intro i
        rw [grafo_addVertex_items g g2 ap hi hop i]
        exact hn i
      | addEdge s f =>
        simp only [Op.apply, grafo_addEdge_eq] at hop
        cases hr : Graph_AddWeightedEdge g s f 0 with
        | none => rw [hr] at hop; simp at hop
        | some r =>
          rw [hr] at hop
          simp only [Option.map_some', Option.some.injEq] at hop
          subst hop
          exact grafo_nodup_addWeightedEdge g r.2 s f 0 r.1 hi hn hr
      | addWeightedEdge s f w =>
        simp only [Op.apply] at hop
        cases hr : Graph_AddWeightedEdge g s f w with
        | none => rw [hr] at hop; simp at hop
        | some r =>
          rw [hr] at hop
          simp only [Option.map_some', Option.some.injEq] at hop
          subst hop
          exact grafo_nodup_addWeightedEdge g r.2 s f w r.1 hi hn hr

/-- No neighbor list of a reachable graph holds an index twice. -/
theorem grafo_nodup_of_reachable (g : Graph) (h : Reachable g) (i : Nat) :
    ((itemsOf (g.vertices.getD i default).neighbors).map Data.index).Nodup := by
  obtain ⟨size, type, ops, h⟩ := h
  cases h0 : Graph_New size type with
  | none => rw [h0] at h; simp at h
  | some g0 =>
    rw [h0] at h
    simp only [Option.some_bind] at h
    refine grafo_nodup_runOps ops g0 g (grafo_inv_new size type g0 h0) ?_ h i
    intro j
    unfold Graph_New at h0
    by_cases hs : size > 0
    · rw [if_pos hs] at h0
      simp only [Option.some.injEq] at h0
      subst h0
      simp only [getD_replicate_same]
      exact List.nodup_nil
    · rw [if_neg hs] at h0
      exact absurd h0 (by simp)

/-- C19: in every reachable graph of `grafo6.2.c` the neighbor list of every vertex
holds each neighbor index at most once; and after a self-edge `Graph_AddEdge(g, a,
a)` that returns true on an undirected reachable graph, the list of the vertex of
`a` holds the index of `a` exactly once. -/
theorem C19_no_duplicate_neighbor (g : Graph) (hg : Reachable g) :
    (∀ i : Int, ((g.neighborItems i).map Data.index).Nodup) ∧
    (∀ (a : Int) (g1 : Graph), g.type = eGraphType.eGraphType_UNDIRECTED →
      Graph_AddEdge g a a = some (true, g1) →
      ((g1.neighborItems (find g.vertices g.size a)).map Data.index).count
        (find g.vertices g.size a) = 1) := by
  have hi := grafo_inv_of_reachable g hg
  have hn := grafo_nodup_of_reachable g hg
  refine ⟨fun i => ?_, fun a g1 _ h => ?_⟩
  · have := hn i.toNat
    unfold Graph.neighborItems Graph.vertexAt
    cases hnb : (g.vertices.getD i.toNat default).neighbors with
    | none => exact List.nodup_nil
    | some l =>
      rw [hnb] at this
      exact this
  · rw [grafo_addEdge_eq] at h
    have hn1 := grafo_nodup_addWeightedEdge g g1 a a 0 true hi hn h
    obtain ⟨x, y, hx, hy, -, -, -, -, -, -, -, h5⟩ :=
      grafo_addWeightedEdge_true g g1 a a 0 hi.length_eq h
    have hxy : y = x := by
      rw [hx] at hy
      omega
    subst hxy
    rw [hx, grafo_neighborItems_cast]
    apply List.count_eq_one_of_mem (hn1 y)
    have := hasIndex_edgeCore_start g.type y y 0 (g.vertices.getD y default).neighbors
    rw [hasIndex_iff_mem] at this
    rw [h5 y]
    exact this

/-- Witness of C19: the undirected graph of MEX and LHR; the self-edge on key 0
leaves the single entry 0 in the list of vertex 0. -/
theorem C19_no_duplicate_neighbor_witness :
    ∃ g1, Reachable pair_graph ∧
      pair_graph.type = eGraphType.eGraphType_UNDIRECTED ∧
      Graph_AddEdge pair_graph 0 0 = some (true, g1) ∧
      g1.neighborItems 0 = [{ index := 0, weight := 0 }] ∧
      ((g1.neighborItems (find pair_graph.vertices pair_graph.size 0)).map Data.index).count
        (find pair_graph.vertices pair_graph.size 0) = 1 :=
  ⟨_, pair_graph_reachable, rfl, rfl, by decide,
    (C19_no_duplicate_neighbor pair_graph pair_graph_reachable).2 0 _ rfl rfl⟩

end Grafo62

/-! ## `find` in both programs -/

namespace Grafo62

/-! ## `grafo6.2.c`: capacity and kind, empty traversal, fields of a vertex -/

theorem grafo_addWeightedEdge_fields (g g1 : Graph) (s f : Int) (w : ℚ) (b : Bool)
    (h : Graph_AddWeightedEdge g s f w = some (b, g1)) :
    g1.size = g.size ∧ g1.type = g.type ∧ g1.len = g.len := by
  unfold Graph_AddWeightedEdge at h
  by_cases hl : g.len > 0
  · rw [if_pos hl] at h
    simp only at h
    split at h
    · simp only [Option.some.injEq, Prod.mk.injEq] at h
      rw [← h.2]
      exact ⟨rfl, rfl, rfl⟩
    · simp only [Option.some.injEq, Prod.mk.injEq] at h
      rw [← h.2]
      split
      · exact ⟨rfl, rfl, rfl⟩
      · exact ⟨rfl, rfl, rfl⟩
  · rw [if_neg hl] at h
    exact absurd h (by simp)

/-- A sequence of calls changes neither `size` nor `type`. -/
theorem grafo_runOps_fields (ops : List Op) (g g1 : Graph) (h : runOps g ops = some g1) :
    g1.size = g.size ∧ g1.type = g.type := by
  induction ops generalizing g with
  | nil =>
    simp only [runOps, Option.some.injEq] at h
    subst h
    exact ⟨rfl, rfl⟩
  | cons op ops ih =>
    simp only [runOps] at h
    cases hop : op.apply g with
    | none => rw [hop] at h; simp at h
    | some g2 =>
      rw [hop] at h
      simp only [Option.some_bind] at h
      obtain ⟨i1, i2⟩ := ih g2 h
      have step : g2.size = g.size ∧ g2.type = g.type := by
        cases op with
        | addVertex ap =>
          obtain ⟨-, rfl⟩ := grafo_addVertex_some g g2 ap hop
          exact ⟨rfl, rfl⟩
        | addEdge s f =>
          simp only [Op.apply, grafo_addEdge_eq] at hop
          cases hr : Graph_AddWeightedEdge g s f 0 with
          | none => rw [hr] at hop; simp at hop
          | some r =>
            rw [hr] at hop
            simp only [Option.map_some', Option.some.injEq] at hop
            subst hop
            obtain ⟨e1, e2, -⟩ := grafo_addWeightedEdge_fields g r.2 s f 0 r.1 hr
            exact ⟨e1, e2⟩
        | addWeightedEdge s f w =>
          simp only [Op.apply] at hop
          cases hr : Graph_AddWeightedEdge g s f w with
          | none => rw [hr] at hop; simp at hop
          | some r =>
            rw [hr] at hop
            simp only [Option.map_some', Option.some.injEq] at hop
            subst hop
            obtain ⟨e1, e2, -⟩ := grafo_addWeightedEdge_fields g r.2 s f w r.1 hr
            exact ⟨e1, e2⟩
      exact ⟨i1.trans step.1, i2.trans step.2⟩

/-- C21: `Graph_New(n, kind)` with `n > 0` returns a graph with `size = n`, `len = 0`,
`type = kind` and `n` slots, none of which has a neighbor list; and every graph
reached from it by `Graph_AddVertex`, `Graph_AddEdge` and `Graph_AddWeightedEdge`
calls whose assertions hold has `size = n`, `type = kind` and `0 ≤ len ≤ size`. -/
theorem C21_capacity_and_kind_fixed (n : Int) (kind : eGraphType) (hn : 0 < n) :
    ∃ g0, Graph_New n kind = some g0 ∧
      Graph_GetSize g0 = n ∧ Graph_GetLen g0 = 0 ∧ g0.type = kind ∧
      (g0.vertices.length : Int) = n ∧
      (∀ i : Nat, (g0.vertices.getD i default).neighbors = none) ∧
      ∀ (ops : List Op) (g : Graph), runOps g0 ops = some g →
        Graph_GetSize g = n ∧ g.type = kind ∧ 0 ≤ Graph_GetLen g ∧
          Graph_GetLen g ≤ Graph_GetSize g := by
  have h0 : Graph_New n kind = some
      { vertices := List.replicate n.toNat default, size := n, len := 0, type := kind } := by
    unfold Graph_New
    rw [if_pos hn]
  refine ⟨_, h0, rfl, rfl, rfl, ?_, ?_, ?_⟩
  · simp only [List.length_replicate]
    omega
  · intro i
    simp only [getD_replicate_same]
    rfl
  · intro ops g hr
    have hi := grafo_inv_runOps ops _ g (grafo_inv_new n kind _ h0) hr
    obtain ⟨e1, e2⟩ := grafo_runOps_fields ops _ g hr
    exact ⟨e1, e2, hi.len_nonneg, hi.len_le⟩

/-- Witness of C21: capacity 5, directed, then the five `Graph_AddVertex` calls of
the demo and two edge calls: `size` is 5, the kind is directed, `len` is 5. -/
theorem C21_capacity_and_kind_fixed_witness :
    (0 : Int) < 5 ∧
    (∃ g, (Graph_New 5 eGraphType.eGraphType_DIRECTED).bind (fun g0 =>
        runOps g0 (demo_vertices ++ [Op.addEdge 0 1, Op.addWeightedEdge 1 2 9])) = some g ∧
      Graph_GetSize g = 5 ∧ g.type = eGraphType.eGraphType_DIRECTED ∧ Graph_GetLen g = 5) ∧
    ∃ g0, Graph_New 5 eGraphType.eGraphType_DIRECTED = some g0 ∧
      Graph_GetSize g0 = 5 ∧ Graph_GetLen g0 = 0 ∧
      g0.type = eGraphType.eGraphType_DIRECTED ∧
      (g0.vertices.length : Int) = 5 ∧
      (∀ i : Nat, (g0.vertices.getD i default).neighbors = none) ∧
      ∀ (ops : List Op) (g : Graph), runOps g0 ops = some g →
        Graph_GetSize g = 5 ∧ g.type = eGraphType.eGraphType_DIRECTED ∧ 0 ≤ Graph_GetLen g ∧
          Graph_GetLen g ≤ Graph_GetSize g :=
  ⟨by decide, ⟨_, rfl, by decide, by decide, by decide⟩,
    C21_capacity_and_kind_fixed 5 eGraphType.eGraphType_DIRECTED (by decide)⟩

/-- C22: for every vertex of `grafo6.2.c` whose field `neighbors` is absent,
`Vertex_Start` leaves the vertex as it is, `Vertex_End` is true right after it, and
the traversal loop of `main` ends at its first test, having read no entry. -/
theorem C22_absent_list_is_empty_traversal (v : Vertex) (hv : v.neighbors = none) :
    Vertex_Start v = v ∧ Vertex_End (Vertex_Start v) = true ∧
    ∀ n : Nat, traverse (n + 1) v = some ([], v) := by
  have h1 : Vertex_Start v = v := by
    cases v with
    | mk d nb c ds p ai =>
      simp only at hv
      subst hv
      rfl
  have h2 : Vertex_End v = true := by
    unfold Vertex_End
    rw [hv]
  refine ⟨h1, by rw [h1]; exact h2, fun n => ?_⟩
  unfold traverse
  rw [h1]
  unfold traverse_loop
  rw [dif_pos h2]

/-- Witness of C22: the vertex `Graph_AddVertex` writes for the airport MEX. -/
theorem C22_absent_list_is_empty_traversal_witness :
    (fresh_vertex 0 airport_MEX).neighbors = none ∧
    Vertex_Start (fresh_vertex 0 airport_MEX) = fresh_vertex 0 airport_MEX ∧
    Vertex_End (Vertex_Start (fresh_vertex 0 airport_MEX)) = true ∧
    ∀ n : Nat, traverse (n + 1) (fresh_vertex 0 airport_MEX) =
      some ([], fresh_vertex 0 airport_MEX) :=
  ⟨rfl, C22_absent_list_is_empty_traversal (fresh_vertex 0 airport_MEX) rfl⟩

/-- C23: on a graph of `grafo6.2.c` with `len = n`, `0 ≤ n < size` and an array of
`size` slots, `Graph_AddVertex(g, airport)` leaves vertex `n` with the given airport
record, the colour `BLACK`, the distance 0, the predecessor -1 and no neighbor list;
and for every vertex each of `Vertex_SetColor`, `Vertex_SetDistance` and
`Vertex_SetPredecessor` makes its getter return the value set and leaves the values
of the two other getters as they were. -/
theorem C23_vertex_defaults_and_accessors (g : Graph) (airport : Airport)
    (h0 : 0 ≤ g.len) (hlt : g.len < g.size) (hlen : g.vertices.length = g.size.toNat) :
    (∃ g1, Graph_AddVertex g airport = some g1 ∧
      (g1.vertexAt g.len).airport_info = airport ∧
      Vertex_GetColor (g1.vertexAt g.len) = eGraphColors.BLACK ∧
      Vertex_GetDistance (g1.vertexAt g.len) = 0 ∧
      Vertex_GetPredecessor (g1.vertexAt g.len) = -1 ∧
      (g1.vertexAt g.len).neighbors = none) ∧
    (∀ (v : Vertex) (c : eGraphColors),
      Vertex_GetColor (Vertex_SetColor v c) = c ∧
      Vertex_GetDistance (Vertex_SetColor v c) = Vertex_GetDistance v ∧
      Vertex_GetPredecessor (Vertex_SetColor v c) = Vertex_GetPredecessor v) ∧
    (∀ (v : Vertex) (d : Int),
      Vertex_GetDistance (Vertex_SetDistance v d) = d ∧
      Vertex_GetColor (Vertex_SetDistance v d) = Vertex_GetColor v ∧
      Vertex_GetPredecessor (Vertex_SetDistance v d) = Vertex_GetPredecessor v) ∧
    (∀ (v : Vertex) (p : Int),
      Vertex_GetPredecessor (Vertex_SetPredecessor v p) = p ∧
      Vertex_GetColor (Vertex_SetPredecessor v p) = Vertex_GetColor v ∧
      Vertex_GetDistance (Vertex_SetPredecessor v p) = Vertex_GetDistance v) := by
  refine ⟨?_, fun _ _ => ⟨rfl, rfl, rfl⟩, fun _ _ => ⟨rfl, rfl, rfl⟩,
    fun _ _ => ⟨rfl, rfl, rfl⟩⟩
  have hsome : Graph_AddVertex g airport = some
      { g with
        vertices := g.vertices.set g.len.toNat
          { data := g.len, neighbors := none, color := eGraphColors.BLACK, distance := 0,
            predecessor := -1, airport_info := airport },
        len := g.len + 1 } := by
    unfold Graph_AddVertex
    rw [if_pos hlt]
    rfl
  have hidx : g.len.toNat < g.vertices.length := by omega
  have hv : ({ g with
        vertices := g.vertices.set g.len.toNat
          { data := g.len, neighbors := none, color := eGraphColors.BLACK, distance := 0,
            predecessor := -1, airport_info := airport },
        len := g.len + 1 } : Graph).vertexAt g.len =
      { data := g.len, neighbors := none, color := eGraphColors.BLACK, distance := 0,
        predecessor := -1, airport_info := airport } := by
    show (g.vertices.set g.len.toNat _).getD g.len.toNat default = _
    rw [getD_set_self _ _ _ _ hidx]
  refine ⟨_, hsome, ?_, ?_, ?_, ?_, ?_⟩ <;> rw [hv] <;> rfl

/-- Witness of C23: the empty graph of capacity 2 and the airport MEX. -/
theorem C23_vertex_defaults_and_accessors_witness :
    (0 : Int) ≤ empty_graph.len ∧ empty_graph.len < empty_graph.size ∧
    empty_graph.vertices.length = empty_graph.size.toNat ∧
    ∃ g1, Graph_AddVertex empty_graph airport_MEX = some g1 ∧
      (g1.vertexAt empty_graph.len).airport_info = airport_MEX ∧
      Vertex_GetColor (g1.vertexAt empty_graph.len) = eGraphColors.BLACK ∧
      Vertex_GetDistance (g1.vertexAt empty_graph.len) = 0 ∧
      Vertex_GetPredecessor (g1.vertexAt empty_graph.len) = -1 ∧
      (g1.vertexAt empty_graph.len).neighbors = none :=
  ⟨by decide, by decide, by decide,
    (C23_vertex_defaults_and_accessors empty_graph airport_MEX (by decide) (by decide)
      (by decide)).1⟩

end Grafo62

theorem mem_itemsOf_edgeCore_weight (type : eGraphType) (a b : Nat) (w : ℚ) (i : Nat)
    (nb : Option NeighborList) (d : Data) (hd : d ∈ itemsOf (edgeCore type a b w i nb)) :
    d ∈ itemsOf nb ∨ d.weight = w := by
  have key : ∀ (n : Option NeighborList) (k : Int), d ∈ itemsOf (insertCore n k w) →
      d ∈ itemsOf n ∨ d.weight = w := by
    intro n k h
    rw [itemsOf_insertCore] at h
    split at h
    · exact Or.inl h
    · rcases List.mem_append.1 h with h | h
      · exact Or.inl h
      · right
        simp at h
        rw [h]
  unfold edgeCore at hd
  simp only at hd
  split at hd
  · rcases key _ _ hd with h | h
    · split at h
      · exact key _ _ h
      · exact Or.inl h
    · exact Or.inr h
  · split at hd
    · exact key _ _ hd
    · exact Or.inl hd

theorem firstWeight_mem (items : List Data) (k : Int) (x : ℚ)
    (h : firstWeight items k = some x) : ∃ d ∈ items, d.weight = x := by
  unfold firstWeight at h
  cases hf : items.find? (fun d => decide (d.index = k)) with
  | none => rw [hf] at h; simp at h
  | some d =>
    rw [hf] at h
    simp only [Option.map_some', Option.some.injEq] at h
    exact ⟨d, List.mem_of_find?_eq_some hf, h⟩

namespace Grafo62

/-! ## `grafo6.2.c`: keys are indices, the sentinel -1.0 -/

/-- C24: in every reachable graph of `grafo6.2.c` and for every key, whatever the
airport records, `find(g.vertices, g.size, key)` is `key` when `0 ≤ key < max(len,
1)` and -1 otherwise; hence with `len > 0` `Graph_AddWeightedEdge(g, s, f, w)`
returns true exactly when `0 ≤ s < len` and `0 ≤ f < len`. -/
theorem C24_key_is_insertion_index (g : Graph) (key s f : Int) (w : ℚ)
    (hg : Reachable g) :
    find g.vertices g.size key = (if 0 ≤ key ∧ key < max g.len 1 then key else -1) ∧
    (0 < g.len →
      ((Graph_AddWeightedEdge g s f w).map Prod.fst = some true ↔
        (0 ≤ s ∧ s < g.len) ∧ (0 ≤ f ∧ f < g.len))) := by
  have hi := grafo_inv_of_reachable g hg
  refine ⟨?_, fun hl => ?_⟩
  · by_cases hl : 0 < g.len
    · rw [grafo_find_inv g hi hl key, max_eq_left (by omega)]
    · have hlen0 : g.len = 0 := by have := hi.len_nonneg; omega
      have hsz := hi.size_pos
      rw [hlen0, max_eq_right (by decide), grafo_find_eq]
      obtain ⟨f1, -, f3⟩ := findCore_first (fun j => (g.vertices.getD j default).data) key g.size
      by_cases hk : 0 ≤ key ∧ key < 1
      · rw [if_pos hk]
        have hk0 : key = 0 := by omega
        obtain ⟨r, hr, hr0⟩ := f3 0 (by simpa using hsz)
          (by show (g.vertices.getD 0 default).data = key
              rw [hi.data_ge 0 (by rw [hlen0]; simp), hk0])
        rw [hr, hk0]
        omega
      · rw [if_neg hk]
        apply f1.2
        intro i _
        show (g.vertices.getD i default).data ≠ key
        rw [hi.data_ge i (by rw [hlen0]; simp)]
        omega
  · unfold Graph_AddWeightedEdge
    rw [if_pos hl, grafo_find_inv g hi hl s, grafo_find_inv g hi hl f]
    simp only
    by_cases hs : 0 ≤ s ∧ s < g.len
    · by_cases hf : 0 ≤ f ∧ f < g.len
      · have hs1 : ¬ (s = -1) := by omega
        have hf1 : ¬ (f = -1) := by omega
        rw [if_pos hs, if_pos hf, if_neg (by simp [hs1, hf1])]
        simp [hs, hf]
      · rw [if_neg hf]
        simp [hf]
    · rw [if_neg hs]
      simp [hs]

/-- Witness of C24: the directed demo graph, whose airports have the ids 100 to 150:
the key 100 is not found, the key 3 is found at index 3, and
`Graph_AddWeightedEdge(g, 0, 1, 9.0)` returns true. -/
theorem C24_key_is_insertion_index_witness :
    Reachable demo_graph ∧ 0 < demo_graph.len ∧
    find demo_graph.vertices demo_graph.size 100 = -1 ∧
    find demo_graph.vertices demo_graph.size 3 = 3 ∧
    (Graph_AddWeightedEdge demo_graph 0 1 9).map Prod.fst = some true ∧
    ((Graph_AddWeightedEdge demo_graph 0 1 9).map Prod.fst = some true ↔
      ((0 : Int) ≤ 0 ∧ 0 < demo_graph.len) ∧ ((0 : Int) ≤ 1 ∧ 1 < demo_graph.len)) :=
  ⟨demo_graph_reachable, by decide, by decide, by decide, by decide,
    (C24_key_is_insertion_index demo_graph 3 0 1 9 demo_graph_reachable).2 (by decide)⟩

theorem grafo_nonneg_runOps (ops : List Op) (g g1 : Graph) (hi : Inv g)
    (hn : ∀ i : Nat, ∀ d ∈ itemsOf (g.vertices.getD i default).neighbors, 0 ≤ d.weight)
    (hw : ∀ op ∈ ops, Op.weight_nonneg op)
    (h : runOps g ops = some g1) :
    ∀ i : Nat, ∀ d ∈ itemsOf (g1.vertices.getD i default).neighbors, 0 ≤ d.weight := by
  induction ops generalizing g with
  | nil =>
    simp only [runOps, Option.some.injEq] at h
    subst h
    exact hn
  | cons op ops ih =>
    simp only [runOps] at h
    cases hop : op.apply g with
    | none => rw [hop] at h; simp at h
    | some g2 =>
      rw [hop] at h
      simp only [Option.some_bind] at h
      have hi2 : Inv g2 := grafo_inv_runOps [op] g g2 hi (by simp [runOps, hop])
      have hwop : Op.weight_nonneg op := hw op (List.mem_cons_self _ _)
      refine ih g2 hi2 ?_ (fun o ho => hw o (List.mem_cons_of_mem _ ho)) h
      have edge : ∀ (s f : Int) (w : ℚ) (r : Bool × Graph), 0 ≤ w →
          Graph_AddWeightedEdge g s f w = some r →
          ∀ i : Nat, ∀ d ∈ itemsOf (r.2.vertices.getD i default).neighbors, 0 ≤ d.weight := by
        intro s f w r hw0 hr i d hd
        obtain ⟨b, gr⟩ := r
        cases b with
        | false =>
          obtain ⟨e, -⟩ := grafo_addWeightedEdge_false g gr s f w hr
          simp only at hd
          rw [e] at hd
          exact hn i d hd
        | true =>
          obtain ⟨x, y, -, -, -, -, -, -, -, -, -, h5⟩ :=
            grafo_addWeightedEdge_true g gr s f w hi.length_eq hr
          simp only at hd
          rw [h5 i] at hd
          rcases mem_itemsOf_edgeCore_weight _ _ _ _ _ _ d hd with hd | hd
          · exact hn i d hd
          · rw [hd]
            exact hw0
      cases op with
      | addVertex ap =>
        intro i d hd
        rw [grafo_addVertex_items g g2 ap hi hop i] at hd
        exact hn i d hd
      | addEdge s f =>
        simp only [Op.apply, grafo_addEdge_eq] at hop
        cases hr : Graph_AddWeightedEdge g s f 0 with
        | none => rw [hr] at hop; simp at hop
        | some r =>
          rw [hr] at hop
          simp only [Option.map_some', Option.some.injEq] at hop
          subst hop
          exact edge s f 0 r (le_refl 0) hr
      | addWeightedEdge s f w =>
        simp only [Op.apply] at hop
        cases hr : Graph_AddWeightedEdge g s f w with
        | none => rw [hr] at hop; simp at hop
        | some r =>
          rw [hr] at hop
          simp only [Option.map_some', Option.some.injEq] at hop
          subst hop
          exact edge s f w r hwop hr

/-- C25: in every graph of `grafo6.2.c` with `len > 0` that is reached from
`Graph_New` by calls all of whose edges were inserted with a weight that is not
negative, and for all keys `s`, `f`, `Graph_GetWeight(g, s, f)` is -1.0 exactly when
`Graph_IsNeighborOf(g, f, s)` is false. -/
theorem C25_sentinel_agrees_with_adjacency (size : Int) (type : eGraphType)
    (ops : List Op) (g : Graph) (s f : Int)
    (hw : ∀ op ∈ ops, Op.weight_nonneg op)
    (hr : (Graph_New size type).bind (fun g0 => runOps g0 ops) = some g)
    (hl : 0 < g.len) :
    (Graph_GetWeight g s f).map Prod.fst = some (-1) ↔
      (Graph_IsNeighborOf g f s).map Prod.fst = some false := by
  have hn : ∀ i : Nat, ∀ d ∈ itemsOf (g.vertices.getD i default).neighbors, 0 ≤ d.weight := by
    cases h0 : Graph_New size type with
    | none => rw [h0] at hr; simp at hr
    | some g0 =>
      rw [h0] at hr
      simp only [Option.some_bind] at hr
      have hi0 := grafo_inv_new size type g0 h0
      refine grafo_nonneg_runOps ops g0 g hi0 ?_ hw hr
      intro i d hd
      rw [hi0.none_ge i (by rw [show g0.len = 0 from by
        unfold Graph_New at h0
        by_cases hs : size > 0
        · rw [if_pos hs] at h0
          simp only [Option.some.injEq] at h0
          rw [← h0]
        · rw [if_neg hs] at h0
          exact absurd h0 (by simp)]; simp)] at hd
      exact absurd hd (List.not_mem_nil d)
  rw [grafo_getWeight_value g s f hl, grafo_isNeighborOf_value g f s hl]
  by_cases hc : find g.vertices g.size s = -1 ∨ find g.vertices g.size f = -1
  · rw [if_pos hc, if_pos hc]
    simp
  · rw [if_neg hc, if_neg hc]
    have hsome := firstWeight_isSome
      (itemsOf (g.vertexAt (find g.vertices g.size s)).neighbors) (find g.vertices g.size f)
    cases hfw : firstWeight (itemsOf (g.vertexAt (find g.vertices g.size s)).neighbors)
        (find g.vertices g.size f) with
    | none =>
      rw [hfw] at hsome
      simp only [Option.isSome_none] at hsome
      rw [← hsome]
      simp
    | some x =>
      rw [hfw] at hsome
      simp only [Option.isSome_some] at hsome
      rw [← hsome]
      obtain ⟨d, hd, hdx⟩ := firstWeight_mem _ _ x hfw
      have hx : 0 ≤ x := by
        rw [← hdx]
        exact hn (find g.vertices g.size s).toNat d hd
      have hne : x ≠ -1 := by
        intro e
        rw [e] at hx
        norm_num at hx
      simp [hne]

/-- Witness of C25: the demo graph with the edge (0, 1) of weight 9: the weight of
(0, 1) is 9, and 1 is a neighbor of 0; the weight of (1, 0) is -1, and 0 is no
neighbor of 1. -/
theorem C25_sentinel_agrees_with_adjacency_witness :
    ∃ g, (Graph_New 5 eGraphType.eGraphType_DIRECTED).bind
        (fun g0 => runOps g0 (demo_vertices ++ [Op.addWeightedEdge 0 1 9])) = some g ∧
      0 < g.len ∧
      (Graph_GetWeight g 0 1).map Prod.fst = some 9 ∧
      (Graph_IsNeighborOf g 1 0).map Prod.fst = some true ∧
      (Graph_GetWeight g 1 0).map Prod.fst = some (-1) ∧
      (Graph_IsNeighborOf g 0 1).map Prod.fst = some false ∧
      ((Graph_GetWeight g 1 0).map Prod.fst = some (-1) ↔
        (Graph_IsNeighborOf g 0 1).map Prod.fst = some false) :=
  ⟨_, rfl, by decide, by decide, by decide, by decide, by decide,
    C25_sentinel_agrees_with_adjacency 5 eGraphType.eGraphType_DIRECTED
      (demo_vertices ++ [Op.addWeightedEdge 0 1 9]) _ 1 0
      (by
        intro op hop
        simp only [demo_vertices, List.cons_append, List.nil_append, List.mem_cons,
          List.mem_singleton, List.not_mem_nil, or_false] at hop
        rcases hop with rfl | rfl | rfl | rfl | rfl | rfl
        · exact True.intro
        · exact True.intro
        · exact True.intro
        · exact True.intro
        · exact True.intro
        · show (0 : ℚ) ≤ 9
          norm_num)
      rfl (by decide)⟩

end Grafo62

end GraphADT
